import Mathlib

/-!
# AI-Interviewer backend: interview and resume routes

A shallow embedding of the route handlers of `src/backend/server.js`
(`POST /start-interview`, `POST /answer`, `POST /interview-summary`,
`POST /ideal-answers`, `POST /analyze-resume`,
`DELETE /admin/resume-reviews/:id`) together with the two tables of
`src/backend/db.js` they read and write.

Conventions of the embedding.

* A JavaScript string is a `List Char`, one `Char` per UTF-16 code unit.
* `JsVal` is a value held in memory by the handler; `Json` is a value as it is
  written to a table column or to the HTTP response by `JSON.stringify`
  (no `undefined`, no non-finite number).  `toJson` is `JSON.stringify`
  followed by reading the text back, `fromJson` is `JSON.parse` of a stored text.
* A number is the exact rational value of a double, or an infinity; an
  arithmetic operation is the exact operation followed by the rounding to the
  nearest double, ties to even.
* The text-generation client `hf.chatCompletion` is a function from the index
  of the call made by the current request to the reply of that call.
  The prompt only travels to the client, so it is not represented, except for
  the exceptions that building it can throw.
* `JSON.parse`, applied to text produced by the model, is a parameter
  `parse : Str → Option JsVal` (`none` when it throws).
* The clock (`Date.now()`, `new Date().toISOString()`) is an input.
* Statements on the tables succeed, except an `INSERT` whose primary key is
  already present, and requests are handled one after the other.  Two
  definitions leave this frame and say so: `idealAnswersReads` takes the
  outcomes of its reads of the store as an input, and `answerBothReadFirst`
  lets two requests read before either writes.
* Every handler returns an `Outcome`: the HTTP response, the database after the
  request and the number of calls made to the text-generation client
  (`FileOutcome` where the directory `uploads` is touched; the response alone
  where the handler only reads).
-/

namespace Interviewer

/-! ## Values -/

/-- JavaScript string, one `Char` per UTF-16 code unit. -/
abbrev Str := List Char

/-- Number value: a finite double given by its exact value, or an infinity. -/
inductive JsNumber
  | finite (q : ℚ)
  | posInf
  | negInf
  deriving DecidableEq

/-- Value as serialised by `JSON.stringify` (table column, response body). -/
inductive Json
  | null
  | bool (b : Bool)
  | num (q : ℚ)
  | str (s : Str)
  | arr (xs : List Json)
  | obj (kvs : List (Str × Json))

/-- Value in the memory of a handler. -/
inductive JsVal
  | undefined
  | null
  | bool (b : Bool)
  | num (x : JsNumber)
  | str (s : Str)
  | arr (xs : List JsVal)
  | obj (kvs : List (Str × JsVal))

instance : Inhabited Json := ⟨Json.null⟩

instance : Inhabited JsVal := ⟨JsVal.undefined⟩

mutual
/-- Result of `JSON.parse` on the text that `JSON.stringify` wrote for a value. -/
def fromJson : Json → JsVal
  | .null => .null
  | .bool b => .bool b
  | .num q => .num (.finite q)
  | .str s => .str s
  | .arr xs => .arr (fromJsonList xs)
  | .obj kvs => .obj (fromJsonFields kvs)
/-- Elementwise `fromJson`. -/
def fromJsonList : List Json → List JsVal
  | [] => []
  | x :: xs => fromJson x :: fromJsonList xs
/-- Fieldwise `fromJson`. -/
def fromJsonFields : List (Str × Json) → List (Str × JsVal)
  | [] => []
  | (k, v) :: kvs => (k, fromJson v) :: fromJsonFields kvs
end

mutual
/-- What `JSON.stringify` writes for a value: `none` for `undefined` (nothing is
written), `null` for a non-finite number. -/
def toJson : JsVal → Option Json
  | .undefined => none
  | .null => some .null
  | .bool b => some (.bool b)
  | .num (.finite q) => some (.num q)
  | .num _ => some .null
  | .str s => some (.str s)
  | .arr xs => some (.arr (toJsonList xs))
  | .obj kvs => some (.obj (toJsonFields kvs))
/-- Array elements: an `undefined` element is written as `null`. -/
def toJsonList : List JsVal → List Json
  | [] => []
  | x :: xs => (toJson x).getD .null :: toJsonList xs
/-- Object fields: a field holding `undefined` is left out. -/
def toJsonFields : List (Str × JsVal) → List (Str × Json)
  | [] => []
  | (k, v) :: kvs =>
    match toJson v with
    | some j => (k, j) :: toJsonFields kvs
    | none => toJsonFields kvs
end

/-- Truthiness (`ToBoolean`). -/
def JsVal.truthy : JsVal → Bool
  | .undefined => false
  | .null => false
  | .bool b => b
  | .num (.finite q) => decide (q ≠ 0)
  | .num _ => true
  | .str s => !s.isEmpty
  | .arr _ => true
  | .obj _ => true

/-- Function `Array.isArray`. -/
def JsVal.isArray : JsVal → Bool
  | .arr _ => true
  | _ => false

/-- Own property lookup in a field list. -/
def lookupField (k : Str) : List (Str × JsVal) → Option JsVal
  | [] => none
  | (k1, v) :: kvs => if k1 = k then some v else lookupField k kvs

/-- Assignment of a property: an existing key keeps its place. -/
def setField (k : Str) (v : JsVal) : List (Str × JsVal) → List (Str × JsVal)
  | [] => [(k, v)]
  | (k1, v1) :: kvs => if k1 = k then (k, v) :: kvs else (k1, v1) :: setField k v kvs

mutual
/-- Whether `ToString` of a value throws.  For a value built by `JSON.parse` this
happens for an object with an own `toString` property (it is not callable, and
neither an own `valueOf` nor the inherited one yields a primitive) and for an
array one of whose elements throws (`join` converts every element that is
neither `null` nor `undefined`). -/
def toStringThrows : JsVal → Bool
  | .arr xs => anyToStringThrows xs
  | .obj kvs => (lookupField "toString".toList kvs).isSome
  | _ => false
/-- Some element of the list throws on `ToString`. -/
def anyToStringThrows : List JsVal → Bool
  | [] => false
  | x :: xs => toStringThrows x || anyToStringThrows xs
end

/-! ## Characters, trimming, numbers -/

/-- White space of `String.prototype.trim` and of the class `\s`
(WhiteSpace and LineTerminator code points). -/
def isWhiteSpace (c : Char) : Bool :=
  let n := c.toNat
  n = 9 || n = 10 || n = 11 || n = 12 || n = 13 || n = 32 || n = 160 || n = 0x1680 ||
  (0x2000 ≤ n && n ≤ 0x200A) || n = 0x2028 || n = 0x2029 || n = 0x202F || n = 0x205F ||
  n = 0x3000 || n = 0xFEFF

/-- Class `\d` (without the `u` flag): the ten ASCII digits. -/
def isDigit (c : Char) : Bool :=
  48 ≤ c.toNat && c.toNat ≤ 57

/-- Method `String.prototype.trim`. -/
def trim (s : Str) : Str :=
  ((s.dropWhile isWhiteSpace).reverse.dropWhile isWhiteSpace).reverse

/-- Mathematical value of a run of decimal digits. -/
def digitsValue (ds : Str) : Nat :=
  ds.foldl (fun acc c => 10 * acc + (c.toNat - 48)) 0

/-- Number of halvings that bring `n` below 2, with `fuel` bounding the count. -/
def floorLog2Fuel : Nat → Nat → Nat
  | 0, _ => 0
  | fuel + 1, n => if n < 2 then 0 else floorLog2Fuel fuel (n / 2) + 1

/-- Position of the leading binary digit of `n`: `2 ^ floorLog2 n ≤ n < 2 ^ (floorLog2 n + 1)`
for `0 < n`. -/
def floorLog2 (n : Nat) : Nat :=
  floorLog2Fuel n n

/-- Quotient `a / b` rounded to the nearest integer, ties to even (`0 < b`). -/
def divRoundEven (a b : Nat) : Nat :=
  let q := a / b
  let r := a % b
  if 2 * r > b ∨ (2 * r = b ∧ q % 2 = 1) then q + 1 else q

/-- The integer with a significand of 53 binary digits nearest to `n`, ties to even. -/
def roundToSignificand (n : Nat) : Nat :=
  divRoundEven n (2 ^ (floorLog2 n - 52)) * 2 ^ (floorLog2 n - 52)

/-- Number value of a non-negative integer: the nearest double, ties to even,
`+Infinity` from `2^1024 - 2^970` on.  Integers below `2^53` are exact. -/
def numberOfNat (n : Nat) : JsNumber :=
  if n < 2 ^ 53 then .finite n
  else if floorLog2 (roundToSignificand n) < 1024 then .finite (roundToSignificand n)
  else .posInf

/-- Function `parseInt` on a non-empty run of decimal digits (the correctly rounded
value, which is what the digits of a score line of any length give in V8). -/
def parseInt (ds : Str) : JsNumber :=
  numberOfNat (digitsValue ds)

/-- What `JSON.stringify` writes for a number. -/
def jsonOfNumber : JsNumber → Json
  | .finite q => .num q
  | _ => .null

/-! ## The pattern `/Score\s*\(out of 10\)\s*:\s*(\d+)/i` -/

/-- Canonical form of a code unit for a case-insensitive match against an ASCII
pattern character: ASCII lower case letters go to upper case.  (Without the `u`
flag no code unit above 127 is folded onto an ASCII one.) -/
def canonicalize (c : Char) : Char :=
  if 97 ≤ c.toNat ∧ c.toNat ≤ 122 then Char.ofNat (c.toNat - 32) else c

/-- Match the literal `p` at the head of `s`, ignoring case; the rest of `s`. -/
def matchLiteralCI : Str → Str → Option Str
  | [], s => some s
  | _ :: _, [] => none
  | p :: ps, c :: cs => if canonicalize c = canonicalize p then matchLiteralCI ps cs else none

/-- Match of the score pattern starting exactly at the head of `s`; the captured
digits.  Each `\s*` is followed by a character that is not white space, and
nothing follows `\d+`, so the greedy choice is the only one that can succeed. -/
def matchScoreHere (s : Str) : Option Str :=
  match matchLiteralCI "Score".toList s with
  | none => none
  | some r1 =>
    match matchLiteralCI "(out of 10)".toList (r1.dropWhile isWhiteSpace) with
    | none => none
    | some r2 =>
      match r2.dropWhile isWhiteSpace with
      | ':' :: r3 =>
        let ds := (r3.dropWhile isWhiteSpace).takeWhile isDigit
        if ds = [] then none else some ds
      | _ => none

/-- Result of `text.match(/Score\s*\(out of 10\)\s*:\s*(\d+)/i)`: the capture
group of the leftmost match. -/
def matchScore : Str → Option Str
  | [] => none
  | c :: cs =>
    match matchScoreHere (c :: cs) with
    | some ds => some ds
    | none => matchScore cs

/-- Lines `text.match(...)` and `match ? parseInt(match[1]) : 0` of `POST /answer`. -/
def extractScore (text : Str) : JsNumber :=
  match matchScore text with
  | some ds => parseInt ds
  | none => .finite 0

/-! ## Tables (`src/backend/db.js`) and responses -/

/-- Row of table `interviews`.  The columns `questions`, `answers`, `scores` and
`feedbacks` hold the text `JSON.stringify` wrote for an array; the row records
the elements of that array.  `type` is the value bound to the column. -/
structure Interview where
  id : Str
  user_id : Nat
  role : Str
  questions : List Json
  answers : List Json
  scores : List Json
  feedbacks : List Json
  date : Str
  type : JsVal

/-- Row of table `resume_reviews`.  `role` and `ats_score` are the values bound
to the columns, `data` is the object whose `JSON.stringify` text is stored. -/
structure ResumeReview where
  id : Str
  user_id : Nat
  role : JsVal
  ats_score : JsVal
  data : Json
  date : Str
  file_path : Str

/-- The two tables the interview and resume routes use. -/
structure Db where
  interviews : List Interview
  resume_reviews : List ResumeReview

/-- HTTP response of a handler. -/
inductive Response (α : Type)
  /-- Success: `res.json(body)`. -/
  | json (body : α)
  /-- Failure with a fixed message: `res.status(code).json({ error })`. -/
  | status (code : Nat) (error : Str)
  /-- Failure from the outer `catch`: `res.status(500).json({ error: err.message })`. -/
  | thrown

/-- Reply of one call `hf.chatCompletion`: the call throws, or it delivers a
completion whose `choices[0].message.content` is the text `t`.  (A completion
without a text is not represented.) -/
inductive ModelReply
  | failure
  | text (t : Str)

/-- Result of handling one request. -/
structure Outcome (α : Type) where
  response : Response α
  db : Db
  modelCalls : Nat

/-- Query `SELECT * FROM interviews WHERE id = ? AND user_id = ?` through `db.get`. -/
def getInterview (db : Db) (interviewId : Str) (userId : Nat) : Option Interview :=
  db.interviews.find? (fun r => decide (r.id = interviewId) && decide (r.user_id = userId))

/-- Query `SELECT questions FROM interviews WHERE id = ?` through `db.get`. -/
def getInterviewById (db : Db) (interviewId : Str) : Option Interview :=
  db.interviews.find? (fun r => decide (r.id = interviewId))

/-- Statement `UPDATE interviews SET answers = ?, scores = ?, feedbacks = ? WHERE id = ?`. -/
def updateInterview (db : Db) (interviewId : Str) (answers scores feedbacks : List Json) : Db :=
  { db with interviews := db.interviews.map (fun r =>
      if r.id = interviewId then
        { r with answers := answers, scores := scores, feedbacks := feedbacks }
      else r) }

/-- Statement `INSERT INTO interviews ...`: `none` when the primary key `id` is
already present (the driver throws). -/
def insertInterview (db : Db) (row : Interview) : Option Db :=
  if db.interviews.any (fun r => decide (r.id = row.id)) then none
  else some { db with interviews := db.interviews ++ [row] }

/-! ## `POST /answer` -/

/-- Body of `POST /answer`. -/
structure AnswerRequest where
  interviewId : Str
  question : JsVal
  answer : JsVal

/-- Body of the success response of `POST /answer`, as serialised. -/
structure AnswerReply where
  feedback : Str
  score : Json

/-- Handler of `POST /answer` for the authenticated user `userId`. -/
def answer (db : Db) (userId : Nat) (body : AnswerRequest) (hf : Nat → ModelReply) :
    Outcome AnswerReply :=
  match getInterview db body.interviewId userId with
  | none => ⟨.status 404 "Interview not found".toList, db, 0⟩
  | some interview =>
    if !body.answer.truthy then ⟨.status 400 "Answer is required".toList, db, 0⟩
    else
      match body.answer with
      | .str a =>
        if trim a = [] then ⟨.status 400 "Answer is required".toList, db, 0⟩
        else if toStringThrows body.question then ⟨.thrown, db, 0⟩
        else
          match hf 0 with
          | .failure => ⟨.thrown, db, 1⟩
          | .text text =>
            let score := extractScore text
            let answers := fromJsonList interview.answers ++ [JsVal.str a]
            let scores := fromJsonList interview.scores ++ [JsVal.num score]
            let feedbacks := fromJsonList interview.feedbacks ++ [JsVal.str text]
            ⟨.json ⟨text, (toJson (.num score)).getD .null⟩,
              updateInterview db body.interviewId
                (toJsonList answers) (toJsonList scores) (toJsonList feedbacks), 1⟩
      | _ => ⟨.thrown, db, 0⟩

/-! ## `POST /start-interview` -/

/-- Body of `POST /start-interview`; an absent field is `undefined`. -/
structure StartRequest where
  role : JsVal
  difficulty : JsVal
  questionCount : JsVal
  resumeContext : JsVal
  passedQuestions : JsVal
  type : JsVal

/-- Body of the success response of `POST /start-interview`, as serialised. -/
structure StartReply where
  interviewId : Str
  questions : List Json

/-- Expression `v || d`. -/
def orDefault (v d : JsVal) : JsVal :=
  if v.truthy then v else d

/-- Line `role = role && role.trim() ? role.trim() : "Software Engineer"`;
`none` when `role.trim` is not a function (a truthy value that is not a string). -/
def resolveRole (role : JsVal) : Option Str :=
  if !role.truthy then some "Software Engineer".toList
  else
    match role with
    | .str s => if trim s ≠ [] then some (trim s) else some "Software Engineer".toList
    | _ => none

/-- Whether building `userPrompt` throws: a template substitution whose
`ToString` throws, or `resumeContext.slice` on a truthy value that is neither a
string nor an array. -/
def startPromptThrows (body : StartRequest) : Bool :=
  toStringThrows (orDefault body.questionCount (.num (.finite 3))) ||
  toStringThrows (orDefault body.difficulty (.str "Beginner".toList)) ||
  ((orDefault body.resumeContext (.str [])).truthy &&
    match orDefault body.resumeContext (.str []) with
    | .str _ => false
    | .arr xs => anyToStringThrows (xs.take 4000)
    | _ => true)

/-- Method `text.split(sep)` for a one-character separator. -/
def splitOn (sep : Char) : Str → List Str
  | [] => [[]]
  | c :: cs =>
    if c = sep then [] :: splitOn sep cs
    else
      match splitOn sep cs with
      | [] => [[c]]
      | l :: ls => (c :: l) :: ls

/-- Class `[\s.)-]`. -/
def isMarkerChar (c : Char) : Bool :=
  isWhiteSpace c || c = '.' || c = ')' || c = '-'

/-- Replacement `q.replace(/^\d+[\s.)-]+\s*/, '')`: when `q` starts with one or more digits
followed by one or more characters of the class, digits and the run of class
characters (and white space after it) are removed; otherwise `q` is unchanged. -/
def stripNumbering (q : Str) : Str :=
  let afterDigits := q.dropWhile isDigit
  let afterMarker := afterDigits.dropWhile isMarkerChar
  if q.takeWhile isDigit ≠ [] ∧ afterDigits.takeWhile isMarkerChar ≠ [] then
    afterMarker.dropWhile isWhiteSpace
  else q

/-- Lines 622-626: split, trim, drop empty lines, strip numbering, drop fragments. -/
def parseQuestions (text : Str) : List Str :=
  ((((splitOn '\n' text).map trim).filter (fun q => decide (q.length > 0))).map
    stripNumbering).filter (fun q => decide (q.length > 5))

/-- Row inserted by `POST /start-interview`. -/
def newInterview (interviewId : Str) (userId : Nat) (role : Str) (questions : List JsVal)
    (date : Str) (type : JsVal) : Interview :=
  { id := interviewId, user_id := userId, role := role, questions := toJsonList questions,
    answers := toJsonList [], scores := toJsonList [], feedbacks := toJsonList [],
    date := date, type := type }

/-- Lines 629-645: insert the row and answer with the id and the questions. -/
def storeInterview (db : Db) (userId : Nat) (role : Str) (questions : List JsVal)
    (interviewId date : Str) (type : JsVal) (calls : Nat) : Outcome StartReply :=
  match insertInterview db (newInterview interviewId userId role questions date type) with
  | none => ⟨.thrown, db, calls⟩
  | some db1 => ⟨.json ⟨interviewId, toJsonList questions⟩, db1, calls⟩

/-- Handler of `POST /start-interview` for the authenticated user `userId`;
`now` is `Date.now()` and `date` is `new Date().toISOString()`. -/
def startInterview (db : Db) (userId : Nat) (body : StartRequest) (now : Nat) (date : Str)
    (hf : Nat → ModelReply) : Outcome StartReply :=
  match resolveRole body.role with
  | none => ⟨.thrown, db, 0⟩
  | some role =>
    let type := orDefault body.type (.str "standard".toList)
    let interviewId := Nat.toDigits 10 now
    match body.passedQuestions with
    | .arr (q :: qs) => storeInterview db userId role (q :: qs) interviewId date type 0
    | _ =>
      if startPromptThrows body then ⟨.thrown, db, 0⟩
      else
        match hf 0 with
        | .failure => ⟨.status 500 "Failed to connect to AI service".toList, db, 1⟩
        | .text text =>
          storeInterview db userId role ((parseQuestions text).map JsVal.str)
            interviewId date type 1

/-! ## Sequences of requests -/

/-- One request to the interview routes, with everything that determines its outcome. -/
inductive Request
  | start (userId : Nat) (body : StartRequest) (now : Nat) (date : Str) (hf : Nat → ModelReply)
  | answer (userId : Nat) (body : AnswerRequest) (hf : Nat → ModelReply)

/-- Database after one request. -/
def step (db : Db) : Request → Db
  | .start userId body now date hf => (startInterview db userId body now date hf).db
  | .answer userId body hf => (answer db userId body hf).db

/-- Database after a sequence of requests handled one after the other. -/
def run (db : Db) (reqs : List Request) : Db :=
  reqs.foldl step db

/-- The database with both tables empty. -/
def emptyDb : Db :=
  ⟨[], []⟩

/-! ## The runtime function `JSON.parse`

The handlers take `JSON.parse` as a parameter.  `jsonParse` is the function of
the JSON grammar (ECMA-404) that the runtime implements; it is what the
parameter is instantiated with when a handler is run on a concrete reply. -/

/-- Negation of a number value. -/
def JsNumber.neg : JsNumber → JsNumber
  | .finite q => .finite (-q)
  | .posInf => .negInf
  | .negInf => .posInf

/-- Number value of the positive rational `n / d`: the nearest double, ties to
even, with gradual underflow below `2^-1022` and overflow to `+Infinity`. -/
def numberOfRatio (n d : Nat) : JsNumber :=
  if n = 0 then .finite 0
  else
    let e0 : Int := (floorLog2 n : Int) - (floorLog2 d : Int)
    let fits : Bool := if e0 ≥ 0 then decide (d * 2 ^ e0.toNat ≤ n) else decide (d ≤ n * 2 ^ (-e0).toNat)
    let e : Int := if fits then e0 else e0 - 1
    let sh : Int := 52 - max e (-1022)
    let k := divRoundEven (n * 2 ^ sh.toNat) (d * 2 ^ (-sh).toNat)
    if floorLog2 k + (-sh).toNat ≥ 1024 ∧ k ≠ 0 then .posInf
    else .finite ((k : ℚ) * 2 ^ (-sh).toNat / 2 ^ sh.toNat)

/-- White space of the JSON grammar. -/
def isJsonSpace (c : Char) : Bool :=
  c = ' ' || c = '\t' || c = '\n' || c = '\r'

/-- Value of a hexadecimal digit. -/
def hexValue (c : Char) : Option Nat :=
  if 48 ≤ c.toNat ∧ c.toNat ≤ 57 then some (c.toNat - 48)
  else if 97 ≤ c.toNat ∧ c.toNat ≤ 102 then some (c.toNat - 87)
  else if 65 ≤ c.toNat ∧ c.toNat ≤ 70 then some (c.toNat - 55)
  else none

/-- Characters of a JSON string after its opening quote, up to the closing
quote; the decoded string and the rest of the input. -/
def parseStringBody : Str → Option (Str × Str)
  | [] => none
  | '"' :: rest => some ([], rest)
  | '\\' :: 'u' :: a :: b :: c :: d :: rest =>
    match hexValue a, hexValue b, hexValue c, hexValue d, parseStringBody rest with
    | some x1, some x2, some x3, some x4, some (str, rest1) =>
      some (Char.ofNat (((x1 * 16 + x2) * 16 + x3) * 16 + x4) :: str, rest1)
    | _, _, _, _, _ => none
  | '\\' :: e :: rest =>
    let decoded : Option Char :=
      if e = '"' then some '"' else if e = '\\' then some '\\' else if e = '/' then some '/'
      else if e = 'b' then some (Char.ofNat 8) else if e = 'f' then some (Char.ofNat 12)
      else if e = 'n' then some '\n' else if e = 'r' then some '\r'
      else if e = 't' then some '\t' else none
    match decoded, parseStringBody rest with
    | some ch, some (str, rest1) => some (ch :: str, rest1)
    | _, _ => none
  | ch :: rest =>
    if ch.toNat < 32 ∨ ch = '\\' then none
    else
      match parseStringBody rest with
      | some (str, rest1) => some (ch :: str, rest1)
      | none => none

/-- Number value of the literal with digits `mantissa` and decimal exponent `exp10`. -/
def numberOfDecimal (mantissa : Nat) (exp10 : Int) : JsNumber :=
  if exp10 ≥ 0 then numberOfNat (mantissa * 10 ^ exp10.toNat)
  else numberOfRatio mantissa (10 ^ (-exp10).toNat)

/-- A JSON number without its sign: integer part, fraction, exponent. -/
def parseUnsigned (s : Str) : Option (JsNumber × Str) :=
  let intDigits := s.takeWhile isDigit
  let r1 := s.dropWhile isDigit
  if intDigits = [] ∨ (intDigits.length > 1 ∧ intDigits.head? = some '0') then none
  else
    let fracPart : Option (Str × Str) :=
      match r1 with
      | '.' :: r2 => if r2.takeWhile isDigit = [] then none
                     else some (r2.takeWhile isDigit, r2.dropWhile isDigit)
      | _ => some ([], r1)
    match fracPart with
    | none => none
    | some (fracDigits, r3) =>
      let expPart : Option (Int × Str) :=
        match r3 with
        | [] => some (0, r3)
        | e :: r4 =>
          if e = 'e' ∨ e = 'E' then
            let negative := r4.head? = some '-'
            let r5 := if r4.head? = some '-' ∨ r4.head? = some '+' then r4.drop 1 else r4
            if r5.takeWhile isDigit = [] then none
            else some (if negative then -(digitsValue (r5.takeWhile isDigit) : Int)
                       else (digitsValue (r5.takeWhile isDigit) : Int), r5.dropWhile isDigit)
          else some (0, r3)
      match expPart with
      | none => none
      | some (exp, r6) =>
        some (numberOfDecimal (digitsValue (intDigits ++ fracDigits))
          (exp - (fracDigits.length : Int)), r6)

mutual
/-- A JSON value, preceded by optional white space; `fuel` bounds the nesting
of calls. -/
def parseValue : Nat → Str → Option (JsVal × Str)
  | 0, _ => none
  | fuel + 1, s =>
    match s.dropWhile isJsonSpace with
    | 'n' :: 'u' :: 'l' :: 'l' :: rest => some (.null, rest)
    | 't' :: 'r' :: 'u' :: 'e' :: rest => some (.bool true, rest)
    | 'f' :: 'a' :: 'l' :: 's' :: 'e' :: rest => some (.bool false, rest)
    | '"' :: rest =>
      match parseStringBody rest with
      | some (str, rest1) => some (.str str, rest1)
      | none => none
    | '[' :: rest =>
      match rest.dropWhile isJsonSpace with
      | ']' :: rest1 => some (.arr [], rest1)
      | _ =>
        match parseElements fuel rest with
        | some (xs, rest1) => some (.arr xs, rest1)
        | none => none
    | '\x7b' :: rest =>
      match rest.dropWhile isJsonSpace with
      | '\x7d' :: rest1 => some (.obj [], rest1)
      | _ =>
        match parseMembers fuel [] rest with
        | some (kvs, rest1) => some (.obj kvs, rest1)
        | none => none
    | '-' :: rest =>
      match parseUnsigned rest with
      | some (x, rest1) => some (.num x.neg, rest1)
      | none => none
    | rest =>
      match parseUnsigned rest with
      | some (x, rest1) => some (.num x, rest1)
      | none => none
/-- Elements of a non-empty array after its opening bracket. -/
def parseElements : Nat → Str → Option (List JsVal × Str)
  | 0, _ => none
  | fuel + 1, s =>
    match parseValue fuel s with
    | none => none
    | some (v, rest) =>
      match rest.dropWhile isJsonSpace with
      | ']' :: rest1 => some ([v], rest1)
      | ',' :: rest1 =>
        match parseElements fuel rest1 with
        | some (vs, rest2) => some (v :: vs, rest2)
        | none => none
      | _ => none
/-- Members of a non-empty object after its opening brace; `acc` holds the
members read so far (a repeated key keeps its place and takes the later value). -/
def parseMembers : Nat → List (Str × JsVal) → Str → Option (List (Str × JsVal) × Str)
  | 0, _, _ => none
  | fuel + 1, acc, s =>
    match s.dropWhile isJsonSpace with
    | '"' :: rest =>
      match parseStringBody rest with
      | none => none
      | some (key, rest1) =>
        match rest1.dropWhile isJsonSpace with
        | ':' :: rest2 =>
          match parseValue fuel rest2 with
          | none => none
          | some (v, rest3) =>
            match rest3.dropWhile isJsonSpace with
            | '\x7d' :: rest4 => some (setField key v acc, rest4)
            | ',' :: rest4 => parseMembers fuel (setField key v acc) rest4
            | _ => none
        | _ => none
    | _ => none
end

/-- The function `JSON.parse`: `none` when it throws a `SyntaxError`. -/
def jsonParse (text : Str) : Option JsVal :=
  match parseValue (2 * text.length + 2) text with
  | some (v, rest) => if rest.dropWhile isJsonSpace = [] then some v else none
  | none => none

/-! ## `POST /ideal-answers` -/

/-- The fixed placeholder answer. -/
def placeholderAnswer : Str :=
  "Detailed AI answer unavailable. Please focus on relevant skills and use the STAR method.".toList

/-- The three backticks of a markdown fence. -/
def fence : Str :=
  [Char.ofNat 96, Char.ofNat 96, Char.ofNat 96]

/-- The fence followed by `json`. -/
def fenceJson : Str :=
  fence ++ "json".toList

/-- Global replacement by the empty string of the alternatives of `pats`, tried
in order at every position (`skip` characters of a match are still to be
dropped). -/
def removeAll (pats : List Str) : Nat → Str → Str
  | _, [] => []
  | skip + 1, _ :: cs => removeAll pats skip cs
  | 0, c :: cs =>
    match pats.find? (fun p => p.isPrefixOf (c :: cs)) with
    | some p => removeAll pats (p.length - 1) cs
    | none => c :: removeAll pats 0 cs

/-- Lines 772-779: trim the reply and remove markdown fences when it starts with one. -/
def cleanReply (content : Str) : Str :=
  let rawText := trim content
  if fenceJson.isPrefixOf rawText then trim (removeAll [fenceJson, fence] 0 rawText)
  else if fence.isPrefixOf rawText then trim (removeAll [fence, fence] 0 rawText)
  else rawText

/-- Value of `idealAnswers.length === 0`; `none` when reading `length` throws. -/
def lengthIsZero : JsVal → Option Bool
  | .undefined => none
  | .null => none
  | .arr xs => some xs.isEmpty
  | .str s => some s.isEmpty
  | .obj kvs =>
    match lookupField "length".toList kvs with
    | some (.num (.finite q)) => some (decide (q = 0))
    | _ => some false
  | _ => some false

/-- Condition `Array.isArray(idealAnswers) && idealAnswers.length === n`. -/
def validAnswers (n : Nat) : JsVal → Bool
  | .arr xs => decide (xs.length = n)
  | _ => false

/-- Whether the `console.warn` of line 784 throws: reading `length` of `null` or
`undefined`, or a `length` property whose `ToString` throws. -/
def warnThrows : JsVal → Bool
  | .undefined => true
  | .null => true
  | .obj kvs =>
    match lookupField "length".toList kvs with
    | some x => toStringThrows x
    | none => false
  | _ => false

/-- How the retry loop of lines 760-794 is left. -/
inductive LoopExit
  /-- The loop ended with this value of `idealAnswers`. -/
  | ended (idealAnswers : JsVal)
  /-- The loop condition threw. -/
  | threw

/-- Retry loop of lines 760-794 for `n` questions.  `remaining` is
`maxAttempts - attempts`, `calls` the number of calls made so far; the result
is the exit and the total number of calls. -/
def idealLoop (parse : Str → Option JsVal) (hf : Nat → ModelReply) (n : Nat) :
    Nat → JsVal → Nat → LoopExit × Nat
  | 0, idealAnswers, calls => (.ended idealAnswers, calls)
  | remaining + 1, idealAnswers, calls =>
    match lengthIsZero idealAnswers with
    | none => (.threw, calls)
    | some false => (.ended idealAnswers, calls)
    | some true =>
      match hf calls with
      | .failure => idealLoop parse hf n remaining idealAnswers (calls + 1)
      | .text content =>
        match parse (cleanReply content) with
        | none => idealLoop parse hf n remaining idealAnswers (calls + 1)
        | some v =>
          if validAnswers n v then (.ended v, calls + 1)
          else if warnThrows v then idealLoop parse hf n remaining v (calls + 1)
          else idealLoop parse hf n remaining (.arr []) (calls + 1)

/-- One entry of the response of `POST /ideal-answers`, as serialised. -/
structure IdealAnswer where
  question : Json
  idealAnswer : Json

/-- Lines 800-803: pair every question with `idealAnswers[i] || placeholder`. -/
def structureAnswers : List JsVal → List JsVal → List IdealAnswer
  | [], _ => []
  | q :: qs, [] =>
    ⟨(toJson q).getD .null, .str placeholderAnswer⟩ :: structureAnswers qs []
  | q :: qs, a :: as =>
    ⟨(toJson q).getD .null,
      (toJson (orDefault a (.str placeholderAnswer))).getD .null⟩ :: structureAnswers qs as

/-- Lines 808-819: the response built in the outer `catch`. -/
def fallbackAnswers (db : Db) (interviewId : Str) : List IdealAnswer :=
  let fallbackQuestions :=
    match getInterviewById db interviewId with
    | some fallbackInterview => fromJsonList fallbackInterview.questions
    | none => []
  fallbackQuestions.map (fun q => ⟨(toJson q).getD .null, .str placeholderAnswer⟩)

/-- Handler of `POST /ideal-answers` for the authenticated user `userId`. -/
def idealAnswers (parse : Str → Option JsVal) (db : Db) (userId : Nat) (interviewId : Str)
    (hf : Nat → ModelReply) : Outcome (List IdealAnswer) :=
  match getInterview db interviewId userId with
  | none => ⟨.status 404 "Interview not found".toList, db, 0⟩
  | some interview =>
    let questions := fromJsonList interview.questions
    if questions.length = 0 then ⟨.json [], db, 0⟩
    else if anyToStringThrows questions then ⟨.json (fallbackAnswers db interviewId), db, 0⟩
    else
      match idealLoop parse hf questions.length 3 (.arr []) 0 with
      | (.threw, calls) => ⟨.json (fallbackAnswers db interviewId), db, calls⟩
      | (.ended (.arr xs), calls) =>
        if xs.length ≠ questions.length then ⟨.json (fallbackAnswers db interviewId), db, calls⟩
        else ⟨.json (structureAnswers questions xs), db, calls⟩
      | (.ended _, calls) => ⟨.json (fallbackAnswers db interviewId), db, calls⟩

/-! ## `POST /analyze-resume` -/

/-- The uploaded file `req.file` with what the handler learns about it: the size
of the buffer read from disk and the outcome of the text extractor the handler
dispatches to (`pdfParse` or `tesseract.recognize`; `none` when it throws). -/
structure Upload where
  mimetype : Str
  originalname : Str
  filename : Str
  size : Nat
  extracted : Option Str

/-- ASCII part of `toLowerCase`, which is all that a comparison with an ASCII
suffix depends on. -/
def toLowerAscii (c : Char) : Char :=
  if 65 ≤ c.toNat ∧ c.toNat ≤ 90 then Char.ofNat (c.toNat + 32) else c

/-- First condition of line 849: the upload is treated as a PDF. -/
def isPdfUpload (f : Upload) : Bool :=
  decide (f.mimetype = "application/pdf".toList) ||
  (decide (f.mimetype = "application/octet-stream".toList) &&
    ".pdf".toList.isSuffixOf (f.originalname.map toLowerAscii))

/-- Condition of line 863: the upload is treated as an image. -/
def isImageUpload (f : Upload) : Bool :=
  "image/".toList.isPrefixOf f.mimetype ||
  (decide (f.mimetype = "application/octet-stream".toList) &&
    (".JPG".toList.isSuffixOf (f.originalname.map canonicalize) ||
     ".JPEG".toList.isSuffixOf (f.originalname.map canonicalize) ||
     ".PNG".toList.isSuffixOf (f.originalname.map canonicalize)))

/-- Replacement `s.replace(/C+/g, rep)` for a character class `C`: every maximal
run of class characters becomes `rep` (`inRun` tells that the previous character
was in the class). -/
def replaceRuns (isC : Char → Bool) (rep : Str) : Bool → Str → Str
  | _, [] => []
  | inRun, c :: cs =>
    if isC c then (if inRun then replaceRuns isC rep true cs else rep ++ replaceRuns isC rep true cs)
    else c :: replaceRuns isC rep false cs

/-- Replacement ``s.replace(/\n{3,}/g, '\n\n')``: `k` newlines of the current run
have been read and not yet written. -/
def capNewlines : Nat → Str → Str
  | k, [] => List.replicate (if k ≥ 3 then 2 else k) '\n'
  | k, c :: cs =>
    if c = '\n' then capNewlines (k + 1) cs
    else List.replicate (if k ≥ 3 then 2 else k) '\n' ++ c :: capNewlines 0 cs

/-- Class `[^\S\r\n]`: white space other than carriage return and line feed. -/
def isInlineSpace (c : Char) : Bool :=
  isWhiteSpace c && !(c = '\r') && !(c = '\n')

/-- Lines 898-902: the cleaning of the extracted text. -/
def normalizeText (resumeText : Str) : Str :=
  trim (replaceRuns isInlineSpace [' '] false
    (capNewlines 0 (replaceRuns isWhiteSpace [' '] false resumeText)))

/-- Result of `rawContent.match(/\{[\s\S]*\}/)`: from the first opening brace to
the last closing brace after it. -/
def matchBraces (rawContent : Str) : Option Str :=
  match rawContent.dropWhile (fun c => !(c = Char.ofNat 123)) with
  | [] => none
  | open1 :: rest =>
    match rest.reverse.dropWhile (fun c => !(c = Char.ofNat 125)) with
    | [] => none
    | revBody => some (open1 :: revBody.reverse)

/-- Retry loop of lines 934-955.  `remaining` is `maxAttempts - attempts`; the
result is the accepted `rawContent` (`none` when the third failure makes the
handler answer with status 500) and the total number of calls. -/
def analysisLoop (parse : Str → Option JsVal) (hf : Nat → ModelReply) :
    Nat → Nat → Option Str × Nat
  | 0, calls => (none, calls)
  | remaining + 1, calls =>
    match hf calls with
    | .failure => analysisLoop parse hf remaining (calls + 1)
    | .text rawContent =>
      match matchBraces rawContent with
      | none => analysisLoop parse hf remaining (calls + 1)
      | some testMatch =>
        match parse testMatch with
        | none => analysisLoop parse hf remaining (calls + 1)
        | some _ => (some rawContent, calls + 1)

/-- Property read `v.key` for a key that no prototype defines; `none` when the
read throws (`v` is `null` or `undefined`). -/
def getProp (v : JsVal) (key : Str) : Option JsVal :=
  match v with
  | .undefined => none
  | .null => none
  | .obj kvs => some ((lookupField key kvs).getD .undefined)
  | _ => some .undefined

/-- Index keys `"0"`, `"1"`, ... paired with the elements, counting from `i`. -/
def indexed : Nat → List JsVal → List (Str × JsVal)
  | _, [] => []
  | i, x :: xs => (Nat.toDigits 10 i, x) :: indexed (i + 1) xs

/-- Own enumerable properties copied by the spread `{ ...v }`. -/
def spread : JsVal → List (Str × JsVal)
  | .obj kvs => kvs
  | .arr xs => indexed 0 xs
  | .str s => indexed 0 (s.map (fun c => JsVal.str [c]))
  | _ => []

/-- Statement `INSERT INTO resume_reviews ...`: `none` when the primary key `id`
is already present (the driver throws).  Every bound value is taken as it is,
which is what the type affinity of SQLite does (`undefined` is stored as
`NULL`); PostgreSQL, the other store of `db.js`, rejects an `ats_score` that is
not an integer. -/
def insertReview (db : Db) (row : ResumeReview) : Option Db :=
  if db.resume_reviews.any (fun r => decide (r.id = row.id)) then none
  else some { db with resume_reviews := db.resume_reviews ++ [row] }

/-- Lines 957-989: parse the accepted reply, store the review, answer. -/
def storeReview (parse : Str → Option JsVal) (db : Db) (userId : Nat) (targetRole : JsVal)
    (f : Upload) (resumeText rawContent : Str) (now : Nat) (date : Str) (calls : Nat) :
    Outcome Json :=
  match matchBraces rawContent with
  | none => ⟨.status 500 "Failed to parse AI response".toList, db, calls⟩
  | some jsonMatch =>
    match parse jsonMatch with
    | none => ⟨.status 500 "AI returned malformed JSON. Please try again.".toList, db, calls⟩
    | some analysisResult =>
      match getProp analysisResult "keywordsMatched".toList,
            getProp analysisResult "missingSkills".toList,
            getProp analysisResult "formattingIssues".toList,
            getProp analysisResult "atsScore".toList with
      | some keywordsMatched, some missingSkills, some formattingIssues, some atsScore =>
        let storedData := JsVal.obj [("keywordsMatched".toList, keywordsMatched),
          ("missingSkills".toList, missingSkills), ("formattingIssues".toList, formattingIssues)]
        let row : ResumeReview :=
          { id := Nat.toDigits 10 now, user_id := userId, role := targetRole,
            ats_score := atsScore, data := (toJson storedData).getD .null, date := date,
            file_path := f.filename }
        match insertReview db row with
        | none => ⟨.thrown, db, calls⟩
        | some db1 =>
          ⟨.json ((toJson (.obj (setField "extractedText".toList (.str resumeText)
              (spread analysisResult)))).getD .null), db1, calls⟩
      | _, _, _, _ => ⟨.thrown, db, calls⟩

/-- Handler of `POST /analyze-resume` for the authenticated user `userId`;
`file` is `req.file`, `now` is `Date.now()` and `date` is
`new Date().toISOString()` at the insertion. -/
def analyzeResume (parse : Str → Option JsVal) (db : Db) (userId : Nat) (file : Option Upload)
    (targetRole : JsVal) (now : Nat) (date : Str) (hf : Nat → ModelReply) : Outcome Json :=
  match file with
  | none => ⟨.status 400 "No resume file uploaded".toList, db, 0⟩
  | some f =>
    if !targetRole.truthy then ⟨.status 400 "Target job role is required".toList, db, 0⟩
    else if f.size = 0 then ⟨.status 400 "File is empty or unreadable".toList, db, 0⟩
    else if !(isPdfUpload f || isImageUpload f) then
      ⟨.status 400 "Unsupported file type. Please upload PDF, JPG, or PNG files only.".toList, db, 0⟩
    else
      match f.extracted with
      | none =>
        if isPdfUpload f then ⟨.status 500 "Failed to parse PDF file".toList, db, 0⟩
        else ⟨.status 500 "Failed to extract text from image".toList, db, 0⟩
      | some extractedText =>
        if extractedText.length < 50 then ⟨.status 400 "Text too short or empty".toList, db, 0⟩
        else if toStringThrows targetRole then ⟨.thrown, db, 0⟩
        else
          let resumeText := (normalizeText extractedText).take 4000
          match analysisLoop parse hf 3 0 with
          | (none, calls) =>
            ⟨.status 500
              "AI Error: failed to get valid analysis after retries. Please try again.".toList,
              db, calls⟩
          | (some rawContent, calls) =>
            storeReview parse db userId targetRole f resumeText rawContent now date calls

/-! ## Notions used in the statements -/

/-- Database written by an accepted `POST /answer`. -/
def answeredDb (db : Db) (interviewId : Str) (old : Interview) (a t : Str) : Db :=
  updateInterview db interviewId (old.answers ++ [.str a])
    (old.scores ++ [jsonOfNumber (extractScore t)]) (old.feedbacks ++ [.str t])

/-- The three histories of a session have the same length. -/
def Aligned (r : Interview) : Prop :=
  r.answers.length = r.scores.length ∧ r.scores.length = r.feedbacks.length

/-- Constraint `id TEXT PRIMARY KEY` of table `interviews`. -/
def UniqueIds (db : Db) : Prop :=
  (db.interviews.map Interview.id).Nodup

/-- The response is a success. -/
def Response.isJson {α : Type} : Response α → Bool
  | .json _ => true
  | _ => false

/-- Number of requests of a sequence, handled one after the other from `db`,
that are `POST /answer` requests for `interviewId` answered with a success. -/
def acceptedAnswers (interviewId : Str) : Db → List Request → Nat
  | _, [] => 0
  | db, .answer userId body hf :: reqs =>
    (if body.interviewId = interviewId ∧ (answer db userId body hf).response.isJson = true
      then 1 else 0) +
    acceptedAnswers interviewId (step db (.answer userId body hf)) reqs
  | db, .start userId body now date hf :: reqs =>
    acceptedAnswers interviewId (step db (.start userId body now date hf)) reqs

/-- Own property lookup in a serialised field list. -/
def lookupJson (k : Str) : List (Str × Json) → Option Json
  | [] => none
  | (k1, v) :: kvs => if k1 = k then some v else lookupJson k kvs

/-- Field `k` of a serialised object; `none` when absent or not an object. -/
def Json.getField (k : Str) : Json → Option Json
  | .obj kvs => lookupJson k kvs
  | _ => none

/-- The line begins with one or more digits followed by a character of the class
of the handler: `.`, `)`, `-` or white space. -/
def beginsWithNumbering (q : Str) : Bool :=
  !(q.takeWhile isDigit).isEmpty &&
    match q.dropWhile isDigit with
    | c :: _ => isMarkerChar c
    | [] => false

/-- Lines joined by line feeds (`lines.join("\n")`). -/
def joinLines : List Str → Str
  | [] => []
  | [l] => l
  | l :: l1 :: ls => l ++ '\n' :: joinLines (l1 :: ls)

/-- The line `<k>. <text>`. -/
def numberedLine (k text : Str) : Str :=
  k ++ '.' :: ' ' :: text

/-- A numbering `<k>`: one or more decimal digits. -/
def IsNumber (k : Str) : Prop :=
  k ≠ [] ∧ ∀ c ∈ k, isDigit c = true

/-- A question text that the parsing of lines 622-626 returns as it is: on one
line, longer than 5 characters, not beginning with a character of the class
`[\s.)-]` and not ending with white space. -/
def IsPlainQuestion (text : Str) : Prop :=
  '\n' ∉ text ∧ text.length > 5 ∧ (∀ c, text.head? = some c → isMarkerChar c = false) ∧
    (∀ c, text.getLast? = some c → isWhiteSpace c = false)

/-- The request reaches the retry loop of `POST /analyze-resume`: the checks of
lines 830-895 pass with the extracted text `extractedText` and the prompt can
be built. -/
def ReachesModel (file : Option Upload) (targetRole : JsVal) (extractedText : Str) : Prop :=
  ∃ f, file = some f ∧ targetRole.truthy = true ∧ f.size ≠ 0 ∧
    (isPdfUpload f || isImageUpload f) = true ∧ f.extracted = some extractedText ∧
    50 ≤ extractedText.length ∧ toStringThrows targetRole = false

/-- Row that `POST /analyze-resume` inserts for the parsed object `analysisResult`. -/
def reviewRow (userId : Nat) (targetRole : JsVal) (f : Upload) (now : Nat) (date : Str)
    (keywordsMatched missingSkills formattingIssues atsScore : JsVal) : ResumeReview :=
  { id := Nat.toDigits 10 now, user_id := userId, role := targetRole, ats_score := atsScore,
    data := (toJson (JsVal.obj [("keywordsMatched".toList, keywordsMatched),
      ("missingSkills".toList, missingSkills),
      ("formattingIssues".toList, formattingIssues)])).getD .null,
    date := date, file_path := f.filename }

/-- The only white space of the text are single spaces: every white-space
character is U+0020 and no two white-space characters are adjacent. -/
def SingleSpaced (s : Str) : Prop :=
  (∀ c ∈ s, isWhiteSpace c = true → c = ' ') ∧
    List.Chain' (fun a b => ¬ (isWhiteSpace a = true ∧ isWhiteSpace b = true)) s

/-- Two replies that the retry loop of `POST /ideal-answers` cannot tell apart:
both calls fail, or both deliver a text and the cleaned texts agree. -/
def SameCleaned : ModelReply → ModelReply → Prop
  | .failure, .failure => True
  | .text a, .text b => cleanReply a = cleanReply b
  | _, _ => False

/-! ## Patterns as the specification words them -/

/-- The text `Score (out of 10): ` of the specification. -/
def scoreLabel : Str :=
  "Score (out of 10): ".toList

/-- Specification wording, occurrence at the head of `s`: the text
`Score (out of 10): ` followed by a run of decimal digits; the digits. -/
def literalScoreHere (s : Str) : Option Str :=
  if scoreLabel.isPrefixOf s then
    (if (s.drop scoreLabel.length).takeWhile isDigit = [] then none
     else some ((s.drop scoreLabel.length).takeWhile isDigit))
  else none

/-- Specification wording: the digit run of the first occurrence of
`Score (out of 10): <digits>` in the text. -/
def literalScore : Str → Option Str
  | [] => none
  | c :: cs =>
    match literalScoreHere (c :: cs) with
    | some ds => some ds
    | none => literalScore cs

/-- Specification wording: the line begins with one or more digits followed by
`.`, `)` or `-`. -/
def beginsWithMarker (q : Str) : Bool :=
  !(q.takeWhile isDigit).isEmpty &&
    match q.dropWhile isDigit with
    | c :: _ => c = '.' || c = ')' || c = '-'
    | [] => false

/-! ## Sample data -/

/-- Reply of the model to the sample `POST /start-interview`. -/
def sampleQuestionsText : Str :=
  "1. What is REST?\n2. Explain SQL joins.\n3. What is a race condition?".toList

/-- Body of the sample `POST /start-interview`: three questions, no resume, no
pre-supplied list. -/
def sampleStartBody : StartRequest :=
  ⟨.str "Backend Engineer".toList, .str "Beginner".toList, .num (.finite 3), .undefined,
    .undefined, .undefined⟩

/-- Reading of `new Date().toISOString()` in the samples. -/
def sampleDate : Str :=
  "2023-11-14T22:13:20.000Z".toList

/-- A `POST /start-interview` of user 7 for three questions. -/
def sampleStart : Request :=
  .start 7 sampleStartBody 1700000000000 sampleDate (fun _ => .text sampleQuestionsText)

/-- Database after `sampleStart` on the empty database. -/
def sampleDb : Db :=
  (startInterview emptyDb 7 sampleStartBody 1700000000000 sampleDate
    (fun _ => .text sampleQuestionsText)).db

/-- Reply of the model to the sample `POST /answer`. -/
def sampleFeedback : Str :=
  "Score (out of 10): 8\nFeedback: Good.".toList

/-- Body of the sample `POST /answer`. -/
def sampleAnswerBody : AnswerRequest :=
  ⟨"1700000000000".toList, .str "What is REST?".toList, .str "An architectural style.".toList⟩

/-- A `POST /answer` of user 7 to the session opened by `sampleStart`. -/
def sampleAnswer : Request :=
  .answer 7 sampleAnswerBody (fun _ => .text sampleFeedback)

/-- The session after `sampleStart`. -/
def sampleOpened : Interview :=
  { id := "1700000000000".toList, user_id := 7, role := "Backend Engineer".toList,
    questions := [.str "What is REST?".toList, .str "Explain SQL joins.".toList,
      .str "What is a race condition?".toList],
    answers := [], scores := [], feedbacks := [],
    date := sampleDate, type := .str "standard".toList }

/-- The session after `sampleStart` and `sampleAnswer`. -/
def sampleAnswered : Interview :=
  { sampleOpened with
    answers := [.str "An architectural style.".toList], scores := [.num 8],
    feedbacks := [.str sampleFeedback] }

/-- A reply that spells the score line in lower case and without blanks. -/
def variantFeedback : Str :=
  "score(out of 10):7".toList

/-- A reply with a lower-case score line before the one the specification words. -/
def twoScoresFeedback : Str :=
  "score(out of 10):7 Score (out of 10): 9".toList

/-- A reply whose score has more binary digits than a double holds. -/
def longScoreFeedback : Str :=
  "Score (out of 10): 9007199254740993".toList

/-- A `POST /answer` whose answer is blank. -/
def blankAnswerBody : AnswerRequest :=
  ⟨"1700000000000".toList, .str "What is REST?".toList, .str " \t\n".toList⟩

/-- A `POST /answer` without an answer. -/
def missingAnswerBody : AnswerRequest :=
  ⟨"1700000000000".toList, .str "What is REST?".toList, .undefined⟩

/-- Text extracted from the sample upload. -/
def sampleResumeText : Str :=
  "Jane Doe\nBackend engineer with five years of experience in Go and SQL.".toList

/-- A PDF upload with extractable text. -/
def sampleUpload : Upload :=
  ⟨"application/pdf".toList, "cv.pdf".toList, "1700000000001-cv.pdf".toList, 2048,
    some sampleResumeText⟩

/-- A model that replies with the empty JSON object. -/
def emptyObjectModel : Nat → ModelReply :=
  fun _ => .text "\x7b\x7d".toList

/-- A model that replies with a complete assessment. -/
def assessmentModel : Nat → ModelReply :=
  fun _ => .text ("Here you go: \x7b\"atsScore\": 72, \"keywordsMatched\": [\"Go\", \"SQL\"], " ++
    "\"missingSkills\": [\"Kubernetes\"], \"formattingIssues\": []\x7d").toList

/-- The sample resume text after cleaning. -/
def sampleCleanText : Str :=
  "Jane Doe Backend engineer with five years of experience in Go and SQL.".toList

/-- The success for the sample upload when the model replies with `assessmentModel`. -/
def sampleAssessment : Json :=
  .obj [("atsScore".toList, .num 72),
    ("keywordsMatched".toList, .arr [.str "Go".toList, .str "SQL".toList]),
    ("missingSkills".toList, .arr [.str "Kubernetes".toList]),
    ("formattingIssues".toList, .arr []),
    ("extractedText".toList, .str sampleCleanText)]

/-- Body of a `POST /start-interview` that supplies its own two questions. -/
def presetStartBody : StartRequest :=
  ⟨.str "  Data Analyst ".toList, .undefined, .undefined, .undefined,
    .arr [.str "1. Tell me about yourself".toList, .str "SQL?".toList], .undefined⟩

/-- The questions supplied by `presetStartBody`, as serialised. -/
def presetQuestions : List Json :=
  [.str "1. Tell me about yourself".toList, .str "SQL?".toList]

/-- A reply whose only question begins with a hyphen. -/
def hyphenQuestionText : Str :=
  numberedLine "1".toList "-hello world".toList

/-- The numbered questions of `sampleQuestionsText`. -/
def sampleItems : List (Str × Str) :=
  [("1".toList, "What is REST?".toList), ("2".toList, "Explain SQL joins.".toList),
    ("3".toList, "What is a race condition?".toList)]

/-- An extracted text with single, double and multiple line breaks. -/
def multiLineText : Str :=
  "Jane Doe\nBackend  engineer\n\nGo,\tSQL\n\n\n\nReferences".toList

/-- Text extracted from a resume with single, double and multiple line breaks,
a double space and a tab. -/
def multiLineResume : Str :=
  ("Jane Doe\nBackend  engineer with five years of experience\n\n" ++
    "Go,\tSQL\n\n\n\nReferences on request").toList

/-- A PDF upload whose text is `multiLineResume`. -/
def multiLineUpload : Upload :=
  ⟨"application/pdf".toList, "cv.pdf".toList, "1700000000001-cv.pdf".toList, 2048,
    some multiLineResume⟩

/-- A model that does not answer with JSON. -/
def proseModel : Nat → ModelReply :=
  fun _ => .text "I am sorry, I cannot assess this resume.".toList

/-- A model whose JSON is cut off before the closing brace. -/
def truncatedModel : Nat → ModelReply :=
  fun _ => .text "\x7b\"atsScore\": 72, \"keywordsMatched\": [\"Go\"".toList

/-- A model that scores the resume 150. -/
def overScoreModel : Nat → ModelReply :=
  fun _ => .text ("\x7b\"atsScore\": 150, \"keywordsMatched\": [], \"missingSkills\": [], " ++
    "\"formattingIssues\": []\x7d").toList

/-- A model that always answers with an array of two answers. -/
def twoAnswersModel : Nat → ModelReply :=
  fun _ => .text "[\"REST is an architectural style.\", \"A join combines rows.\"]".toList

/-- A model that always answers with an array of three answers, the second one empty. -/
def threeAnswersModel : Nat → ModelReply :=
  fun _ => .text "[\"REST is an architectural style.\", \"\", \"Two writers, one result.\"]".toList

/-- A model whose object has a field `extractedText` of its own. -/
def echoModel : Nat → ModelReply :=
  fun _ => .text ("\x7b\"atsScore\": 72, \"extractedText\": \"John Roe\", " ++
    "\"keywordsMatched\": [\"Go\"], \"missingSkills\": [], \"formattingIssues\": []\x7d").toList

/-- The success for the sample upload when the model replies with `echoModel`. -/
def echoAssessment : Json :=
  .obj [("atsScore".toList, .num 72), ("extractedText".toList, .str sampleCleanText),
    ("keywordsMatched".toList, .arr [.str "Go".toList]),
    ("missingSkills".toList, .arr []), ("formattingIssues".toList, .arr [])]

/-- A complete assessment as the model writes it. -/
def assessmentText : Str :=
  ("\x7b\"atsScore\": 72, \"keywordsMatched\": [\"Go\"], " ++
    "\"missingSkills\": [], \"formattingIssues\": []\x7d").toList

/-- A model that follows the assessment with a remark that contains braces. -/
def remarkModel : Nat → ModelReply :=
  fun _ => .text (assessmentText ++ " (scale \x7b0..100\x7d)".toList)

/-- A model that puts the assessment between remarks without braces. -/
def plainRemarkModel : Nat → ModelReply :=
  fun _ => .text ("Here you go: ".toList ++ assessmentText ++ " Good luck!".toList)

/-- An array of three answers on a line of its own. -/
def sampleArrayText : Str :=
  "\n[\"a\", \"b\", \"c\"]\n".toList

/-! ## `DELETE /admin/resume-reviews/:id` -/

/-- Result of handling a request that also touches the directory `uploads`:
the HTTP response, the database and the names of the files in the directory
after the request. -/
structure FileOutcome (α : Type) where
  response : Response α
  db : Db
  uploads : List Str

/-- Query `SELECT file_path FROM resume_reviews WHERE id = ?` through `db.get`. -/
def getReviewById (db : Db) (id : Str) : Option ResumeReview :=
  db.resume_reviews.find? (fun r => decide (r.id = id))

/-- Statement `DELETE FROM resume_reviews WHERE id = ?`. -/
def deleteReviewRow (db : Db) (id : Str) : Db :=
  { db with resume_reviews := db.resume_reviews.filter (fun r => !decide (r.id = id)) }

/-- Lines 512-519: when the row has a file reference and the file exists in the
directory `uploads`, the file is removed (`fs.unlinkSync`).  A file reference is
a name inside the directory, as `multer` generates it, so `path.join` only puts
the directory in front of it; removing an existing file succeeds. -/
def unlinkUpload (uploads : List Str) (file_path : Str) : List Str :=
  if file_path.isEmpty then uploads
  else uploads.filter (fun name => !decide (name = file_path))

/-- Handler of `DELETE /admin/resume-reviews/:id` for a caller whose token
carries the role `callerRole`; `uploads` holds the names of the files in the
directory `uploads`.  The success body is the fixed message. -/
def deleteReview (db : Db) (uploads : List Str) (callerRole : Str) (id : Str) :
    FileOutcome Str :=
  if callerRole ≠ "admin".toList then ⟨.status 403 "Access denied".toList, db, uploads⟩
  else
    match getReviewById db id with
    | none => ⟨.status 404 "Review not found".toList, db, uploads⟩
    | some review =>
      ⟨.json "Resume review deleted successfully".toList, deleteReviewRow db id,
        unlinkUpload uploads review.file_path⟩

/-- Database after the sample upload was analysed. -/
def sampleReviewDb : Db :=
  (analyzeResume jsonParse emptyDb 7 (some sampleUpload) (.str "Backend Engineer".toList)
    1700000000001 sampleDate assessmentModel).db

/-- The row stored for the sample upload. -/
def sampleReview : ResumeReview :=
  reviewRow 7 (.str "Backend Engineer".toList) sampleUpload 1700000000001 sampleDate
    (.arr [.str "Go".toList, .str "SQL".toList]) (.arr [.str "Kubernetes".toList]) (.arr [])
    (.num (.finite 72))

/-- Files in the directory `uploads` after the sample upload and another one. -/
def sampleUploads : List Str :=
  ["1700000000001-cv.pdf".toList, "1700000000002-other.png".toList]

/-! ## Two `POST /answer` requests in flight

Node runs a handler without interruption between two `await`s.  `POST /answer`
reads the session (`await db.get`), waits for the model
(`await hf.chatCompletion`) and only then writes (`await db.run`), computing
the three lists from the row it read at the start.  `answerRead` is the part up
to the return of the model call, `answerWrite` the rest. -/

/-- What `POST /answer` holds when the model call has returned: the arguments of
the `UPDATE` it is about to issue and the body it is about to send. -/
structure PendingAnswer where
  interviewId : Str
  answers : List Json
  scores : List Json
  feedbacks : List Json
  reply : AnswerReply

/-- Lines 654-689 of `POST /answer`: everything before the `UPDATE`.  A request
that ends here gives its response and the number of model calls it made. -/
def answerRead (db : Db) (userId : Nat) (body : AnswerRequest) (hf : Nat → ModelReply) :
    Except (Response AnswerReply × Nat) PendingAnswer :=
  match getInterview db body.interviewId userId with
  | none => .error (.status 404 "Interview not found".toList, 0)
  | some interview =>
    if !body.answer.truthy then .error (.status 400 "Answer is required".toList, 0)
    else
      match body.answer with
      | .str a =>
        if trim a = [] then .error (.status 400 "Answer is required".toList, 0)
        else if toStringThrows body.question then .error (.thrown, 0)
        else
          match hf 0 with
          | .failure => .error (.thrown, 1)
          | .text text =>
            let score := extractScore text
            let answers := fromJsonList interview.answers ++ [JsVal.str a]
            let scores := fromJsonList interview.scores ++ [JsVal.num score]
            let feedbacks := fromJsonList interview.feedbacks ++ [JsVal.str text]
            .ok ⟨body.interviewId, toJsonList answers, toJsonList scores, toJsonList feedbacks,
              ⟨text, (toJson (.num score)).getD .null⟩⟩
      | _ => .error (.thrown, 0)

/-- Lines 691-696 of `POST /answer`: the `UPDATE` and the response. -/
def answerWrite (db : Db) (p : PendingAnswer) : Outcome AnswerReply :=
  ⟨.json p.reply, updateInterview db p.interviewId p.answers p.scores p.feedbacks, 1⟩

/-- Two `POST /answer` requests handled so that both have read the session
before either writes, the first request writing first: the two responses and
the database after both.  A request that ends before its `UPDATE` writes
nothing. -/
def answerBothReadFirst (db : Db) (userId1 : Nat) (body1 : AnswerRequest)
    (hf1 : Nat → ModelReply) (userId2 : Nat) (body2 : AnswerRequest) (hf2 : Nat → ModelReply) :
    Response AnswerReply × Response AnswerReply × Db :=
  let read1 := answerRead db userId1 body1 hf1
  let read2 := answerRead db userId2 body2 hf2
  let out1 : Outcome AnswerReply :=
    match read1 with
    | .ok p1 => answerWrite db p1
    | .error (response, calls) => ⟨response, db, calls⟩
  let out2 : Outcome AnswerReply :=
    match read2 with
    | .ok p2 => answerWrite out1.db p2
    | .error (response, calls) => ⟨response, out1.db, calls⟩
  (out1.response, out2.response, out2.db)

/-- A second answer to the sample session. -/
def secondAnswerBody : AnswerRequest :=
  ⟨"1700000000000".toList, .str "Explain SQL joins.".toList, .str "They combine rows.".toList⟩

/-- Reply of the model to the second answer. -/
def secondFeedback : Str :=
  "Score (out of 10): 6\nFeedback: Too short.".toList

/-! ## `POST /ideal-answers` when a read of the store can fail

`readOk k` tells whether the `k`-th read of the request (`getDb()` followed by
`db.get`) succeeds; otherwise the driver throws. -/

/-- Lines 808-823: the outer `catch`.  Its own read can fail, which the inner
`catch` answers with status 500. -/
def fallbackResponse (db : Db) (interviewId : Str) (readOk : Bool) :
    Response (List IdealAnswer) :=
  if readOk then .json (fallbackAnswers db interviewId) else .thrown

/-- Handler of `POST /ideal-answers` for the authenticated user `userId`, with
the outcomes of its reads of the store as an input. -/
def idealAnswersReads (parse : Str → Option JsVal) (db : Db) (userId : Nat) (interviewId : Str)
    (readOk : Nat → Bool) (hf : Nat → ModelReply) : Outcome (List IdealAnswer) :=
  if !readOk 0 then ⟨fallbackResponse db interviewId (readOk 1), db, 0⟩
  else
    match getInterview db interviewId userId with
    | none => ⟨.status 404 "Interview not found".toList, db, 0⟩
    | some interview =>
      let questions := fromJsonList interview.questions
      if questions.length = 0 then ⟨.json [], db, 0⟩
      else if anyToStringThrows questions then
        ⟨fallbackResponse db interviewId (readOk 1), db, 0⟩
      else
        match idealLoop parse hf questions.length 3 (.arr []) 0 with
        | (.threw, calls) => ⟨fallbackResponse db interviewId (readOk 1), db, calls⟩
        | (.ended (.arr xs), calls) =>
          if xs.length ≠ questions.length then
            ⟨fallbackResponse db interviewId (readOk 1), db, calls⟩
          else ⟨.json (structureAnswers questions xs), db, calls⟩
        | (.ended _, calls) => ⟨fallbackResponse db interviewId (readOk 1), db, calls⟩

/-! ## `POST /interview-summary` -/

/-- Number value of a rational: the nearest double, ties to even.  (The sign of
a zero is not represented; no operation of the handler depends on it.) -/
def numberOfRat (q : ℚ) : JsNumber :=
  if 0 ≤ q then numberOfRatio q.num.toNat q.den
  else (numberOfRatio (-q).num.toNat q.den).neg

/-- Operand `b` of `a + b` of line 719 as a number (`ToNumber`), for the stored
values whose sum with a number is a number: `null`, booleans and numbers.
`POST /answer` writes numbers and `null` only.  For a string, an array or an
object `+` concatenates strings; that case is not represented (`none`). -/
def scoreOperand : Json → Option ℚ
  | .null => some 0
  | .bool b => some (if b then 1 else 0)
  | .num q => some q
  | _ => none

/-- Sum `a + b` of a number value and a finite number: the exact sum rounded to
a double; an infinite `a` stays. -/
def addNumber : JsNumber → ℚ → JsNumber
  | .finite x, b => numberOfRat (x + b)
  | .posInf, _ => .posInf
  | .negInf, _ => .negInf

/-- Line 719, `scores.reduce((a, b) => a + b, 0)`, from the accumulator `acc`. -/
def sumScores : JsNumber → List Json → Option JsNumber
  | acc, [] => some acc
  | acc, s :: rest =>
    match scoreOperand s with
    | some b => sumScores (addNumber acc b) rest
    | none => none

/-- Quotient `total / scores.length` for a non-empty array: the exact quotient
rounded to a double; an infinite `total` stays. -/
def divNumber : JsNumber → Nat → JsNumber
  | .finite x, n => numberOfRat (x / n)
  | .posInf, _ => .posInf
  | .negInf, _ => .negInf

/-- Value of `average` in line 720. -/
inductive Average
  /-- The number `0` (no scores). -/
  | zero
  /-- The text written by `toFixed(1)` for a number below `10^21` in absolute
  value: a minus sign when `negative`, then the decimal digits of
  `tenths / 10` with one digit after the point. -/
  | fixed (negative : Bool) (tenths : Nat)
  /-- The text `String(x)`, which `toFixed` returns for an infinite number and
  for a number of absolute value `10^21` or more. -/
  | plain (x : JsNumber)

/-- Method `toFixed(1)`: `tenths` is the integer `n` for which `n / 10` is nearest
to the absolute value, the larger one of two. -/
def toFixed1 : JsNumber → Average
  | .finite x =>
    if 10 ^ 21 ≤ |x| then .plain (.finite x)
    else .fixed (decide (x < 0)) ((20 * x.num.natAbs + x.den) / (2 * x.den))
  | .posInf => .plain .posInf
  | .negInf => .plain .negInf

/-- Number that `average >= 7` compares: `ToNumber` of the text rounds the
decimal `tenths / 10` to a double and of `String(x)` gives `x` back. -/
def Average.toNumber : Average → JsNumber
  | .zero => .finite 0
  | .fixed negative tenths =>
    if negative then (numberOfRat (tenths / 10)).neg else numberOfRat (tenths / 10)
  | .plain x => x

/-- Comparison `x >= b` of a number value with a finite number. -/
def JsNumber.atLeast : JsNumber → ℚ → Bool
  | .finite x, b => decide (b ≤ x)
  | .posInf, _ => true
  | .negInf, _ => false

/-- Line 727: the verdict. -/
def verdictOf (average : Average) : Str :=
  if average.toNumber.atLeast 7 then "Strong performance".toList
  else if average.toNumber.atLeast 5 then "Average performance".toList
  else "Needs improvement".toList

/-- Body of the success response of `POST /interview-summary`. -/
structure Summary where
  role : Str
  totalQuestions : Nat
  averageScore : Average
  scores : List Json
  verdict : Str

/-- Handler of `POST /interview-summary` for the authenticated user `userId`
(it reads the store only); `none` where the sum of the scores is not
represented. -/
def interviewSummary (db : Db) (userId : Nat) (interviewId : Str) : Option (Response Summary) :=
  match getInterview db interviewId userId with
  | none => some (.status 404 "Interview not found".toList)
  | some interview =>
    match sumScores (.finite 0) interview.scores with
    | none => none
    | some total =>
      let average :=
        if interview.scores.length ≠ 0 then toFixed1 (divNumber total interview.scores.length)
        else .zero
      some (.json ⟨interview.role, interview.questions.length, average, interview.scores,
        verdictOf average⟩)

/-- A session with twenty scores of 7 and one score of 6. -/
def streakSession : Interview :=
  { id := "1700000000000".toList, user_id := 7, role := "Backend Engineer".toList,
    questions := List.replicate 21 (.str "Tell me about a project.".toList),
    answers := List.replicate 21 (.str "I built a job queue.".toList),
    scores := List.replicate 20 (.num 7) ++ [.num 6],
    feedbacks := List.replicate 21 (.str "Noted.".toList),
    date := sampleDate, type := .str "standard".toList }

/-- A database that holds `streakSession` only. -/
def streakDb : Db :=
  ⟨[streakSession], []⟩

/-! # Properties -/

/-! ## Serialisation -/

mutual
theorem toJson_fromJson : ∀ j : Json, toJson (fromJson j) = some j
  | .null => by simp [fromJson, toJson]
  | .bool b => by simp [fromJson, toJson]
  | .num q => by simp [fromJson, toJson]
  | .str s => by simp [fromJson, toJson]
  | .arr xs => by simp [fromJson, toJson, toJsonList_fromJsonList xs]
  | .obj kvs => by simp [fromJson, toJson, toJsonFields_fromJsonFields kvs]
theorem toJsonList_fromJsonList : ∀ xs : List Json, toJsonList (fromJsonList xs) = xs
  | [] => by simp [fromJsonList, toJsonList]
  | x :: xs => by
    simp [fromJsonList, toJsonList, toJson_fromJson x, toJsonList_fromJsonList xs]
theorem toJsonFields_fromJsonFields :
    ∀ kvs : List (Str × Json), toJsonFields (fromJsonFields kvs) = kvs
  | [] => by simp [fromJsonFields, toJsonFields]
  | (k, v) :: kvs => by
    simp [fromJsonFields, toJsonFields, toJson_fromJson v, toJsonFields_fromJsonFields kvs]
end

theorem toJsonList_append (xs ys : List JsVal) :
    toJsonList (xs ++ ys) = toJsonList xs ++ toJsonList ys := by
  induction xs with
  | nil => simp [toJsonList]
  | cons x xs ih => simp [toJsonList, ih]

theorem toJsonList_length (xs : List JsVal) : (toJsonList xs).length = xs.length := by
  induction xs with
  | nil => simp [toJsonList]
  | cons x xs ih => simp [toJsonList, ih]

theorem fromJsonList_length (xs : List Json) : (fromJsonList xs).length = xs.length := by
  induction xs with
  | nil => simp [fromJsonList]
  | cons x xs ih => simp [fromJsonList, ih]

theorem toJson_num (x : JsNumber) : (toJson (.num x)).getD .null = jsonOfNumber x := by
  cases x <;> simp [toJson, jsonOfNumber]

/-- What `POST /answer` writes back for a list read from a column and extended
by one element. -/
theorem toJsonList_push (old : List Json) (v : JsVal) :
    toJsonList (fromJsonList old ++ [v]) = old ++ [(toJson v).getD .null] := by
  simp [toJsonList_append, toJsonList_fromJsonList, toJsonList]

theorem toJson_str (s : Str) : toJson (.str s) = some (.str s) := by
  simp [toJson]

/-! ## `POST /answer` -/

/-- Every outcome of `POST /answer`: either the database is untouched and the
response is a failure, or the request was accepted. -/
theorem answer_cases (db : Db) (userId : Nat) (body : AnswerRequest) (hf : Nat → ModelReply) :
    ((answer db userId body hf).db = db ∧
      ∀ reply, (answer db userId body hf).response ≠ .json reply) ∨
    ∃ old a t, getInterview db body.interviewId userId = some old ∧ body.answer = .str a ∧
      trim a ≠ [] ∧ toStringThrows body.question = false ∧ hf 0 = .text t ∧
      answer db userId body hf =
        ⟨.json ⟨t, jsonOfNumber (extractScore t)⟩, answeredDb db body.interviewId old a t, 1⟩ := by
  unfold answer
  split
  · left; simp
  · rename_i old hold
    split
    · left; simp
    · split
      · rename_i a ha
        split
        · left; simp
        · split
          · left; simp
          · split
            · left; simp
            · rename_i t ht
              right
              rename_i h1 h2 _
              refine ⟨old, a, t, hold, ha, h1, by simpa using h2, ht, ?_⟩
              simp only [answeredDb, toJsonList_push, toJson_num, toJson_str, Option.getD_some]
      · left; simp

theorem getInterview_mem {db : Db} {interviewId : Str} {userId : Nat} {r : Interview}
    (h : getInterview db interviewId userId = some r) :
    r ∈ db.interviews ∧ r.id = interviewId ∧ r.user_id = userId := by
  unfold getInterview at h
  have h1 := List.mem_of_find?_eq_some h
  have h2 := List.find?_some h
  simp at h2
  exact ⟨h1, h2.1, h2.2⟩

/-! ## `POST /start-interview` -/

/-- Every outcome of `POST /start-interview`: either the database is untouched
and the response is a failure, or one row was appended. -/
theorem startInterview_cases (db : Db) (userId : Nat) (body : StartRequest) (now : Nat)
    (date : Str) (hf : Nat → ModelReply) :
    ((startInterview db userId body now date hf).db = db ∧
      ∀ reply, (startInterview db userId body now date hf).response ≠ .json reply) ∨
    ∃ role questions type calls,
      (∀ r ∈ db.interviews, r.id ≠ Nat.toDigits 10 now) ∧
      startInterview db userId body now date hf =
        ⟨.json ⟨Nat.toDigits 10 now, toJsonList questions⟩,
          { db with interviews := db.interviews ++
              [newInterview (Nat.toDigits 10 now) userId role questions date type] }, calls⟩ := by
  have key : ∀ role questions type calls,
      ((storeInterview db userId role questions (Nat.toDigits 10 now) date type calls).db = db ∧
        ∀ reply, (storeInterview db userId role questions (Nat.toDigits 10 now) date type
          calls).response ≠ .json reply) ∨
      ((∀ r ∈ db.interviews, r.id ≠ Nat.toDigits 10 now) ∧
        storeInterview db userId role questions (Nat.toDigits 10 now) date type calls =
          ⟨.json ⟨Nat.toDigits 10 now, toJsonList questions⟩,
            { db with interviews := db.interviews ++
                [newInterview (Nat.toDigits 10 now) userId role questions date type] }, calls⟩) := by
    intro role questions type calls
    unfold storeInterview insertInterview
    by_cases hany : (db.interviews.any fun r =>
        decide (r.id = (newInterview (Nat.toDigits 10 now) userId role questions date type).id))
        = true
    · left; simp [hany]
    · right
      simp only [hany]
      refine ⟨?_, rfl⟩
      intro r hr hid
      apply hany
      simp only [List.any_eq_true, decide_eq_true_eq]
      exact ⟨r, hr, by simpa [newInterview] using hid⟩
  unfold startInterview
  split
  · left; simp
  · rename_i role _
    split
    · rcases key role (_ :: _) (orDefault body.type (.str "standard".toList)) 0 with h | h
      · left; exact h
      · right; exact ⟨_, _, _, _, h⟩
    · split
      · left; simp
      · split
        · left; simp
        · rename_i text _
          rcases key role ((parseQuestions text).map JsVal.str)
            (orDefault body.type (.str "standard".toList)) 1 with h | h
          · left; exact h
          · right; exact ⟨_, _, _, _, h⟩

/-! ## Invariants of the table `interviews` -/

theorem step_aligned (db : Db) (req : Request) (h : ∀ r ∈ db.interviews, Aligned r) :
    ∀ r ∈ (step db req).interviews, Aligned r := by
  cases req with
  | start userId body now date hf =>
    rcases startInterview_cases db userId body now date hf with ⟨hdb, _⟩ | ⟨_, _, _, _, _, heq⟩
    · simpa [step, hdb] using h
    · intro r hr
      simp only [step, heq, List.mem_append, List.mem_singleton] at hr
      rcases hr with hr | hr
      · exact h r hr
      · subst hr
        simp [Aligned, newInterview, toJsonList]
  | answer userId body hf =>
    rcases answer_cases db userId body hf with ⟨hdb, _⟩ | ⟨old, a, t, hold, _, _, _, _, heq⟩
    · simpa [step, hdb] using h
    · intro r hr
      have hal := h old (getInterview_mem hold).1
      simp only [step, heq, answeredDb, updateInterview, List.mem_map] at hr
      obtain ⟨r0, hr0, rfl⟩ := hr
      split
      · simp only [Aligned, List.length_append, List.length_singleton] at *
        omega
      · exact h r0 hr0

theorem run_aligned (reqs : List Request) (db : Db) (h : ∀ r ∈ db.interviews, Aligned r) :
    ∀ r ∈ (run db reqs).interviews, Aligned r := by
  induction reqs generalizing db with
  | nil => simpa [run] using h
  | cons req reqs ih =>
    simp only [run, List.foldl_cons]
    exact ih (step db req) (step_aligned db req h)

theorem run_sampleStart : run emptyDb [sampleStart] = ⟨[sampleOpened], []⟩ := by
  rfl

theorem run_sampleAnswer : run emptyDb [sampleStart, sampleAnswer] = ⟨[sampleAnswered], []⟩ := by
  rfl

/-- C3: in every database reached from the empty one by any sequence of
`POST /start-interview` and `POST /answer` requests, successful or failing,
every session has answers, scores and feedbacks of the same length. -/
theorem histories_aligned (reqs : List Request) (r : Interview)
    (hr : r ∈ (run emptyDb reqs).interviews) :
    r.answers.length = r.scores.length ∧ r.scores.length = r.feedbacks.length :=
  run_aligned reqs emptyDb (by simp [emptyDb]) r hr

theorem histories_aligned_witness :
    sampleAnswered ∈ (run emptyDb [sampleStart, sampleAnswer]).interviews ∧
    sampleAnswered.answers.length = sampleAnswered.scores.length ∧
    sampleAnswered.scores.length = sampleAnswered.feedbacks.length :=
  ⟨by rw [run_sampleAnswer]; exact List.mem_singleton.2 rfl,
    histories_aligned [sampleStart, sampleAnswer] sampleAnswered
      (by rw [run_sampleAnswer]; exact List.mem_singleton.2 rfl)⟩

/-! ## The primary key of `interviews` -/

theorem step_uniqueIds (db : Db) (req : Request) (h : UniqueIds db) :
    UniqueIds (step db req) := by
  cases req with
  | start userId body now date hf =>
    rcases startInterview_cases db userId body now date hf with ⟨hdb, _⟩ | ⟨_, _, _, _, hne, heq⟩
    · simpa [step, hdb] using h
    · unfold UniqueIds at h ⊢
      simp only [step, heq, List.map_append, List.map_cons, List.map_nil]
      refine List.Nodup.append h (List.nodup_singleton _) ?_
      intro x hx hx1
      obtain ⟨r, hr, rfl⟩ := List.mem_map.1 hx
      simp only [List.mem_singleton, newInterview] at hx1
      exact hne r hr hx1
  | answer userId body hf =>
    rcases answer_cases db userId body hf with ⟨hdb, _⟩ | ⟨old, a, t, _, _, _, _, _, heq⟩
    · simpa [step, hdb] using h
    · unfold UniqueIds at h ⊢
      simp only [step, heq, answeredDb, updateInterview, List.map_map]
      have : (Interview.id ∘ fun r : Interview =>
          if r.id = body.interviewId then
            { r with answers := old.answers ++ [Json.str a],
                     scores := old.scores ++ [jsonOfNumber (extractScore t)],
                     feedbacks := old.feedbacks ++ [Json.str t] }
          else r) = Interview.id := by
        funext r
        simp only [Function.comp]
        split <;> rfl
      rw [this]
      exact h

/-- Every database reached from the empty one satisfies the primary key constraint. -/
theorem run_uniqueIds (reqs : List Request) (db : Db) (h : UniqueIds db) :
    UniqueIds (run db reqs) := by
  induction reqs generalizing db with
  | nil => simpa [run] using h
  | cons req reqs ih =>
    simp only [run, List.foldl_cons]
    exact ih (step db req) (step_uniqueIds db req h)

/-! ## Counting answers -/

/-- State of the session `interviewId` used to count its answers: the session
exists, has the questions `qs` and `k` answers. -/
theorem step_counts (interviewId : Str) (qs : List Json) (db : Db) (k : Nat) (req : Request)
    (hex : ∃ r ∈ db.interviews, r.id = interviewId)
    (hall : ∀ r ∈ db.interviews, r.id = interviewId → r.questions = qs ∧ r.answers.length = k) :
    (∃ r ∈ (step db req).interviews, r.id = interviewId) ∧
    ∀ r ∈ (step db req).interviews, r.id = interviewId →
      r.questions = qs ∧ r.answers.length = k + acceptedAnswers interviewId db [req] := by
  cases req with
  | start userId body now date hf =>
    rcases startInterview_cases db userId body now date hf with ⟨hdb, _⟩ | ⟨_, _, _, _, hne, heq⟩
    · simpa [step, hdb, acceptedAnswers] using ⟨hex, hall⟩
    · obtain ⟨r0, hr0, hid0⟩ := hex
      constructor
      · exact ⟨r0, by simp [step, heq, hr0], hid0⟩
      · intro r hr hid
        simp only [step, heq, List.mem_append, List.mem_singleton] at hr
        rcases hr with hr | hr
        · simpa [acceptedAnswers] using hall r hr hid
        · subst hr
          exact absurd (hid0.trans hid.symm) (hne r0 hr0)
  | answer userId body hf =>
    rcases answer_cases db userId body hf with ⟨hdb, hno⟩ | ⟨old, a, t, hold, _, _, _, _, heq⟩
    · have hj : (answer db userId body hf).response.isJson = false := by
        cases hres : (answer db userId body hf).response with
        | json reply => exact absurd hres (hno reply)
        | status _ _ => rfl
        | thrown => rfl
      simpa [step, hdb, acceptedAnswers, hj] using ⟨hex, hall⟩
    · obtain ⟨hmem, hoid, _⟩ := getInterview_mem hold
      constructor
      · obtain ⟨r0, hr0, hid0⟩ := hex
        simp only [step, heq, answeredDb, updateInterview, List.mem_map]
        refine ⟨_, ⟨r0, hr0, rfl⟩, ?_⟩
        split <;> simpa using hid0
      · intro r hr hid
        simp only [step, heq, answeredDb, updateInterview, List.mem_map] at hr
        obtain ⟨r0, hr0, rfl⟩ := hr
        by_cases hb : r0.id = body.interviewId
        · simp only [hb, if_true] at hid ⊢
          have hold1 := hall old hmem (hoid.trans hid)
          have h0 := hall r0 hr0 (hb.trans hid)
          simp [acceptedAnswers, heq, Response.isJson, hid, h0.1, hold1.2]
        · simp only [hb, if_false] at hid ⊢
          have hne : ¬ body.interviewId = interviewId := fun h => hb (hid.trans h.symm)
          simpa [acceptedAnswers, hne] using hall r0 hr0 hid

theorem acceptedAnswers_cons (interviewId : Str) (db : Db) (req : Request) (reqs : List Request) :
    acceptedAnswers interviewId db (req :: reqs) =
      acceptedAnswers interviewId db [req] + acceptedAnswers interviewId (step db req) reqs := by
  cases req <;> simp [acceptedAnswers]

theorem run_counts (interviewId : Str) (qs : List Json) (reqs : List Request) (db : Db) (k : Nat)
    (hex : ∃ r ∈ db.interviews, r.id = interviewId)
    (hall : ∀ r ∈ db.interviews, r.id = interviewId → r.questions = qs ∧ r.answers.length = k) :
    ∀ r ∈ (run db reqs).interviews, r.id = interviewId →
      r.questions = qs ∧ r.answers.length = k + acceptedAnswers interviewId db reqs := by
  induction reqs generalizing db k with
  | nil => simpa [run, acceptedAnswers] using hall
  | cons req reqs ih =>
    have hs := step_counts interviewId qs db k req hex hall
    intro r hr hid
    have := ih (step db req) (k + acceptedAnswers interviewId db [req]) hs.1 hs.2 r
      (by simpa [run] using hr) hid
    rw [acceptedAnswers_cons]
    exact ⟨this.1, by have h2 := this.2; omega⟩

/-- C4, refuted as stated: after the sample session with three questions has
been opened, four accepted answers leave it with more answers than questions. -/
theorem answers_exceed_questions :
    ∃ r ∈ (run emptyDb [sampleStart, sampleAnswer, sampleAnswer, sampleAnswer,
        sampleAnswer]).interviews,
      r.questions.length = 3 ∧ r.answers.length = 4 ∧ ¬ r.answers.length ≤ r.questions.length :=
  ⟨_, List.mem_singleton.2 rfl, rfl, rfl, by decide⟩

/-- C4, amended: once `POST /start-interview` has created a session, after any
further sequence of requests the session still has the questions returned at
its creation, and the number of its recorded answers is the number of
`POST /answer` requests accepted for it; the number of questions bounds the
answers only as long as it bounds the accepted requests. -/
theorem answers_count (db : Db) (userId : Nat) (body : StartRequest) (now : Nat) (date : Str)
    (hf : Nat → ModelReply) (reply : StartReply)
    (hstart : (startInterview db userId body now date hf).response = .json reply)
    (reqs : List Request) (r : Interview)
    (hr : r ∈ (run (startInterview db userId body now date hf).db reqs).interviews)
    (hid : r.id = reply.interviewId) :
    r.questions = reply.questions ∧
    r.answers.length =
      acceptedAnswers reply.interviewId (startInterview db userId body now date hf).db reqs ∧
    (acceptedAnswers reply.interviewId (startInterview db userId body now date hf).db reqs
        ≤ r.questions.length → r.answers.length ≤ r.questions.length) := by
  rcases startInterview_cases db userId body now date hf with ⟨_, hno⟩ | ⟨role, questions, type, calls, hne, heq⟩
  · exact absurd hstart (hno reply)
  · rw [heq] at hstart hr ⊢
    simp only [Response.json.injEq] at hstart
    subst hstart
    have := run_counts (Nat.toDigits 10 now) (toJsonList questions) reqs _ 0
      ⟨newInterview (Nat.toDigits 10 now) userId role questions date type, by simp, rfl⟩
      (by
        intro r0 hr0 hid0
        simp only [List.mem_append, List.mem_singleton] at hr0
        rcases hr0 with hr0 | hr0
        · exact absurd hid0 (hne r0 hr0)
        · subst hr0; simp [newInterview, toJsonList])
      r hr hid
    simp only [Nat.zero_add] at this
    exact ⟨this.1, this.2, fun h => this.2 ▸ h⟩

theorem answers_count_witness :
    (startInterview emptyDb 7 sampleStartBody 1700000000000 sampleDate
      (fun _ => .text sampleQuestionsText)).response
      = .json ⟨"1700000000000".toList, sampleOpened.questions⟩ ∧
    sampleAnswered ∈ (run sampleDb [sampleAnswer]).interviews ∧
    sampleAnswered.questions = sampleOpened.questions ∧
    sampleAnswered.answers.length = acceptedAnswers "1700000000000".toList sampleDb [sampleAnswer] ∧
    (acceptedAnswers "1700000000000".toList sampleDb [sampleAnswer]
        ≤ sampleAnswered.questions.length →
      sampleAnswered.answers.length ≤ sampleAnswered.questions.length) :=
  ⟨rfl, List.mem_singleton.2 rfl,
    answers_count emptyDb 7 sampleStartBody 1700000000000 sampleDate
      (fun _ => .text sampleQuestionsText) ⟨"1700000000000".toList, sampleOpened.questions⟩ rfl
      [sampleAnswer] sampleAnswered (List.mem_singleton.2 rfl) rfl⟩

/-! ## Numbers -/

theorem floorLog2Fuel_le (fuel n : Nat) (hn : 0 < n) : 2 ^ floorLog2Fuel fuel n ≤ n := by
  induction fuel generalizing n with
  | zero => simpa [floorLog2Fuel] using hn
  | succ fuel ih =>
    unfold floorLog2Fuel
    split
    · simpa using hn
    · have h2 : 0 < n / 2 := Nat.div_pos (by omega) (by decide)
      have := ih (n / 2) h2
      rw [Nat.pow_succ]
      omega

theorem numberOfNat_small (n : Nat) (h : n < 2 ^ 53) : numberOfNat n = .finite n := by
  unfold numberOfNat
  rw [if_pos h]

theorem divRoundEven_ge (a b : Nat) : a / b ≤ divRoundEven a b := by
  unfold divRoundEven
  simp only
  split <;> omega

theorem roundToSignificand_ge (n : Nat) (h : 2 ^ 53 ≤ n) : 2 ^ 52 ≤ roundToSignificand n := by
  have hpos : 0 < n := lt_of_lt_of_le (by norm_num) h
  have hlog : 2 ^ floorLog2 n ≤ n := floorLog2Fuel_le n n hpos
  have hulp : 0 < 2 ^ (floorLog2 n - 52) := Nat.pow_pos (by decide)
  have hq : 2 ^ 52 ≤ n / 2 ^ (floorLog2 n - 52) := by
    rw [Nat.le_div_iff_mul_le hulp]
    by_cases hL : 52 ≤ floorLog2 n
    · rw [← Nat.pow_add]
      have : 52 + (floorLog2 n - 52) = floorLog2 n := by omega
      rw [this]
      exact hlog
    · have : floorLog2 n - 52 = 0 := by omega
      rw [this]
      omega
  unfold roundToSignificand
  calc 2 ^ 52 ≤ n / 2 ^ (floorLog2 n - 52) := hq
    _ ≤ divRoundEven n (2 ^ (floorLog2 n - 52)) := divRoundEven_ge _ _
    _ ≤ _ := Nat.le_mul_of_pos_right _ hulp

/-- Rounding a large integer to a double never yields a small one. -/
theorem numberOfNat_large (n : Nat) (h : 2 ^ 53 ≤ n) :
    numberOfNat n = .posInf ∨ ∃ m : Nat, 2 ^ 52 ≤ m ∧ numberOfNat n = .finite m := by
  have hnot : ¬ n < 2 ^ 53 := by omega
  unfold numberOfNat
  rw [if_neg hnot]
  by_cases hfin : floorLog2 (roundToSignificand n) < 1024
  · rw [if_pos hfin]
    exact Or.inr ⟨_, roundToSignificand_ge n h, rfl⟩
  · rw [if_neg hfin]
    exact Or.inl rfl

theorem numberOfNat_shape (n : Nat) :
    numberOfNat n = .posInf ∨ ∃ m : Nat, numberOfNat n = .finite m := by
  by_cases h : n < 2 ^ 53
  · exact Or.inr ⟨n, numberOfNat_small n h⟩
  · rcases numberOfNat_large n (by omega) with h1 | ⟨m, _, h1⟩
    · exact Or.inl h1
    · exact Or.inr ⟨m, h1⟩

theorem getInterview_updateInterview (db : Db) (interviewId : Str) (userId : Nat)
    (answers scores feedbacks : List Json) :
    getInterview (updateInterview db interviewId answers scores feedbacks) interviewId userId =
      (getInterview db interviewId userId).map (fun r =>
        { r with answers := answers, scores := scores, feedbacks := feedbacks }) := by
  unfold getInterview updateInterview
  simp only
  induction db.interviews with
  | nil => rfl
  | cons r rs ih =>
    by_cases hid : r.id = interviewId
    · by_cases hu : r.user_id = userId
      · simp [List.find?, hid, hu]
      · simp [List.find?, hid, hu]
        simpa [hid] using ih
    · simp [List.find?, hid]
      simpa using ih

/-- What an accepted `POST /answer` returns and writes. -/
theorem answer_accepted (db : Db) (userId : Nat) (body : AnswerRequest) (hf : Nat → ModelReply)
    (reply : AnswerReply) (h : (answer db userId body hf).response = .json reply) :
    ∃ a t old new, body.answer = .str a ∧ hf 0 = .text t ∧
      getInterview db body.interviewId userId = some old ∧
      getInterview (answer db userId body hf).db body.interviewId userId = some new ∧
      new.answers = old.answers ++ [.str a] ∧
      new.scores = old.scores ++ [jsonOfNumber (extractScore t)] ∧
      new.feedbacks = old.feedbacks ++ [.str t] ∧
      reply.feedback = t ∧ reply.score = jsonOfNumber (extractScore t) := by
  rcases answer_cases db userId body hf with ⟨_, hno⟩ | ⟨old, a, t, hold, ha, _, _, ht, heq⟩
  · exact absurd h (hno reply)
  · rw [heq] at h ⊢
    simp only [Response.json.injEq] at h
    subst h
    refine ⟨a, t, old,
      { old with answers := old.answers ++ [.str a],
                 scores := old.scores ++ [jsonOfNumber (extractScore t)],
                 feedbacks := old.feedbacks ++ [.str t] },
      ha, ht, hold, ?_, rfl, rfl, rfl, rfl, rfl⟩
    simp only [answeredDb, getInterview_updateInterview, hold, Option.map_some']

/-- C5: an accepted `POST /answer` whose model reply is the text `t` replaces the
three histories of the session by the old ones extended at the end by the
answer, the extracted score and `t`, and returns `t` and that score. -/
theorem answer_appends (db : Db) (userId : Nat) (body : AnswerRequest) (hf : Nat → ModelReply)
    (reply : AnswerReply) (h : (answer db userId body hf).response = .json reply) :
    ∃ a t old new, body.answer = .str a ∧ hf 0 = .text t ∧
      getInterview db body.interviewId userId = some old ∧
      getInterview (answer db userId body hf).db body.interviewId userId = some new ∧
      new.answers = old.answers ++ [.str a] ∧
      new.scores = old.scores ++ [jsonOfNumber (extractScore t)] ∧
      new.feedbacks = old.feedbacks ++ [.str t] ∧
      reply.feedback = t ∧ reply.score = jsonOfNumber (extractScore t) :=
  answer_accepted db userId body hf reply h

theorem answer_appends_witness :
    (answer sampleDb 7 sampleAnswerBody (fun _ => .text sampleFeedback)).response
      = .json ⟨sampleFeedback, .num 8⟩ ∧
    ∃ a t old new, sampleAnswerBody.answer = .str a ∧
      (fun _ => ModelReply.text sampleFeedback) 0 = ModelReply.text t ∧
      getInterview sampleDb sampleAnswerBody.interviewId 7 = some old ∧
      getInterview (answer sampleDb 7 sampleAnswerBody (fun _ => .text sampleFeedback)).db
        sampleAnswerBody.interviewId 7 = some new ∧
      new.answers = old.answers ++ [.str a] ∧
      new.scores = old.scores ++ [jsonOfNumber (extractScore t)] ∧
      new.feedbacks = old.feedbacks ++ [.str t] ∧
      (⟨sampleFeedback, .num 8⟩ : AnswerReply).feedback = t ∧
      (⟨sampleFeedback, .num 8⟩ : AnswerReply).score = jsonOfNumber (extractScore t) :=
  ⟨rfl, answer_appends sampleDb 7 sampleAnswerBody (fun _ => .text sampleFeedback)
    ⟨sampleFeedback, .num 8⟩ rfl⟩

/-! ## The score pattern -/

theorem isWhiteSpace_of_isDigit (c : Char) (h : isDigit c = true) : isWhiteSpace c = false := by
  simp only [isDigit, Bool.and_eq_true, decide_eq_true_eq] at h
  simp only [isWhiteSpace, Bool.or_eq_false_iff, decide_eq_false_iff_not, Bool.and_eq_false_imp,
    decide_eq_true_eq]
  omega

theorem matchScoreHere_of_literal (s ds : Str) (h : literalScoreHere s = some ds) :
    matchScoreHere s = some ds := by
  unfold literalScoreHere at h
  split at h
  · rename_i hp
    obtain ⟨rest, rfl⟩ := List.isPrefixOf_iff_prefix.1 hp
    split at h
    · cases h
    · rename_i hne
      simp only [Option.some.injEq] at h
      subst h
      simp only [List.drop_left] at hne ⊢
      cases rest with
      | nil => simp at hne
      | cons d rest =>
        have hd : isDigit d = true := by
          by_contra hd
          simp [List.takeWhile, hd] at hne
        have hw := isWhiteSpace_of_isDigit d hd
        have h32 : isWhiteSpace ' ' = true := by decide
        have h40 : isWhiteSpace '(' = false := by decide
        have h58 : isWhiteSpace ':' = false := by decide
        simp [scoreLabel, matchScoreHere, matchLiteralCI, canonicalize, List.dropWhile, h32, h40,
          h58, hw, List.takeWhile, hd]
  · cases h

theorem matchScore_of_literal (t ds : Str) (h : literalScore t = some ds) :
    ∃ ds1, matchScore t = some ds1 := by
  induction t with
  | nil => simp [literalScore] at h
  | cons c cs ih =>
    unfold matchScore
    cases hm : matchScoreHere (c :: cs) with
    | some ds1 => exact ⟨ds1, rfl⟩
    | none =>
      unfold literalScore at h
      cases hl : literalScoreHere (c :: cs) with
      | some ds2 =>
        rw [matchScoreHere_of_literal _ _ hl] at hm
        cases hm
      | none =>
        rw [hl] at h
        exact ih h

theorem matchScore_eq_literal (t : Str)
    (h : ∀ s, s <:+ t → matchScoreHere s = literalScoreHere s) :
    matchScore t = literalScore t := by
  induction t with
  | nil => rfl
  | cons c cs ih =>
    unfold matchScore literalScore
    rw [h (c :: cs) (List.suffix_refl _)]
    cases literalScoreHere (c :: cs) with
    | some ds => rfl
    | none => exact ih (fun s hs => h s (hs.trans (List.suffix_cons c cs)))

/-! ## Blank answers -/

theorem trim_eq_nil_iff (a : Str) : trim a = [] ↔ ∀ c ∈ a, isWhiteSpace c = true := by
  unfold trim
  rw [List.reverse_eq_nil_iff, List.dropWhile_eq_nil_iff]
  constructor
  · intro h
    have hnil : a.dropWhile isWhiteSpace = [] := by
      by_contra hne
      have hhead := List.head_dropWhile_not isWhiteSpace a hne
      have := h _ (List.mem_reverse.2 (List.head_mem hne))
      simp [this] at hhead
    exact List.dropWhile_eq_nil_iff.1 hnil
  · intro h c hc
    rw [List.dropWhile_eq_nil_iff.2 h] at hc
    simp at hc

theorem getInterview_eq_none_iff (db : Db) (interviewId : Str) (userId : Nat) :
    getInterview db interviewId userId = none ↔
      ¬ ∃ r ∈ db.interviews, r.id = interviewId ∧ r.user_id = userId := by
  simp [getInterview]

/-! ## Claims about `POST /answer` -/

/-- C6, refuted as stated: a reply announcing eleven points is accepted, and 11
is the score returned and stored. -/
theorem score_eleven :
    (answer sampleDb 7 sampleAnswerBody
      (fun _ => .text "Score (out of 10): 11".toList)).response
      = .json ⟨"Score (out of 10): 11".toList, .num 11⟩ ∧
    (answer sampleDb 7 sampleAnswerBody
      (fun _ => .text "Score (out of 10): 11".toList)).db.interviews.map Interview.scores
      = [[.num 11]] ∧
    ¬ ((11 : ℚ) ≤ 10) :=
  ⟨rfl, rfl, by norm_num⟩

/-- C6, amended: the score that an accepted `POST /answer` returns is the one it
appends; it is 0 when the pattern of the handler has no match, otherwise it is
the number `parseInt` gives for the captured digits as `JSON.stringify` writes
it: a non-negative integer (the value of the digits when that is below `2^53`)
or `null`; it lies between 0 and 10 exactly when the value of the captured
digits is at most 10. -/
theorem score_value (db : Db) (userId : Nat) (body : AnswerRequest) (hf : Nat → ModelReply)
    (reply : AnswerReply) (h : (answer db userId body hf).response = .json reply) :
    ∃ t old new, hf 0 = .text t ∧
      getInterview db body.interviewId userId = some old ∧
      getInterview (answer db userId body hf).db body.interviewId userId = some new ∧
      new.scores = old.scores ++ [reply.score] ∧
      (matchScore t = none → reply.score = .num 0) ∧
      ∀ ds, matchScore t = some ds →
        (reply.score = .null ∨ ∃ n : Nat, reply.score = .num n) ∧
        (digitsValue ds < 2 ^ 53 → reply.score = .num (digitsValue ds)) ∧
        ((∃ n : Nat, n ≤ 10 ∧ reply.score = .num n) ↔ digitsValue ds ≤ 10) := by
  obtain ⟨a, t, old, new, _, ht, hold, hnew, _, hs, _, _, hscore⟩ :=
    answer_accepted db userId body hf reply h
  refine ⟨t, old, new, ht, hold, hnew, by rw [hs, hscore], ?_, ?_⟩
  · intro hno
    rw [hscore]
    simp [extractScore, hno, jsonOfNumber]
  · intro ds hds
    have hval : reply.score = jsonOfNumber (numberOfNat (digitsValue ds)) := by
      rw [hscore]
      simp [extractScore, hds, parseInt]
    have hsmall : digitsValue ds < 2 ^ 53 → reply.score = .num (digitsValue ds) := by
      intro hlt
      rw [hval, numberOfNat_small _ hlt]
      rfl
    refine ⟨?_, hsmall, ?_⟩
    · rcases numberOfNat_shape (digitsValue ds) with h1 | ⟨m, h1⟩
      · left; rw [hval, h1]; rfl
      · right; exact ⟨m, by rw [hval, h1]; rfl⟩
    · constructor
      · rintro ⟨n, hn, hnum⟩
        by_cases hlt : digitsValue ds < 2 ^ 53
        · rw [hsmall hlt] at hnum
          simp only [Json.num.injEq, Nat.cast_inj] at hnum
          omega
        · rcases numberOfNat_large (digitsValue ds) (by omega) with h1 | ⟨m, hm, h1⟩
          · rw [hval, h1] at hnum
            simp [jsonOfNumber] at hnum
          · rw [hval, h1] at hnum
            simp only [jsonOfNumber, Json.num.injEq, Nat.cast_inj] at hnum
            omega
      · intro hle
        exact ⟨digitsValue ds, hle, hsmall (lt_of_le_of_lt hle (by norm_num))⟩

theorem score_value_witness :
    (answer sampleDb 7 sampleAnswerBody (fun _ => .text sampleFeedback)).response
      = .json ⟨sampleFeedback, .num 8⟩ ∧
    ∃ t old new, (fun _ => ModelReply.text sampleFeedback) 0 = ModelReply.text t ∧
      getInterview sampleDb sampleAnswerBody.interviewId 7 = some old ∧
      getInterview (answer sampleDb 7 sampleAnswerBody (fun _ => .text sampleFeedback)).db
        sampleAnswerBody.interviewId 7 = some new ∧
      new.scores = old.scores ++ [(⟨sampleFeedback, .num 8⟩ : AnswerReply).score] ∧
      (matchScore t = none → (⟨sampleFeedback, .num 8⟩ : AnswerReply).score = .num 0) ∧
      ∀ ds, matchScore t = some ds →
        ((⟨sampleFeedback, .num 8⟩ : AnswerReply).score = .null ∨
          ∃ n : Nat, (⟨sampleFeedback, .num 8⟩ : AnswerReply).score = .num n) ∧
        (digitsValue ds < 2 ^ 53 →
          (⟨sampleFeedback, .num 8⟩ : AnswerReply).score = .num (digitsValue ds)) ∧
        ((∃ n : Nat, n ≤ 10 ∧ (⟨sampleFeedback, .num 8⟩ : AnswerReply).score = .num n) ↔
          digitsValue ds ≤ 10) :=
  ⟨rfl, score_value sampleDb 7 sampleAnswerBody (fun _ => .text sampleFeedback)
    ⟨sampleFeedback, .num 8⟩ rfl⟩

/-- What `POST /answer` does with a model reply: the request facts under which
the handler reaches the model and stores the result. -/
theorem answer_of_text (db : Db) (userId : Nat) (body : AnswerRequest) (hf : Nat → ModelReply)
    (old : Interview) (a t : Str)
    (hold : getInterview db body.interviewId userId = some old) (ha : body.answer = .str a)
    (hblank : trim a ≠ []) (hq : toStringThrows body.question = false) (ht : hf 0 = .text t) :
    answer db userId body hf =
      ⟨.json ⟨t, jsonOfNumber (extractScore t)⟩, answeredDb db body.interviewId old a t, 1⟩ := by
  have htr : (JsVal.str a).truthy = true := by
    cases a with
    | nil => simp [trim] at hblank
    | cons c cs => simp [JsVal.truthy]
  unfold answer
  simp only [hold, ha, htr, Bool.not_true, Bool.false_eq_true, if_false, hblank, hq, ht,
    answeredDb, toJsonList_push, toJson_num, toJson_str, Option.getD_some]

/-- C7, refuted as stated: the reply `score(out of 10):7` contains no occurrence
of `Score (out of 10): <digits>`, yet the score returned is 7. -/
theorem variant_scores_seven :
    literalScore variantFeedback = none ∧
    (answer sampleDb 7 sampleAnswerBody (fun _ => .text variantFeedback)).response
      = .json ⟨variantFeedback, .num 7⟩ :=
  ⟨rfl, rfl⟩

/-- C7, amended: when the pattern of the handler, which ignores case and allows
any white space (also none) around the parenthesis and the colon, has no match
in the model reply, `POST /answer` on an owned session with a non-blank answer
succeeds after one model call, returns score 0 and the reply as feedback. -/
theorem score_defaults_to_zero (db : Db) (userId : Nat) (body : AnswerRequest)
    (hf : Nat → ModelReply) (a t : Str)
    (hown : ∃ r ∈ db.interviews, r.id = body.interviewId ∧ r.user_id = userId)
    (ha : body.answer = .str a) (hblank : ∃ c ∈ a, isWhiteSpace c = false)
    (hq : toStringThrows body.question = false) (ht : hf 0 = .text t)
    (hno : matchScore t = none) :
    (answer db userId body hf).response = .json ⟨t, .num 0⟩ ∧
    (answer db userId body hf).modelCalls = 1 := by
  have hsome : getInterview db body.interviewId userId ≠ none := by
    rw [Ne, getInterview_eq_none_iff]
    exact not_not.2 hown
  obtain ⟨old, hold⟩ := Option.ne_none_iff_exists'.1 hsome
  have htrim : trim a ≠ [] := by
    rw [Ne, trim_eq_nil_iff]
    obtain ⟨c, hc, hw⟩ := hblank
    intro hall
    rw [hall c hc] at hw
    cases hw
  rw [answer_of_text db userId body hf old a t hold ha htrim hq ht]
  simp [extractScore, hno, jsonOfNumber]

theorem score_defaults_to_zero_witness :
    (∃ r ∈ sampleDb.interviews, r.id = sampleAnswerBody.interviewId ∧ r.user_id = 7) ∧
    (∃ c ∈ "An architectural style.".toList, isWhiteSpace c = false) ∧
    matchScore "Well explained.".toList = none ∧
    (answer sampleDb 7 sampleAnswerBody (fun _ => .text "Well explained.".toList)).response
      = .json ⟨"Well explained.".toList, .num 0⟩ ∧
    (answer sampleDb 7 sampleAnswerBody (fun _ => .text "Well explained.".toList)).modelCalls
      = 1 :=
  ⟨⟨sampleOpened, List.mem_singleton.2 rfl, rfl, rfl⟩, ⟨'A', by simp, by decide⟩, rfl,
    score_defaults_to_zero sampleDb 7 sampleAnswerBody (fun _ => .text "Well explained.".toList)
      "An architectural style.".toList "Well explained.".toList
      ⟨sampleOpened, List.mem_singleton.2 rfl, rfl, rfl⟩ rfl ⟨'A', by simp, by decide⟩ rfl rfl
      rfl⟩

/-- C8, refuted as stated: in the first reply the first occurrence of
`Score (out of 10): <digits>` carries 9 and the score is 7, taken from an
earlier lower-case spelling; in the second reply the digits after the only
occurrence denote `2^53 + 1` and the score is `2^53`. -/
theorem first_occurrence_not_used :
    (literalScore twoScoresFeedback = some ['9'] ∧
      (answer sampleDb 7 sampleAnswerBody (fun _ => .text twoScoresFeedback)).response
        = .json ⟨twoScoresFeedback, .num 7⟩) ∧
    (literalScore longScoreFeedback = some "9007199254740993".toList ∧
      digitsValue "9007199254740993".toList = 9007199254740993 ∧
      (answer sampleDb 7 sampleAnswerBody (fun _ => .text longScoreFeedback)).response
        = .json ⟨longScoreFeedback, .num 9007199254740992⟩) :=
  ⟨⟨rfl, rfl⟩, rfl, rfl, rfl⟩

/-- C8, amended: a reply that contains `Score (out of 10): ` followed by digits is
matched by the pattern of the handler; the score returned is the number
`parseInt` gives for the digits captured by the leftmost match of that pattern
(which ignores case and allows any white space around the parenthesis and the
colon), equal to the value of the digits when that is below `2^53`; the
captured digits are those after the first occurrence of the literal text when
the pattern matches nowhere but at occurrences of the literal text. -/
theorem score_of_leftmost_match (db : Db) (userId : Nat) (body : AnswerRequest)
    (hf : Nat → ModelReply) (reply : AnswerReply) (t ds : Str)
    (h : (answer db userId body hf).response = .json reply) (ht : hf 0 = .text t)
    (hlit : literalScore t = some ds) :
    ∃ ds1, matchScore t = some ds1 ∧ reply.score = jsonOfNumber (parseInt ds1) ∧
      (digitsValue ds1 < 2 ^ 53 → reply.score = .num (digitsValue ds1)) ∧
      ((∀ s, s <:+ t → matchScoreHere s = literalScoreHere s) → ds1 = ds) := by
  obtain ⟨ds1, hds1⟩ := matchScore_of_literal t ds hlit
  obtain ⟨_, t1, _, _, _, ht1, _, _, _, _, _, _, hscore⟩ :=
    answer_accepted db userId body hf reply h
  rw [ht] at ht1
  simp only [ModelReply.text.injEq] at ht1
  subst ht1
  have hval : reply.score = jsonOfNumber (parseInt ds1) := by
    rw [hscore]
    simp [extractScore, hds1]
  refine ⟨ds1, hds1, hval, ?_, ?_⟩
  · intro hlt
    rw [hval, parseInt, numberOfNat_small _ hlt]
    rfl
  · intro hall
    have := matchScore_eq_literal t hall
    rw [hds1, hlit] at this
    simpa using this

theorem score_of_leftmost_match_witness :
    (answer sampleDb 7 sampleAnswerBody (fun _ => .text sampleFeedback)).response
      = .json ⟨sampleFeedback, .num 8⟩ ∧
    literalScore sampleFeedback = some ['8'] ∧
    ∃ ds1, matchScore sampleFeedback = some ds1 ∧
      (⟨sampleFeedback, .num 8⟩ : AnswerReply).score = jsonOfNumber (parseInt ds1) ∧
      (digitsValue ds1 < 2 ^ 53 →
        (⟨sampleFeedback, .num 8⟩ : AnswerReply).score = .num (digitsValue ds1)) ∧
      ((∀ s, s <:+ sampleFeedback → matchScoreHere s = literalScoreHere s) → ds1 = ['8']) :=
  ⟨rfl, rfl, score_of_leftmost_match sampleDb 7 sampleAnswerBody
    (fun _ => .text sampleFeedback) ⟨sampleFeedback, .num 8⟩ sampleFeedback ['8'] rfl rfl rfl⟩

/-- C9: `POST /answer` fails with status 404 `Interview not found` exactly when no
session with the given id belongs to the caller; when one does, it fails with
status 400 `Answer is required` exactly when the answer is missing or another
falsy value (`undefined`, `null`, `false`, `0`, the empty string) or is a string
that consists of white space only; in both failures the model is not called
and the database is unchanged. -/
theorem answer_rejections (db : Db) (userId : Nat) (body : AnswerRequest)
    (hf : Nat → ModelReply) :
    ((answer db userId body hf).response = .status 404 "Interview not found".toList ↔
      ¬ ∃ r ∈ db.interviews, r.id = body.interviewId ∧ r.user_id = userId) ∧
    ((∃ r ∈ db.interviews, r.id = body.interviewId ∧ r.user_id = userId) →
      ((answer db userId body hf).response = .status 400 "Answer is required".toList ↔
        body.answer.truthy = false ∨
          ∃ a, body.answer = .str a ∧ ∀ c ∈ a, isWhiteSpace c = true)) ∧
    ((answer db userId body hf).response = .status 404 "Interview not found".toList ∨
      (answer db userId body hf).response = .status 400 "Answer is required".toList →
        (answer db userId body hf).modelCalls = 0 ∧ (answer db userId body hf).db = db) := by
  rw [← getInterview_eq_none_iff]
  refine ⟨?_, ?_, ?_⟩
  · unfold answer
    split
    · rename_i hnone; simp [hnone]
    · rename_i old hold
      simp only [hold]
      split
      · simp
      · split
        · split
          · simp
          · split
            · simp
            · split <;> simp
        · simp
  · intro hown
    have hsome : getInterview db body.interviewId userId ≠ none := by
      rw [Ne, getInterview_eq_none_iff]
      exact not_not.2 hown
    obtain ⟨old, hold⟩ := Option.ne_none_iff_exists'.1 hsome
    obtain ⟨interviewId, question, ans⟩ := body
    simp only at hold ⊢
    unfold answer
    simp only [hold]
    by_cases htruthy : ans.truthy = true
    · simp only [htruthy, Bool.not_true, Bool.false_eq_true, if_false, false_or]
      cases ans with
      | str a =>
        simp only [JsVal.str.injEq, exists_eq_left']
        rw [← trim_eq_nil_iff]
        by_cases htrim : trim a = []
        · simp [htrim]
        · simp only [htrim, if_false, iff_false]
          split
          · simp
          · split <;> simp
      | _ => simp
    · have hfalse : ans.truthy = false := by simpa using htruthy
      simp [hfalse]
  · unfold answer
    split
    · simp
    · split
      · simp
      · split
        · split
          · simp
          · split
            · simp
            · split <;> simp
        · simp

theorem answer_rejections_witness :
    (∃ r ∈ sampleDb.interviews, r.id = blankAnswerBody.interviewId ∧ r.user_id = 7) ∧
    ((answer sampleDb 7 blankAnswerBody (fun _ => .text sampleFeedback)).response
        = .status 400 "Answer is required".toList ↔
      blankAnswerBody.answer.truthy = false ∨
        ∃ a, blankAnswerBody.answer = .str a ∧ ∀ c ∈ a, isWhiteSpace c = true) ∧
    (answer sampleDb 7 blankAnswerBody (fun _ => .text sampleFeedback)).response
      = .status 400 "Answer is required".toList ∧
    (∃ r ∈ sampleDb.interviews, r.id = missingAnswerBody.interviewId ∧ r.user_id = 7) ∧
    missingAnswerBody.answer.truthy = false ∧
    (answer sampleDb 7 missingAnswerBody (fun _ => .text sampleFeedback)).response
      = .status 400 "Answer is required".toList ∧
    (answer sampleDb 7 blankAnswerBody (fun _ => .text sampleFeedback)).modelCalls = 0 ∧
    (answer sampleDb 7 blankAnswerBody (fun _ => .text sampleFeedback)).db = sampleDb :=
  ⟨⟨sampleOpened, List.mem_singleton.2 rfl, rfl, rfl⟩,
    (answer_rejections sampleDb 7 blankAnswerBody (fun _ => .text sampleFeedback)).2.1
      ⟨sampleOpened, List.mem_singleton.2 rfl, rfl, rfl⟩,
    rfl,
    ⟨sampleOpened, List.mem_singleton.2 rfl, rfl, rfl⟩, rfl,
    ((answer_rejections sampleDb 7 missingAnswerBody (fun _ => .text sampleFeedback)).2.1
      ⟨sampleOpened, List.mem_singleton.2 rfl, rfl, rfl⟩).2 (Or.inl rfl),
    (answer_rejections sampleDb 7 blankAnswerBody (fun _ => .text sampleFeedback)).2.2
      (Or.inr rfl)⟩

/-! ## Retry loops -/

theorem idealLoop_calls (parse : Str → Option JsVal) (hf : Nat → ModelReply) (n : Nat)
    (remaining : Nat) (idealAnswers : JsVal) (calls : Nat) :
    (idealLoop parse hf n remaining idealAnswers calls).2 ≤ calls + remaining := by
  induction remaining generalizing idealAnswers calls with
  | zero => simp [idealLoop]
  | succ remaining ih =>
    unfold idealLoop
    split
    · simp
    · simp
    · split
      · have := ih idealAnswers (calls + 1); omega
      · split
        · have := ih idealAnswers (calls + 1); omega
        · rename_i v _
          split
          · simp only; omega
          · split
            · have := ih v (calls + 1); omega
            · have := ih (.arr []) (calls + 1); omega

theorem analysisLoop_calls (parse : Str → Option JsVal) (hf : Nat → ModelReply)
    (remaining : Nat) (calls : Nat) :
    (analysisLoop parse hf remaining calls).2 ≤ calls + remaining := by
  induction remaining generalizing calls with
  | zero => simp [analysisLoop]
  | succ remaining ih =>
    unfold analysisLoop
    split
    · have := ih (calls + 1); omega
    · split
      · have := ih (calls + 1); omega
      · split
        · have := ih (calls + 1); omega
        · simp only; omega

theorem storeReview_calls (parse : Str → Option JsVal) (db : Db) (userId : Nat)
    (targetRole : JsVal) (f : Upload) (resumeText rawContent : Str) (now : Nat) (date : Str)
    (calls : Nat) :
    (storeReview parse db userId targetRole f resumeText rawContent now date calls).modelCalls
      = calls := by
  unfold storeReview
  split
  · rfl
  · split
    · rfl
    · split
      · dsimp only
        split <;> rfl
      · rfl

/-- Outcome of `POST /ideal-answers` on a session of the caller: always a
success, built on one of three paths. -/
theorem idealAnswers_owned (parse : Str → Option JsVal) (db : Db) (userId : Nat)
    (interviewId : Str) (hf : Nat → ModelReply) (interview : Interview)
    (h : getInterview db interviewId userId = some interview) :
    ∃ pairs calls, idealAnswers parse db userId interviewId hf = ⟨.json pairs, db, calls⟩ ∧
      calls ≤ 3 ∧
      ((interview.questions = [] ∧ pairs = []) ∨ pairs = fallbackAnswers db interviewId ∨
        ∃ xs, xs.length = interview.questions.length ∧
          pairs = structureAnswers (fromJsonList interview.questions) xs) := by
  unfold idealAnswers
  simp only [h]
  split
  · rename_i h0
    rw [fromJsonList_length] at h0
    exact ⟨_, _, rfl, by omega, Or.inl ⟨List.length_eq_zero.1 h0, rfl⟩⟩
  · split
    · exact ⟨_, _, rfl, by omega, Or.inr (Or.inl rfl)⟩
    · have hc := idealLoop_calls parse hf (fromJsonList interview.questions).length 3
        (.arr []) 0
      split
      · rename_i calls heq
        rw [heq] at hc
        exact ⟨_, _, rfl, by simpa using hc, Or.inr (Or.inl rfl)⟩
      · rename_i xs calls heq
        rw [heq] at hc
        split
        · exact ⟨_, _, rfl, by simpa using hc, Or.inr (Or.inl rfl)⟩
        · rename_i hlen
          refine ⟨_, _, rfl, by simpa using hc, Or.inr (Or.inr ⟨xs, ?_, rfl⟩)⟩
          rw [fromJsonList_length] at hlen
          simpa using hlen
      · rename_i calls _ heq
        rw [heq] at hc
        exact ⟨_, _, rfl, by simpa using hc, Or.inr (Or.inl rfl)⟩

theorem idealAnswers_calls (parse : Str → Option JsVal) (db : Db) (userId : Nat)
    (interviewId : Str) (hf : Nat → ModelReply) :
    (idealAnswers parse db userId interviewId hf).modelCalls ≤ 3 := by
  cases h : getInterview db interviewId userId with
  | none => simp [idealAnswers, h]
  | some interview =>
    obtain ⟨_, _, heq, hc, _⟩ := idealAnswers_owned parse db userId interviewId hf interview h
    rw [heq]
    exact hc

theorem analyzeResume_calls (parse : Str → Option JsVal) (db : Db) (userId : Nat)
    (file : Option Upload) (targetRole : JsVal) (now : Nat) (date : Str)
    (hf : Nat → ModelReply) :
    (analyzeResume parse db userId file targetRole now date hf).modelCalls ≤ 3 := by
  unfold analyzeResume
  split
  · simp
  · split
    · simp
    · split
      · simp
      · split
        · simp
        · split
          · split <;> simp
          · split
            · simp
            · split
              · simp
              · have hc := analysisLoop_calls parse hf 3 0
                dsimp only
                split
                · rename_i calls heq
                  rw [heq] at hc
                  simpa using hc
                · rename_i rawContent calls heq
                  rw [heq] at hc
                  rw [storeReview_calls]
                  simpa using hc

/-- C10: one request to `POST /ideal-answers` calls the model at most 3 times, and
so does one request to `POST /analyze-resume`, whatever the inputs, the replies
of the model and the behaviour of `JSON.parse`. -/
theorem model_calls_bounded (parse : Str → Option JsVal) (db : Db) (userId : Nat)
    (interviewId : Str) (file : Option Upload) (targetRole : JsVal) (now : Nat) (date : Str)
    (hf : Nat → ModelReply) :
    (idealAnswers parse db userId interviewId hf).modelCalls ≤ 3 ∧
    (analyzeResume parse db userId file targetRole now date hf).modelCalls ≤ 3 :=
  ⟨idealAnswers_calls parse db userId interviewId hf,
    analyzeResume_calls parse db userId file targetRole now date hf⟩

/-! ## `POST /ideal-answers` -/

theorem structureAnswers_questions (qs : List Json) (xs : List JsVal) :
    (structureAnswers (fromJsonList qs) xs).map IdealAnswer.question = qs := by
  induction qs generalizing xs with
  | nil => simp [fromJsonList, structureAnswers]
  | cons q qs ih =>
    cases xs with
    | nil => simp [fromJsonList, structureAnswers, toJson_fromJson, ih]
    | cons x xs => simp [fromJsonList, structureAnswers, toJson_fromJson, ih]

theorem map_placeholder_questions (qs : List Json) :
    ((fromJsonList qs).map
      (fun q => (⟨(toJson q).getD .null, .str placeholderAnswer⟩ : IdealAnswer))).map
        IdealAnswer.question = qs := by
  induction qs with
  | nil => simp [fromJsonList]
  | cons q qs ih =>
    simp only [fromJsonList, List.map_cons, toJson_fromJson, Option.getD_some, List.cons.injEq,
      true_and]
    exact ih

theorem fallbackAnswers_questions (db : Db) (interviewId : Str) (r : Interview)
    (h : getInterviewById db interviewId = some r) :
    (fallbackAnswers db interviewId).map IdealAnswer.question = r.questions := by
  unfold fallbackAnswers
  simp only [h]
  exact map_placeholder_questions r.questions

theorem find_by_id_of_owned (l : List Interview) (interviewId : Str) (userId : Nat)
    (r : Interview) (hpk : (l.map Interview.id).Nodup)
    (h : l.find? (fun r => decide (r.id = interviewId) && decide (r.user_id = userId)) = some r) :
    l.find? (fun r => decide (r.id = interviewId)) = some r := by
  induction l with
  | nil => simp at h
  | cons r0 rs ih =>
    simp only [List.map_cons, List.nodup_cons] at hpk
    by_cases hid : r0.id = interviewId
    · by_cases hu : r0.user_id = userId
      · simp only [List.find?, hid, hu, decide_True, Bool.and_self, Option.some.injEq] at h ⊢
        exact h
      · simp only [List.find?, hid, hu, decide_True, decide_False, Bool.and_false] at h
        have hmem := List.mem_of_find?_eq_some h
        have hp := List.find?_some h
        simp only [Bool.and_eq_true, decide_eq_true_eq] at hp
        exact absurd (List.mem_map.2 ⟨r, hmem, hp.1.trans hid.symm⟩) hpk.1
    · simp only [List.find?, hid, decide_False, Bool.false_and] at h ⊢
      exact ih hpk.2 h

/-- With unique ids, the row found by id and owner is the row found by id. -/
theorem getInterviewById_of_owned (db : Db) (interviewId : Str) (userId : Nat) (r : Interview)
    (hpk : UniqueIds db) (h : getInterview db interviewId userId = some r) :
    getInterviewById db interviewId = some r :=
  find_by_id_of_owned db.interviews interviewId userId r hpk h

theorem find_owned_of_mem (l : List Interview) (r : Interview)
    (hpk : (l.map Interview.id).Nodup) (hr : r ∈ l) :
    l.find? (fun r1 => decide (r1.id = r.id) && decide (r1.user_id = r.user_id)) = some r := by
  induction l with
  | nil => simp at hr
  | cons r0 rs ih =>
    simp only [List.map_cons, List.nodup_cons] at hpk
    rcases List.mem_cons.1 hr with rfl | hmem
    · simp [List.find?]
    · have hne : ¬ r0.id = r.id := fun h => hpk.1 (List.mem_map.2 ⟨r, hmem, h.symm⟩)
      simp only [List.find?, hne, decide_False, Bool.false_and]
      exact ih hpk.2 hmem

/-- With unique ids, a row of the table is the one found by its id and owner. -/
theorem getInterview_of_mem (db : Db) (r : Interview) (hpk : UniqueIds db)
    (hr : r ∈ db.interviews) : getInterview db r.id r.user_id = some r :=
  find_owned_of_mem db.interviews r hpk hr

/-- C1: for every session of the caller, whatever the model replies or fails to
reply on each attempt and however `JSON.parse` behaves, `POST /ideal-answers`
answers with a success that has one entry per question of the session, the
i-th entry carrying the i-th question. -/
theorem idealAnswers_total (parse : Str → Option JsVal) (db : Db) (hf : Nat → ModelReply)
    (r : Interview) (hpk : UniqueIds db) (hr : r ∈ db.interviews) :
    ∃ pairs, (idealAnswers parse db r.user_id r.id hf).response = .json pairs ∧
      pairs.length = r.questions.length ∧ pairs.map IdealAnswer.question = r.questions := by
  have hown := getInterview_of_mem db r hpk hr
  have hby := getInterviewById_of_owned db r.id r.user_id r hpk hown
  obtain ⟨pairs, calls, heq, _, hpath⟩ := idealAnswers_owned parse db r.user_id r.id hf r hown
  have hq : pairs.map IdealAnswer.question = r.questions := by
    rcases hpath with ⟨h0, rfl⟩ | rfl | ⟨xs, _, rfl⟩
    · simp [h0]
    · exact fallbackAnswers_questions db r.id r hby
    · exact structureAnswers_questions r.questions xs
  refine ⟨pairs, by rw [heq], ?_, hq⟩
  rw [← hq, List.length_map]

theorem idealAnswers_total_witness :
    UniqueIds sampleDb ∧ sampleOpened ∈ sampleDb.interviews ∧
    ∃ pairs, (idealAnswers jsonParse sampleDb sampleOpened.user_id sampleOpened.id
        (fun _ => .failure)).response = .json pairs ∧
      pairs.length = sampleOpened.questions.length ∧
      pairs.map IdealAnswer.question = sampleOpened.questions :=
  ⟨List.nodup_singleton _, List.mem_singleton.2 rfl,
    idealAnswers_total jsonParse sampleDb (fun _ => .failure) sampleOpened
      (List.nodup_singleton _) (List.mem_singleton.2 rfl)⟩

/-! ## `POST /analyze-resume` -/

theorem lookupField_setField_ne (key k : Str) (v : JsVal) (kvs : List (Str × JsVal))
    (hne : key ≠ k) : lookupField key (setField k v kvs) = lookupField key kvs := by
  induction kvs with
  | nil => simp [setField, lookupField, Ne.symm hne]
  | cons kv kvs ih =>
    obtain ⟨k1, v1⟩ := kv
    by_cases h1 : k1 = k
    · subst h1
      simp [setField, lookupField, Ne.symm hne]
    · by_cases h2 : k1 = key
      · subst h2
        simp [setField, lookupField, h1]
      · simp [setField, lookupField, h1, h2, ih]

theorem lookupJson_toJsonFields_some (key : Str) (kvs : List (Str × JsVal)) (v : JsVal)
    (j : Json) (h : lookupField key kvs = some v) (hj : toJson v = some j) :
    lookupJson key (toJsonFields kvs) = some j := by
  induction kvs with
  | nil => simp [lookupField] at h
  | cons kv kvs ih =>
    obtain ⟨k1, v1⟩ := kv
    by_cases h1 : k1 = key
    · simp only [lookupField, h1, if_true, Option.some.injEq] at h
      subst h
      simp [toJsonFields, hj, lookupJson, h1]
    · simp only [lookupField, h1, if_false] at h
      cases hv1 : toJson v1 with
      | none => simpa [toJsonFields, hv1] using ih h
      | some j1 => simpa [toJsonFields, hv1, lookupJson, h1] using ih h

theorem lookupJson_toJsonFields_none (key : Str) (kvs : List (Str × JsVal))
    (h : lookupField key kvs = none) : lookupJson key (toJsonFields kvs) = none := by
  induction kvs with
  | nil => simp [toJsonFields, lookupJson]
  | cons kv kvs ih =>
    obtain ⟨k1, v1⟩ := kv
    by_cases h1 : k1 = key
    · simp [lookupField, h1] at h
    · simp only [lookupField, h1, if_false] at h
      cases hv1 : toJson v1 with
      | none => simpa [toJsonFields, hv1] using ih h
      | some j1 => simpa [toJsonFields, hv1, lookupJson, h1] using ih h

/-- A reply accepted by the retry loop of `POST /analyze-resume` is the reply of
one of the calls, and its part between braces parses. -/
theorem analysisLoop_accepts (parse : Str → Option JsVal) (hf : Nat → ModelReply)
    (remaining calls : Nat) (rawContent : Str) (total : Nat)
    (h : analysisLoop parse hf remaining calls = (some rawContent, total)) :
    ∃ k, calls ≤ k ∧ k < calls + remaining ∧ hf k = .text rawContent ∧
      ∃ jsonMatch analysisResult, matchBraces rawContent = some jsonMatch ∧
        parse jsonMatch = some analysisResult := by
  induction remaining generalizing calls with
  | zero => simp [analysisLoop] at h
  | succ remaining ih =>
    unfold analysisLoop at h
    split at h
    · obtain ⟨k, h1, h2, h3⟩ := ih (calls + 1) h
      exact ⟨k, by omega, by omega, h3⟩
    · rename_i raw hraw
      split at h
      · obtain ⟨k, h1, h2, h3⟩ := ih (calls + 1) h
        exact ⟨k, by omega, by omega, h3⟩
      · rename_i m hm
        split at h
        · obtain ⟨k, h1, h2, h3⟩ := ih (calls + 1) h
          exact ⟨k, by omega, by omega, h3⟩
        · rename_i v hv
          simp only [Prod.mk.injEq, Option.some.injEq] at h
          obtain ⟨rfl, _⟩ := h
          exact ⟨calls, by omega, by omega, hraw, m, v, hm, hv⟩

/-- A success of `storeReview` is the spread of the parsed object with
`extractedText` set. -/
theorem storeReview_json (parse : Str → Option JsVal) (db : Db) (userId : Nat)
    (targetRole : JsVal) (f : Upload) (resumeText rawContent : Str) (now : Nat) (date : Str)
    (calls : Nat) (body : Json)
    (h : (storeReview parse db userId targetRole f resumeText rawContent now date
      calls).response = .json body) :
    ∃ jsonMatch analysisResult, matchBraces rawContent = some jsonMatch ∧
      parse jsonMatch = some analysisResult ∧
      body = (toJson (.obj (setField "extractedText".toList (.str resumeText)
        (spread analysisResult)))).getD .null := by
  unfold storeReview at h
  split at h
  · simp at h
  · rename_i m hm
    split at h
    · simp at h
    · rename_i v hv
      split at h
      · dsimp only at h
        split at h
        · simp at h
        · simp only [Response.json.injEq] at h
          exact ⟨m, v, hm, hv, h.symm⟩
      · simp at h

/-- Every success of `POST /analyze-resume`. -/
theorem analyzeResume_json (parse : Str → Option JsVal) (db : Db) (userId : Nat)
    (file : Option Upload) (targetRole : JsVal) (now : Nat) (date : Str)
    (hf : Nat → ModelReply) (body : Json)
    (h : (analyzeResume parse db userId file targetRole now date hf).response = .json body) :
    ∃ f extractedText k rawContent jsonMatch analysisResult,
      file = some f ∧ f.extracted = some extractedText ∧ k < 3 ∧ hf k = .text rawContent ∧
      matchBraces rawContent = some jsonMatch ∧ parse jsonMatch = some analysisResult ∧
      body = (toJson (.obj (setField "extractedText".toList
        (.str ((normalizeText extractedText).take 4000)) (spread analysisResult)))).getD .null := by
  unfold analyzeResume at h
  split at h
  · simp at h
  · rename_i f
    split at h
    · simp at h
    · split at h
      · simp at h
      · split at h
        · simp at h
        · split at h
          · split at h <;> simp at h
          · rename_i extractedText hex
            split at h
            · simp at h
            · split at h
              · simp at h
              · dsimp only at h
                split at h
                · simp at h
                · rename_i rawContent calls hloop
                  obtain ⟨k, _, hk, hfk, _⟩ := analysisLoop_accepts parse hf 3 0 rawContent calls hloop
                  obtain ⟨m, v, hm, hv, hb⟩ := storeReview_json parse db userId targetRole f _
                    rawContent now date calls body h
                  exact ⟨f, extractedText, k, rawContent, m, v, rfl, hex, by omega, hfk, hm, hv, hb⟩

/-- C2, failing input: a readable PDF of 70 characters and a model that replies
with the empty object.  The request succeeds and the success carries none of
`atsScore`, `keywordsMatched`, `missingSkills` and `formattingIssues`, while
`src/backend/test-resume.js` 49-53 requires `atsScore` in every success. -/
theorem empty_object_accepted :
    (analyzeResume jsonParse emptyDb 7 (some sampleUpload) (.str "Backend Engineer".toList)
      1700000000001 sampleDate emptyObjectModel).response
      = .json (.obj [("extractedText".toList, .str sampleCleanText)]) ∧
    Json.getField "atsScore".toList (.obj [("extractedText".toList, .str sampleCleanText)])
      = none ∧
    Json.getField "keywordsMatched".toList (.obj [("extractedText".toList, .str sampleCleanText)])
      = none ∧
    Json.getField "missingSkills".toList (.obj [("extractedText".toList, .str sampleCleanText)])
      = none ∧
    Json.getField "formattingIssues".toList
      (.obj [("extractedText".toList, .str sampleCleanText)]) = none :=
  ⟨rfl, rfl, rfl, rfl, rfl⟩

/-- What the handler does with the fields: `POST /analyze-resume` either fails or
returns a success built from the value that `JSON.parse` gives for the part
between the first opening and the last closing brace of the reply of one of at
most three model calls; when that value is an object, every field of the
success other than `extractedText` is present exactly when the object has it
and holds what the object holds. -/
theorem analysis_fields (parse : Str → Option JsVal) (db : Db) (userId : Nat)
    (file : Option Upload) (targetRole : JsVal) (now : Nat) (date : Str)
    (hf : Nat → ModelReply) (body : Json)
    (h : (analyzeResume parse db userId file targetRole now date hf).response = .json body) :
    ∃ k rawContent jsonMatch analysisResult, k < 3 ∧ hf k = .text rawContent ∧
      matchBraces rawContent = some jsonMatch ∧ parse jsonMatch = some analysisResult ∧
      ∀ kvs, analysisResult = .obj kvs → ∀ key, key ≠ "extractedText".toList →
        (∀ v j, lookupField key kvs = some v → toJson v = some j →
          body.getField key = some j) ∧
        (lookupField key kvs = none → body.getField key = none) := by
  obtain ⟨f, extractedText, k, rawContent, m, v, _, _, hk, hfk, hm, hv, hb⟩ :=
    analyzeResume_json parse db userId file targetRole now date hf body h
  refine ⟨k, rawContent, m, v, hk, hfk, hm, hv, ?_⟩
  intro kvs hobj key hkey
  subst hobj
  simp only [spread, toJson, Option.getD_some] at hb
  subst hb
  constructor
  · intro v1 j hv1 hj
    exact lookupJson_toJsonFields_some key _ v1 j
      (by rw [lookupField_setField_ne key _ _ _ hkey]; exact hv1) hj
  · intro hnone
    exact lookupJson_toJsonFields_none key _
      (by rw [lookupField_setField_ne key _ _ _ hkey]; exact hnone)

theorem analysis_fields_witness :
    (analyzeResume jsonParse emptyDb 7 (some sampleUpload) (.str "Backend Engineer".toList)
      1700000000001 sampleDate assessmentModel).response = .json sampleAssessment ∧
    sampleAssessment.getField "atsScore".toList = some (.num 72) ∧
    ∃ k rawContent jsonMatch analysisResult, k < 3 ∧ assessmentModel k = .text rawContent ∧
      matchBraces rawContent = some jsonMatch ∧ jsonParse jsonMatch = some analysisResult ∧
      ∀ kvs, analysisResult = .obj kvs → ∀ key, key ≠ "extractedText".toList →
        (∀ v j, lookupField key kvs = some v → toJson v = some j →
          sampleAssessment.getField key = some j) ∧
        (lookupField key kvs = none → sampleAssessment.getField key = none) :=
  ⟨rfl, rfl, analysis_fields jsonParse emptyDb 7 (some sampleUpload)
    (.str "Backend Engineer".toList) 1700000000001 sampleDate assessmentModel sampleAssessment
    rfl⟩

/-! ## Claims about `POST /start-interview` -/

theorem insertInterview_fresh (db : Db) (row : Interview)
    (hfresh : ∀ r ∈ db.interviews, r.id ≠ row.id) :
    insertInterview db row = some { db with interviews := db.interviews ++ [row] } := by
  unfold insertInterview
  have : (db.interviews.any fun r => decide (r.id = row.id)) = false := by
    rw [Bool.eq_false_iff]
    intro hany
    obtain ⟨r, hr, hid⟩ := List.any_eq_true.1 hany
    exact hfresh r hr (by simpa using hid)
  simp [this]

theorem storeInterview_fresh (db : Db) (userId : Nat) (role : Str) (questions : List JsVal)
    (interviewId date : Str) (type : JsVal) (calls : Nat)
    (hfresh : ∀ r ∈ db.interviews, r.id ≠ interviewId) :
    storeInterview db userId role questions interviewId date type calls =
      ⟨.json ⟨interviewId, toJsonList questions⟩,
        { db with interviews := db.interviews ++
            [newInterview interviewId userId role questions date type] }, calls⟩ := by
  unfold storeInterview
  rw [insertInterview_fresh db _ (by simpa [newInterview] using hfresh)]

theorem storeInterview_calls (db : Db) (userId : Nat) (role : Str) (questions : List JsVal)
    (interviewId date : Str) (type : JsVal) (calls : Nat) :
    (storeInterview db userId role questions interviewId date type calls).modelCalls = calls := by
  unfold storeInterview
  split <;> rfl

/-- C16: when the request carries a non-empty list of questions, the handler
of `POST /start-interview` never calls the model; when moreover the role is
usable and the id drawn from the clock is free, the request succeeds and both
the list returned and the list stored in the new session are the supplied list,
element for element. -/
theorem preset_questions_verbatim (db : Db) (userId : Nat) (body : StartRequest) (now : Nat)
    (date : Str) (hf : Nat → ModelReply) (js : List Json)
    (hq : body.passedQuestions = .arr (fromJsonList js)) (hne : js ≠ []) :
    (startInterview db userId body now date hf).modelCalls = 0 ∧
    ∀ role, resolveRole body.role = some role →
      (∀ r ∈ db.interviews, r.id ≠ Nat.toDigits 10 now) →
      (startInterview db userId body now date hf).response = .json ⟨Nat.toDigits 10 now, js⟩ ∧
      ∃ row, (startInterview db userId body now date hf).db.interviews
          = db.interviews ++ [row] ∧
        row.id = Nat.toDigits 10 now ∧ row.user_id = userId ∧ row.questions = js := by
  obtain ⟨j, js1, rfl⟩ := List.exists_cons_of_ne_nil hne
  simp only [fromJsonList] at hq
  constructor
  · unfold startInterview
    split
    · rfl
    · simp only [hq]
      exact storeInterview_calls _ _ _ _ _ _ _ _
  · intro role hrole hfresh
    have hrun : startInterview db userId body now date hf =
        ⟨.json ⟨Nat.toDigits 10 now, toJsonList (fromJson j :: fromJsonList js1)⟩,
          { db with interviews := db.interviews ++
              [newInterview (Nat.toDigits 10 now) userId role (fromJson j :: fromJsonList js1)
                date (orDefault body.type (.str "standard".toList))] }, 0⟩ := by
      unfold startInterview
      simp only [hrole, hq]
      exact storeInterview_fresh _ _ _ _ _ _ _ _ hfresh
    have hjs : toJsonList (fromJson j :: fromJsonList js1) = j :: js1 := by
      have := toJsonList_fromJsonList (j :: js1)
      simpa [fromJsonList] using this
    rw [hrun, hjs]
    exact ⟨rfl, _, rfl, rfl, rfl, by simp only [newInterview, hjs]⟩

theorem sampleDb_fresh (now : Nat) (h : Nat.toDigits 10 now ≠ "1700000000000".toList) :
    ∀ r ∈ sampleDb.interviews, r.id ≠ Nat.toDigits 10 now := by
  intro r hr
  have hr1 : r = sampleOpened := List.mem_singleton.1 hr
  subst hr1
  exact fun heq => h heq.symm

theorem preset_questions_verbatim_witness :
    presetStartBody.passedQuestions = .arr (fromJsonList presetQuestions) ∧
    presetQuestions ≠ [] ∧
    resolveRole presetStartBody.role = some "Data Analyst".toList ∧
    (∀ r ∈ sampleDb.interviews, r.id ≠ Nat.toDigits 10 1700000000500) ∧
    (startInterview sampleDb 9 presetStartBody 1700000000500 sampleDate
      (fun _ => .failure)).modelCalls = 0 ∧
    (startInterview sampleDb 9 presetStartBody 1700000000500 sampleDate
      (fun _ => .failure)).response = .json ⟨Nat.toDigits 10 1700000000500, presetQuestions⟩ ∧
    ∃ row, (startInterview sampleDb 9 presetStartBody 1700000000500 sampleDate
        (fun _ => .failure)).db.interviews = sampleDb.interviews ++ [row] ∧
      row.id = Nat.toDigits 10 1700000000500 ∧ row.user_id = 9 ∧
      row.questions = presetQuestions :=
  ⟨rfl, by simp [presetQuestions], rfl, sampleDb_fresh 1700000000500 (by decide),
    (preset_questions_verbatim sampleDb 9 presetStartBody 1700000000500 sampleDate
      (fun _ => .failure) presetQuestions rfl (by simp [presetQuestions])).1,
    (preset_questions_verbatim sampleDb 9 presetStartBody 1700000000500 sampleDate
      (fun _ => .failure) presetQuestions rfl (by simp [presetQuestions])).2
      "Data Analyst".toList rfl (sampleDb_fresh 1700000000500 (by decide))⟩

/-- C19: when the request carries no non-empty list of questions, the role and
the prompt parameters are usable and the call to the model fails, the handler
of `POST /start-interview` answers with status 500
`Failed to connect to AI service` after exactly one model call and leaves the
database unchanged. -/
theorem start_upstream_failure (db : Db) (userId : Nat) (body : StartRequest) (now : Nat)
    (date : Str) (hf : Nat → ModelReply) (role : Str)
    (hnone : ∀ q qs, body.passedQuestions ≠ .arr (q :: qs))
    (hrole : resolveRole body.role = some role) (hprompt : startPromptThrows body = false)
    (hfail : hf 0 = .failure) :
    startInterview db userId body now date hf =
      ⟨.status 500 "Failed to connect to AI service".toList, db, 1⟩ := by
  unfold startInterview
  simp only [hrole]
  cases hpq : body.passedQuestions with
  | arr xs =>
    cases xs with
    | nil => simp [hprompt, hfail]
    | cons q qs => exact absurd hpq (hnone q qs)
  | _ => simp [hprompt, hfail]

theorem start_upstream_failure_witness :
    (∀ q qs, sampleStartBody.passedQuestions ≠ .arr (q :: qs)) ∧
    resolveRole sampleStartBody.role = some "Backend Engineer".toList ∧
    startPromptThrows sampleStartBody = false ∧
    startInterview sampleDb 7 sampleStartBody 1700000000900 sampleDate (fun _ => .failure) =
      ⟨.status 500 "Failed to connect to AI service".toList, sampleDb, 1⟩ :=
  ⟨(fun _ _ h => by cases h), rfl, rfl,
    start_upstream_failure sampleDb 7 sampleStartBody 1700000000900 sampleDate
      (fun _ => .failure) "Backend Engineer".toList (fun _ _ h => by cases h) rfl rfl rfl⟩

/-- C20: a successful `POST /start-interview` appends exactly one row to table
`interviews`: its id is the one returned and was not in use, its owner is the
caller, its questions are the questions returned, and its answers, scores and
feedbacks are empty; the rows that existed before are unchanged and so is
table `resume_reviews`. -/
theorem start_adds_one_session (db : Db) (userId : Nat) (body : StartRequest) (now : Nat)
    (date : Str) (hf : Nat → ModelReply) (reply : StartReply)
    (h : (startInterview db userId body now date hf).response = .json reply) :
    ∃ row, (startInterview db userId body now date hf).db.interviews = db.interviews ++ [row] ∧
      (startInterview db userId body now date hf).db.resume_reviews = db.resume_reviews ∧
      (∀ r ∈ db.interviews, r.id ≠ row.id) ∧
      row.id = reply.interviewId ∧ row.user_id = userId ∧ row.questions = reply.questions ∧
      row.answers = [] ∧ row.scores = [] ∧ row.feedbacks = [] := by
  rcases startInterview_cases db userId body now date hf with
    ⟨_, hno⟩ | ⟨role, questions, type, calls, hne, heq⟩
  · exact absurd h (hno reply)
  · rw [heq] at h ⊢
    simp only [Response.json.injEq] at h
    subst h
    exact ⟨_, rfl, rfl, by simpa [newInterview] using hne, rfl, rfl, rfl, rfl, rfl, rfl⟩

theorem start_adds_one_session_witness :
    (startInterview emptyDb 7 sampleStartBody 1700000000000 sampleDate
      (fun _ => .text sampleQuestionsText)).response
      = .json ⟨"1700000000000".toList, sampleOpened.questions⟩ ∧
    ∃ row, (startInterview emptyDb 7 sampleStartBody 1700000000000 sampleDate
        (fun _ => .text sampleQuestionsText)).db.interviews = emptyDb.interviews ++ [row] ∧
      (startInterview emptyDb 7 sampleStartBody 1700000000000 sampleDate
        (fun _ => .text sampleQuestionsText)).db.resume_reviews = emptyDb.resume_reviews ∧
      (∀ r ∈ emptyDb.interviews, r.id ≠ row.id) ∧
      row.id = (⟨"1700000000000".toList, sampleOpened.questions⟩ : StartReply).interviewId ∧
      row.user_id = 7 ∧
      row.questions = (⟨"1700000000000".toList, sampleOpened.questions⟩ : StartReply).questions ∧
      row.answers = [] ∧ row.scores = [] ∧ row.feedbacks = [] :=
  ⟨rfl, start_adds_one_session emptyDb 7 sampleStartBody 1700000000000 sampleDate
    (fun _ => .text sampleQuestionsText) ⟨"1700000000000".toList, sampleOpened.questions⟩ rfl⟩

/-! ## Numbering of the questions -/

theorem dropWhile_of_head_not (p : Char → Bool) (c : Char) (cs : Str) (h : p c = false) :
    (c :: cs).dropWhile p = c :: cs := by
  simp [List.dropWhile, h]

theorem dropWhile_dropWhile_of_imp (p q : Char → Bool) (h : ∀ c, p c = true → q c = true)
    (l : Str) : (l.dropWhile q).dropWhile p = l.dropWhile q := by
  cases hl : l.dropWhile q with
  | nil => rfl
  | cons c cs =>
    have hne : l.dropWhile q ≠ [] := by simp [hl]
    have hhead := List.head_dropWhile_not q l hne
    simp only [hl, List.head_cons] at hhead
    apply dropWhile_of_head_not
    cases hp : p c with
    | false => rfl
    | true => rw [h c hp] at hhead; cases hhead

/-- What the replacement does on a line that begins with a numbering. -/
theorem stripNumbering_of_numbering (q : Str) (h : beginsWithNumbering q = true) :
    q.takeWhile isDigit ≠ [] ∧ (q.dropWhile isDigit).takeWhile isMarkerChar ≠ [] ∧
    stripNumbering q = (q.dropWhile isDigit).dropWhile isMarkerChar ∧
    q = q.takeWhile isDigit ++ (q.dropWhile isDigit).takeWhile isMarkerChar ++
      stripNumbering q := by
  unfold beginsWithNumbering at h
  simp only [Bool.and_eq_true, Bool.not_eq_true', List.isEmpty_eq_false] at h
  obtain ⟨hds, hm⟩ := h
  have hms : (q.dropWhile isDigit).takeWhile isMarkerChar ≠ [] := by
    cases hd : q.dropWhile isDigit with
    | nil => simp [hd] at hm
    | cons c cs =>
      simp only [hd] at hm
      simp [List.takeWhile, hm]
  have hstrip : stripNumbering q = (q.dropWhile isDigit).dropWhile isMarkerChar := by
    unfold stripNumbering
    simp only [hds, hms, ne_eq, not_false_eq_true, and_self, if_true]
    exact dropWhile_dropWhile_of_imp isWhiteSpace isMarkerChar
      (fun c hc => by simp [isMarkerChar, hc]) _
  refine ⟨hds, hms, hstrip, ?_⟩
  rw [hstrip, List.append_assoc, List.takeWhile_append_dropWhile,
    List.takeWhile_append_dropWhile]

theorem stripNumbering_of_not_numbering (q : Str) (h : beginsWithNumbering q = false) :
    stripNumbering q = q := by
  unfold stripNumbering
  dsimp only
  split
  · rename_i hboth
    exfalso
    unfold beginsWithNumbering at h
    cases hd : q.dropWhile isDigit with
    | nil => simp [hd] at hboth
    | cons c cs =>
      have hc : isMarkerChar c = true := by
        by_contra hc
        simp [hd, List.takeWhile, hc] at hboth
      have hne : (q.takeWhile isDigit).isEmpty = false := by
        simpa [List.isEmpty_eq_false] using hboth.1
      simp [hd, hc, hne] at h
  · rfl

/-- C18, refuted as stated: the line `1 What is REST?` does not begin with digits
followed by `.`, `)` or `-`, and the replacement removes its prefix `1 `. -/
theorem digit_space_stripped :
    beginsWithMarker "1 What is REST?".toList = false ∧
    stripNumbering "1 What is REST?".toList = "What is REST?".toList ∧
    stripNumbering "1 What is REST?".toList ≠ "1 What is REST?".toList :=
  ⟨rfl, rfl, by decide⟩

/-- C18, amended: the replacement applied to each trimmed line removes a prefix
exactly when the line begins with one or more digits followed by `.`, `)`, `-`
or a white-space character: the prefix removed is then the digits together
with the whole run of such characters after them, and every other line passes
unchanged; a line that begins with digits followed by `.`, `)` or `-` is among
those stripped. -/
theorem stripNumbering_marker (q : Str) :
    (beginsWithNumbering q = true →
      q.takeWhile isDigit ≠ [] ∧ (q.dropWhile isDigit).takeWhile isMarkerChar ≠ [] ∧
      q = q.takeWhile isDigit ++ (q.dropWhile isDigit).takeWhile isMarkerChar ++
        stripNumbering q) ∧
    (beginsWithNumbering q = false → stripNumbering q = q) ∧
    (beginsWithMarker q = true → beginsWithNumbering q = true) := by
  refine ⟨fun h => ?_, stripNumbering_of_not_numbering q, ?_⟩
  · obtain ⟨h1, h2, _, h4⟩ := stripNumbering_of_numbering q h
    exact ⟨h1, h2, h4⟩
  · unfold beginsWithMarker beginsWithNumbering
    cases q.dropWhile isDigit with
    | nil => simp
    | cons c cs =>
      simp only [Bool.and_eq_true, Bool.or_eq_true, decide_eq_true_eq, isMarkerChar]
      rintro ⟨h1, h2⟩
      refine ⟨h1, ?_⟩
      rcases h2 with (h2 | h2) | h2 <;> simp [h2]

theorem stripNumbering_marker_witness :
    beginsWithNumbering "12) Explain SQL joins.".toList = true ∧
    beginsWithNumbering "Explain SQL joins.".toList = false ∧
    beginsWithMarker "12) Explain SQL joins.".toList = true ∧
    stripNumbering "12) Explain SQL joins.".toList = "Explain SQL joins.".toList ∧
    ("12) Explain SQL joins.".toList.takeWhile isDigit ≠ [] ∧
      ("12) Explain SQL joins.".toList.dropWhile isDigit).takeWhile isMarkerChar ≠ [] ∧
      "12) Explain SQL joins.".toList =
        "12) Explain SQL joins.".toList.takeWhile isDigit ++
          ("12) Explain SQL joins.".toList.dropWhile isDigit).takeWhile isMarkerChar ++
          stripNumbering "12) Explain SQL joins.".toList) ∧
    stripNumbering "Explain SQL joins.".toList = "Explain SQL joins.".toList ∧
    beginsWithNumbering "12) Explain SQL joins.".toList = true :=
  ⟨rfl, rfl, rfl, rfl,
    (stripNumbering_marker "12) Explain SQL joins.".toList).1 rfl,
    (stripNumbering_marker "Explain SQL joins.".toList).2.1 rfl,
    (stripNumbering_marker "12) Explain SQL joins.".toList).2.2 rfl⟩

/-! ## Parsing of the questions -/

theorem splitOn_of_not_mem (sep : Char) (l : Str) (h : sep ∉ l) : splitOn sep l = [l] := by
  induction l with
  | nil => rfl
  | cons c cs ih =>
    simp only [List.mem_cons, not_or] at h
    have hc : ¬ c = sep := fun e => h.1 e.symm
    simp [splitOn, hc, ih h.2]

theorem splitOn_append_sep (sep : Char) (l rest : Str) (h : sep ∉ l) :
    splitOn sep (l ++ sep :: rest) = l :: splitOn sep rest := by
  induction l with
  | nil => simp [splitOn]
  | cons c cs ih =>
    simp only [List.mem_cons, not_or] at h
    have hc : ¬ c = sep := fun e => h.1 e.symm
    simp [splitOn, hc, ih h.2]

theorem splitOn_joinLines (ls : List Str) (hne : ls ≠ []) (h : ∀ l ∈ ls, '\n' ∉ l) :
    splitOn '\n' (joinLines ls) = ls := by
  induction ls with
  | nil => exact absurd rfl hne
  | cons l ls ih =>
    cases ls with
    | nil => simpa [joinLines] using splitOn_of_not_mem '\n' l (h l (by simp))
    | cons l1 ls1 =>
      simp only [joinLines]
      rw [splitOn_append_sep '\n' l _ (h l (by simp)),
        ih (by simp) (fun x hx => h x (List.mem_cons_of_mem _ hx))]

theorem trim_eq_self (s : Str) (hhead : ∀ c, s.head? = some c → isWhiteSpace c = false)
    (hlast : ∀ c, s.getLast? = some c → isWhiteSpace c = false) : trim s = s := by
  cases s with
  | nil => rfl
  | cons c cs =>
    unfold trim
    rw [dropWhile_of_head_not isWhiteSpace c cs (hhead c rfl)]
    cases hr : (c :: cs).reverse with
    | nil => simp at hr
    | cons d ds =>
      have hd : (c :: cs).getLast? = some d := by
        rw [List.getLast?_eq_head?_reverse, hr]
        rfl
      rw [dropWhile_of_head_not isWhiteSpace d ds (hlast d hd), ← hr, List.reverse_reverse]

theorem takeWhile_append_stop (p : Char → Bool) (k : Str) (c : Char) (rest : Str)
    (hk : ∀ x ∈ k, p x = true) (hc : p c = false) :
    (k ++ c :: rest).takeWhile p = k ∧ (k ++ c :: rest).dropWhile p = c :: rest := by
  induction k with
  | nil => simp [List.takeWhile, List.dropWhile, hc]
  | cons x xs ih =>
    have hx : p x = true := hk x (by simp)
    have := ih (fun y hy => hk y (List.mem_cons_of_mem _ hy))
    simp [List.takeWhile, List.dropWhile, hx, this.1, this.2]

theorem stripNumbering_numberedLine (k text : Str) (hk : IsNumber k)
    (hhead : ∀ c, text.head? = some c → isMarkerChar c = false) :
    stripNumbering (numberedLine k text) = text := by
  have hdot : isDigit '.' = false := by decide
  obtain ⟨htake, hdrop⟩ := takeWhile_append_stop isDigit k '.' (' ' :: text) hk.2 hdot
  have hnum : beginsWithNumbering (numberedLine k text) = true := by
    unfold beginsWithNumbering numberedLine
    rw [htake, hdrop]
    have : k.isEmpty = false := by simpa [List.isEmpty_eq_false] using hk.1
    simp only [this, Bool.not_false, Bool.true_and]
    decide
  rw [(stripNumbering_of_numbering _ hnum).2.2.1]
  unfold numberedLine
  rw [hdrop]
  have h1 : isMarkerChar '.' = true := by decide
  have h2 : isMarkerChar ' ' = true := by decide
  cases text with
  | nil => simp [List.dropWhile, h1, h2]
  | cons c cs =>
    have hc := hhead c rfl
    simp [List.dropWhile, h1, h2, hc]

theorem parseQuestions_eq (text : Str) :
    parseQuestions text =
      ((splitOn '\n' text).map (fun l => stripNumbering (trim l))).filter
        (fun q => decide (q.length > 5)) := by
  unfold parseQuestions
  induction splitOn '\n' text with
  | nil => rfl
  | cons l ls ih =>
    simp only [List.map_cons, List.filter_cons]
    by_cases hl : (trim l).length > 0
    · simp only [hl, decide_True, if_true, List.map_cons, List.filter_cons]
      rw [ih]
    · have hnil : trim l = [] := by
        cases h : trim l with
        | nil => rfl
        | cons c cs => simp [h] at hl
      simp only [hnil, List.length_nil, gt_iff_lt, lt_self_iff_false, decide_False,
        Bool.false_eq_true, if_false]
      rw [ih]
      have : stripNumbering [] = [] := rfl
      simp [this]

/-- The parsing of lines 622-626 on numbered lines of plain questions. -/
theorem parseQuestions_numbered (items : List (Str × Str))
    (h : ∀ it ∈ items, IsNumber it.1 ∧ IsPlainQuestion it.2) :
    parseQuestions (joinLines (items.map (fun it => numberedLine it.1 it.2))) =
      items.map (fun it => it.2) := by
  have hline : ∀ it ∈ items, '\n' ∉ numberedLine it.1 it.2 ∧
      stripNumbering (trim (numberedLine it.1 it.2)) = it.2 ∧ it.2.length > 5 := by
    intro it hit
    obtain ⟨hk, hnl, hlen, hhead, hlast⟩ := h it hit
    have hknl : '\n' ∉ it.1 := by
      intro hmem
      have := hk.2 _ hmem
      revert this
      decide
    have hnotin : '\n' ∉ numberedLine it.1 it.2 := by
      simp only [numberedLine, List.mem_append, List.mem_cons, not_or]
      exact ⟨hknl, by decide, by decide, hnl⟩
    have htrim : trim (numberedLine it.1 it.2) = numberedLine it.1 it.2 := by
      apply trim_eq_self
      · intro c hc
        obtain ⟨d, ds, hkd⟩ := List.exists_cons_of_ne_nil hk.1
        simp only [numberedLine, hkd, List.cons_append, List.head?_cons, Option.some.injEq] at hc
        subst hc
        exact isWhiteSpace_of_isDigit d (hk.2 d (by simp [hkd]))
      · intro c hc
        have hne : it.2 ≠ [] := by
          intro he
          rw [he] at hlen
          simp at hlen
        apply hlast c
        rw [← hc]
        have e : numberedLine it.1 it.2 = (it.1 ++ ['.', ' ']) ++ it.2 := by
          simp [numberedLine]
        rw [e, List.getLast?_append_of_ne_nil _ hne]
    exact ⟨hnotin, by rw [htrim]; exact stripNumbering_numberedLine _ _ hk hhead, hlen⟩
  rw [parseQuestions_eq]
  cases items with
  | nil => rfl
  | cons it its =>
    rw [splitOn_joinLines _ (by simp)
      (by
        intro l hl
        obtain ⟨it1, hit1, rfl⟩ := List.mem_map.1 hl
        exact (hline it1 hit1).1)]
    rw [List.map_map]
    have hmap : ∀ l : List (Str × Str), (∀ it ∈ l, '\n' ∉ numberedLine it.1 it.2 ∧
        stripNumbering (trim (numberedLine it.1 it.2)) = it.2 ∧ it.2.length > 5) →
        (l.map ((fun l => stripNumbering (trim l)) ∘ fun it => numberedLine it.1 it.2)).filter
          (fun q => decide (q.length > 5)) = l.map (fun it => it.2) := by
      intro l hl
      induction l with
      | nil => rfl
      | cons x xs ih =>
        obtain ⟨_, hx, hxl⟩ := hl x (by simp)
        simp only [List.map_cons, Function.comp, hx, List.filter_cons, hxl, decide_True, if_true]
        rw [← ih (fun y hy => hl y (List.mem_cons_of_mem _ hy))]
    exact hmap _ hline

theorem toJsonList_map_str (l : List Str) : toJsonList (l.map JsVal.str) = l.map Json.str := by
  induction l with
  | nil => rfl
  | cons x xs ih => simp [toJsonList, toJson_str, ih]

/-- Outcome of `POST /start-interview` when the model delivers the text `t`. -/
theorem startInterview_of_text (db : Db) (userId : Nat) (body : StartRequest) (now : Nat)
    (date : Str) (hf : Nat → ModelReply) (role t : Str)
    (hnone : ∀ q qs, body.passedQuestions ≠ .arr (q :: qs))
    (hrole : resolveRole body.role = some role) (hprompt : startPromptThrows body = false)
    (ht : hf 0 = .text t) (hfresh : ∀ r ∈ db.interviews, r.id ≠ Nat.toDigits 10 now) :
    startInterview db userId body now date hf =
      ⟨.json ⟨Nat.toDigits 10 now, (parseQuestions t).map Json.str⟩,
        { db with interviews := db.interviews ++
            [newInterview (Nat.toDigits 10 now) userId role ((parseQuestions t).map JsVal.str)
              date (orDefault body.type (.str "standard".toList))] }, 1⟩ := by
  have hstore := storeInterview_fresh db userId role ((parseQuestions t).map JsVal.str)
    (Nat.toDigits 10 now) date (orDefault body.type (.str "standard".toList)) 1 hfresh
  rw [toJsonList_map_str] at hstore
  unfold startInterview
  simp only [hrole]
  cases hpq : body.passedQuestions with
  | arr xs =>
    cases xs with
    | nil =>
      simp only [hprompt, ht, Bool.false_eq_true, if_false]
      exact hstore
    | cons q qs => exact absurd hpq (hnone q qs)
  | _ =>
    simp only [hprompt, ht, Bool.false_eq_true, if_false]
    exact hstore

/-- C17, refuted as stated: the reply `1. -hello world` is one line of the form
`<k>. <text>` with a text of 12 characters, and the question returned is
`hello world`, not the text. -/
theorem hyphen_question_shortened :
    hyphenQuestionText = "1. -hello world".toList ∧ "-hello world".toList.length = 12 ∧
    (startInterview emptyDb 7 sampleStartBody 1700000000000 sampleDate
      (fun _ => .text hyphenQuestionText)).response
      = .json ⟨"1700000000000".toList, [.str "hello world".toList]⟩ ∧
    "hello world".toList ≠ "-hello world".toList :=
  ⟨rfl, rfl, rfl, by decide⟩

/-- C17, amended: when the request carries no non-empty list of questions and the
model call delivers the text `t`, the questions returned are, in the order of
the lines of `t`, the lines trimmed and passed through the replacement of the
numbering that are longer than 5 characters; in particular, when `t` consists
of lines `<k>. <text>` where every `<k>` is a run of digits and every `<text>`
is longer than 5 characters, does not begin with white space, `.`, `)` or `-`
and does not end with white space, the questions returned are exactly the
texts. -/
theorem questions_from_reply (db : Db) (userId : Nat) (body : StartRequest) (now : Nat)
    (date : Str) (hf : Nat → ModelReply) (role t : Str)
    (hnone : ∀ q qs, body.passedQuestions ≠ .arr (q :: qs))
    (hrole : resolveRole body.role = some role) (hprompt : startPromptThrows body = false)
    (ht : hf 0 = .text t) (hfresh : ∀ r ∈ db.interviews, r.id ≠ Nat.toDigits 10 now) :
    (startInterview db userId body now date hf).response =
      .json ⟨Nat.toDigits 10 now,
        (((splitOn '\n' t).map (fun l => stripNumbering (trim l))).filter
          (fun q => decide (q.length > 5))).map Json.str⟩ ∧
    ∀ items : List (Str × Str), (∀ it ∈ items, IsNumber it.1 ∧ IsPlainQuestion it.2) →
      t = joinLines (items.map (fun it => numberedLine it.1 it.2)) →
      (startInterview db userId body now date hf).response =
        .json ⟨Nat.toDigits 10 now, items.map (fun it => Json.str it.2)⟩ := by
  rw [startInterview_of_text db userId body now date hf role t hnone hrole hprompt ht hfresh]
  constructor
  · rw [parseQuestions_eq]
  · intro items hitems hjoin
    rw [hjoin, parseQuestions_numbered items hitems, List.map_map]
    rfl

theorem sampleItems_plain : ∀ it ∈ sampleItems, IsNumber it.1 ∧ IsPlainQuestion it.2 := by
  intro it hit
  simp only [sampleItems, List.mem_cons, List.mem_singleton, List.not_mem_nil, or_false] at hit
  rcases hit with rfl | rfl | rfl
  · exact ⟨⟨by decide, by decide⟩, by decide, by decide,
      fun c hc => Option.some.inj hc ▸ (by decide),
      fun c hc => Option.some.inj hc ▸ (by decide)⟩
  · exact ⟨⟨by decide, by decide⟩, by decide, by decide,
      fun c hc => Option.some.inj hc ▸ (by decide),
      fun c hc => Option.some.inj hc ▸ (by decide)⟩
  · exact ⟨⟨by decide, by decide⟩, by decide, by decide,
      fun c hc => Option.some.inj hc ▸ (by decide),
      fun c hc => Option.some.inj hc ▸ (by decide)⟩

theorem questions_from_reply_witness :
    (∀ q qs, sampleStartBody.passedQuestions ≠ .arr (q :: qs)) ∧
    resolveRole sampleStartBody.role = some "Backend Engineer".toList ∧
    startPromptThrows sampleStartBody = false ∧
    (∀ r ∈ emptyDb.interviews, r.id ≠ Nat.toDigits 10 1700000000000) ∧
    (∀ it ∈ sampleItems, IsNumber it.1 ∧ IsPlainQuestion it.2) ∧
    sampleQuestionsText = joinLines (sampleItems.map (fun it => numberedLine it.1 it.2)) ∧
    (startInterview emptyDb 7 sampleStartBody 1700000000000 sampleDate
      (fun _ => .text sampleQuestionsText)).response =
      .json ⟨Nat.toDigits 10 1700000000000,
        (((splitOn '\n' sampleQuestionsText).map (fun l => stripNumbering (trim l))).filter
          (fun q => decide (q.length > 5))).map Json.str⟩ ∧
    (startInterview emptyDb 7 sampleStartBody 1700000000000 sampleDate
      (fun _ => .text sampleQuestionsText)).response =
      .json ⟨Nat.toDigits 10 1700000000000,
        [.str "What is REST?".toList, .str "Explain SQL joins.".toList,
          .str "What is a race condition?".toList]⟩ :=
  ⟨(fun _ _ h => by cases h), rfl, rfl, (fun _ hr => by cases hr), sampleItems_plain, rfl,
    (questions_from_reply emptyDb 7 sampleStartBody 1700000000000 sampleDate
      (fun _ => .text sampleQuestionsText) "Backend Engineer".toList sampleQuestionsText
      (fun _ _ h => by cases h) rfl rfl rfl (fun _ hr => by cases hr)).1,
    (questions_from_reply emptyDb 7 sampleStartBody 1700000000000 sampleDate
      (fun _ => .text sampleQuestionsText) "Backend Engineer".toList sampleQuestionsText
      (fun _ _ h => by cases h) rfl rfl rfl (fun _ hr => by cases hr)).2
      sampleItems sampleItems_plain rfl⟩

/-! ## Cleaning of the extracted text -/

theorem replaceRuns_length (isC : Char → Bool) (r : Char) (inRun : Bool) (s : Str) :
    (replaceRuns isC [r] inRun s).length ≤ s.length := by
  induction s generalizing inRun with
  | nil => simp [replaceRuns]
  | cons c cs ih =>
    unfold replaceRuns
    split
    · split
      · have := ih true; simp only [List.length_cons]; omega
      · have := ih true; simp only [List.length_append, List.length_cons, List.length_nil]; omega
    · have := ih false; simp only [List.length_cons]; omega

theorem replaceRuns_filter (isC : Char → Bool) (r : Char) (inRun : Bool) (s : Str)
    (hC : ∀ c, isC c = true → isWhiteSpace c = true) (hr : isWhiteSpace r = true) :
    (replaceRuns isC [r] inRun s).filter (fun c => !isWhiteSpace c) =
      s.filter (fun c => !isWhiteSpace c) := by
  induction s generalizing inRun with
  | nil => simp [replaceRuns]
  | cons c cs ih =>
    unfold replaceRuns
    split
    · rename_i hc
      have hw := hC c hc
      split
      · simp [hw, ih true]
      · simp [hw, hr, ih true]
    · simp only [List.filter_cons, ih false]

theorem filter_replicate_newline (n : Nat) :
    (List.replicate n '\n').filter (fun c => !isWhiteSpace c) = [] := by
  have : isWhiteSpace '\n' = true := by decide
  induction n with
  | zero => rfl
  | succ n ih => simp [List.replicate_succ, this, ih]

theorem capNewlines_length (k : Nat) (s : Str) : (capNewlines k s).length ≤ k + s.length := by
  induction s generalizing k with
  | nil =>
    simp only [capNewlines, List.length_replicate, List.length_nil]
    split <;> omega
  | cons c cs ih =>
    unfold capNewlines
    split
    · have := ih (k + 1); simp only [List.length_cons]; omega
    · have := ih 0
      simp only [List.length_append, List.length_replicate, List.length_cons]
      split <;> omega

theorem capNewlines_filter (k : Nat) (s : Str) :
    (capNewlines k s).filter (fun c => !isWhiteSpace c) = s.filter (fun c => !isWhiteSpace c) := by
  induction s generalizing k with
  | nil => simp only [capNewlines, filter_replicate_newline, List.filter_nil]
  | cons c cs ih =>
    unfold capNewlines
    split
    · rename_i hc
      have : isWhiteSpace c = true := by rw [hc]; decide
      simp [this, ih (k + 1)]
    · simp only [List.filter_append, filter_replicate_newline, List.nil_append, List.filter_cons,
        ih 0]

theorem filter_dropWhile_space (s : Str) :
    (s.dropWhile isWhiteSpace).filter (fun c => !isWhiteSpace c) =
      s.filter (fun c => !isWhiteSpace c) := by
  induction s with
  | nil => rfl
  | cons c cs ih =>
    cases hc : isWhiteSpace c with
    | true => simp [List.dropWhile, hc, ih]
    | false => simp [List.dropWhile, hc]

theorem trim_filter (s : Str) :
    (trim s).filter (fun c => !isWhiteSpace c) = s.filter (fun c => !isWhiteSpace c) := by
  unfold trim
  rw [List.filter_reverse, filter_dropWhile_space, ← List.filter_reverse, List.reverse_reverse,
    filter_dropWhile_space]

theorem length_dropWhile_le (p : Char → Bool) (s : Str) : (s.dropWhile p).length ≤ s.length := by
  induction s with
  | nil => simp
  | cons c cs ih =>
    simp only [List.dropWhile]
    split
    · simp only [List.length_cons]; omega
    · simp

theorem trim_length (s : Str) : (trim s).length ≤ s.length := by
  unfold trim
  have h1 := length_dropWhile_le isWhiteSpace s
  have h2 := length_dropWhile_le isWhiteSpace (s.dropWhile isWhiteSpace).reverse
  simp only [List.length_reverse] at h2 ⊢
  omega

theorem normalizeText_length (s : Str) : (normalizeText s).length ≤ s.length := by
  unfold normalizeText
  have h1 := replaceRuns_length isWhiteSpace ' ' false s
  have h2 := capNewlines_length 0 (replaceRuns isWhiteSpace [' '] false s)
  have h3 := replaceRuns_length isInlineSpace ' ' false
    (capNewlines 0 (replaceRuns isWhiteSpace [' '] false s))
  have h4 := trim_length (replaceRuns isInlineSpace [' '] false
    (capNewlines 0 (replaceRuns isWhiteSpace [' '] false s)))
  omega

theorem normalizeText_filter (s : Str) :
    (normalizeText s).filter (fun c => !isWhiteSpace c) = s.filter (fun c => !isWhiteSpace c) := by
  have hsp : isWhiteSpace ' ' = true := by decide
  unfold normalizeText
  rw [trim_filter,
    replaceRuns_filter isInlineSpace ' ' false _
      (fun c hc => by
        simp only [isInlineSpace, Bool.and_eq_true] at hc
        exact hc.1.1) hsp,
    capNewlines_filter, replaceRuns_filter isWhiteSpace ' ' false _ (fun _ hc => hc) hsp]

/-- C14, failing input: a PDF whose extracted text has 90 characters, with one,
two and four consecutive line feeds.  The request passes the length check of
line 883, and in the cleaned text, which the success returns as
`extractedText`, every line feed, alone or in a run, has become a single
space. -/
theorem newlines_become_spaces :
    multiLineResume.length = 90 ∧
    ReachesModel (some multiLineUpload) (.str "Backend Engineer".toList) multiLineResume ∧
    '\n' ∈ multiLineResume ∧
    normalizeText multiLineResume =
      "Jane Doe Backend engineer with five years of experience Go, SQL References on request".toList ∧
    '\n' ∉ normalizeText multiLineResume ∧
    (analyzeResume jsonParse emptyDb 7 (some multiLineUpload) (.str "Backend Engineer".toList)
      1700000000001 sampleDate assessmentModel).response =
      .json (.obj [("atsScore".toList, .num 72),
        ("keywordsMatched".toList, .arr [.str "Go".toList, .str "SQL".toList]),
        ("missingSkills".toList, .arr [.str "Kubernetes".toList]),
        ("formattingIssues".toList, .arr []),
        ("extractedText".toList, .str
          "Jane Doe Backend engineer with five years of experience Go, SQL References on request".toList)]) :=
  ⟨by decide, ⟨multiLineUpload, rfl, rfl, by decide, rfl, rfl, by decide, rfl⟩, by decide, rfl,
    by decide, rfl⟩

/-- C15: for an extracted text of at most 4000 characters, the truncation to
4000 characters removes nothing from the cleaned text, and the characters of
the result that are not white space are those of the input, in the same
order. -/
theorem cleaning_lossless (extractedText : Str) (h : extractedText.length ≤ 4000) :
    (normalizeText extractedText).take 4000 = normalizeText extractedText ∧
    ((normalizeText extractedText).take 4000).filter (fun c => !isWhiteSpace c) =
      extractedText.filter (fun c => !isWhiteSpace c) := by
  have hlen := normalizeText_length extractedText
  have htake : (normalizeText extractedText).take 4000 = normalizeText extractedText :=
    List.take_of_length_le (by omega)
  exact ⟨htake, by rw [htake, normalizeText_filter]⟩

theorem cleaning_lossless_witness :
    multiLineText.length ≤ 4000 ∧
    (normalizeText multiLineText).take 4000 = normalizeText multiLineText ∧
    ((normalizeText multiLineText).take 4000).filter (fun c => !isWhiteSpace c) =
      multiLineText.filter (fun c => !isWhiteSpace c) :=
  ⟨by decide, cleaning_lossless multiLineText (by decide)⟩

/-! ## Outcomes of `POST /analyze-resume` -/

theorem analyzeResume_of_reaches (parse : Str → Option JsVal) (db : Db) (userId : Nat)
    (file : Option Upload) (targetRole : JsVal) (now : Nat) (date : Str)
    (hf : Nat → ModelReply) (extractedText : Str)
    (h : ReachesModel file targetRole extractedText) :
    ∃ f, file = some f ∧ f.extracted = some extractedText ∧
      analyzeResume parse db userId file targetRole now date hf =
        match analysisLoop parse hf 3 0 with
        | (none, calls) =>
          ⟨.status 500
            "AI Error: failed to get valid analysis after retries. Please try again.".toList,
            db, calls⟩
        | (some rawContent, calls) =>
          storeReview parse db userId targetRole f ((normalizeText extractedText).take 4000)
            rawContent now date calls := by
  obtain ⟨f, rfl, htr, hsize, hkind, hex, hlen, hts⟩ := h
  refine ⟨f, rfl, hex, ?_⟩
  unfold analyzeResume
  have hlen1 : ¬ extractedText.length < 50 := by omega
  simp only [htr, hsize, hkind, hex, hlen1, hts, Bool.not_true, Bool.false_eq_true, if_false]

/-- When every attempt is rejected, the retry loop of `POST /analyze-resume`
gives up after `remaining` further calls. -/
theorem analysisLoop_rejects (parse : Str → Option JsVal) (hf : Nat → ModelReply)
    (remaining calls : Nat)
    (h : ∀ k, calls ≤ k → k < calls + remaining → ∀ t, hf k = .text t →
      ∀ m, matchBraces t = some m → parse m = none) :
    analysisLoop parse hf remaining calls = (none, calls + remaining) := by
  induction remaining generalizing calls with
  | zero => simp [analysisLoop]
  | succ remaining ih =>
    have hrec : analysisLoop parse hf remaining (calls + 1) = (none, calls + (remaining + 1)) := by
      rw [ih (calls + 1) (fun k h1 h2 => h k (by omega) (by omega))]
      congr 1
      omega
    unfold analysisLoop
    split
    · exact hrec
    · rename_i t ht
      split
      · exact hrec
      · rename_i m hm
        rw [h calls (by omega) (by omega) t ht m hm]
        exact hrec

theorem matchBraces_part (t m : Str) (h : matchBraces t = some m) :
    m <:+: t ∧ m.head? = some (Char.ofNat 123) := by
  unfold matchBraces at h
  split at h
  · cases h
  · rename_i open1 rest hdrop
    split at h
    · cases h
    · rename_i revBody hrev
      simp only [Option.some.injEq] at h
      subst h
      have hne : t.dropWhile (fun c => !(c = Char.ofNat 123)) ≠ [] := by simp [hdrop]
      have hhead := List.head_dropWhile_not (fun c => !(c = Char.ofNat 123)) t hne
      simp only [hdrop, List.head_cons, Bool.not_eq_true', Bool.not_eq_false',
        decide_eq_true_eq] at hhead
      subst hhead
      refine ⟨?_, rfl⟩
      have hsuf : (Char.ofNat 123 :: rest) <:+ t := by
        rw [← hdrop]
        exact List.dropWhile_suffix _
      have hpre : (rest.reverse.dropWhile (fun c => !(c = Char.ofNat 125))).reverse <+: rest := by
        have := List.dropWhile_suffix (fun c => !(c = Char.ofNat 125)) (l := rest.reverse)
        have h2 := List.reverse_prefix.2 this
        simpa using h2
      obtain ⟨tail, htail⟩ := hpre
      obtain ⟨front, hfront⟩ := hsuf
      generalize (rest.reverse.dropWhile (fun c => !(c = Char.ofNat 125))).reverse = body
        at htail ⊢
      refine ⟨front, tail, ?_⟩
      rw [← hfront, ← htail]
      simp

theorem jsonParse_brace_object (s : Str) (v : JsVal) (h : jsonParse s = some v)
    (hs : s.head? = some (Char.ofNat 123)) : ∃ kvs, v = .obj kvs := by
  cases s with
  | nil => cases hs
  | cons c cs =>
    simp only [List.head?_cons, Option.some.injEq] at hs
    subst hs
    unfold jsonParse at h
    have hdrop : (Char.ofNat 123 :: cs).dropWhile isJsonSpace = Char.ofNat 123 :: cs := rfl
    have hfuel : 2 * (Char.ofNat 123 :: cs).length + 2
        = (2 * (Char.ofNat 123 :: cs).length + 1) + 1 := rfl
    rw [hfuel] at h
    unfold parseValue at h
    rw [hdrop] at h
    have hc : Char.ofNat 123 = '\x7b' := rfl
    simp only [hc] at h
    split at h
    · rename_i heq
      split at heq
      · simp only [Option.some.injEq, Prod.mk.injEq] at heq
        split at h
        · simp only [Option.some.injEq] at h
          exact ⟨_, by rw [← h, ← heq.1]⟩
        · cases h
      · split at heq
        · simp only [Option.some.injEq, Prod.mk.injEq] at heq
          split at h
          · simp only [Option.some.injEq] at h
            exact ⟨_, by rw [← h, ← heq.1]⟩
          · cases h
        · cases heq
    · cases h

theorem parseValue_obj_brace (fuel : Nat) (s rest : Str) (kvs : List (Str × JsVal))
    (h : parseValue fuel s = some (.obj kvs, rest)) :
    ∃ r, s.dropWhile isJsonSpace = '\x7b' :: r := by
  cases fuel with
  | zero => simp [parseValue] at h
  | succ fuel =>
    unfold parseValue at h
    split at h
    · simp at h
    · simp at h
    · simp at h
    · split at h <;> simp at h
    · split at h
      · simp at h
      · split at h <;> simp at h
    · rename_i r hr
      exact ⟨r, hr⟩
    · split at h <;> simp at h
    · split at h <;> simp at h

/-- A text that `JSON.parse` turns into an object contains an opening brace. -/
theorem jsonParse_obj_brace (s : Str) (kvs : List (Str × JsVal))
    (h : jsonParse s = some (.obj kvs)) : Char.ofNat 123 ∈ s := by
  unfold jsonParse at h
  split at h
  · rename_i v rest hv
    split at h
    · simp only [Option.some.injEq] at h
      subst h
      obtain ⟨r, hr⟩ := parseValue_obj_brace _ s rest kvs hv
      have hsuf : ('\x7b' :: r) <:+ s := by
        rw [← hr]
        exact List.dropWhile_suffix _
      exact hsuf.subset (List.mem_cons_self _ _)
    · cases h
  · cases h

/-- No part of a text without an opening brace parses as an object. -/
theorem no_object_of_no_brace (t : Str) (h : Char.ofNat 123 ∉ t) :
    ∀ s, s <:+: t → ∀ kvs, jsonParse s ≠ some (.obj kvs) := by
  intro s hs kvs hparse
  exact h (hs.subset (jsonParse_obj_brace s kvs hparse))

/-- C12: when the request reaches the retry loop and on each of the 3 attempts no
part of the reply of the model parses as a JSON object, the handler of
`POST /analyze-resume` calls the model exactly 3 times, answers with status
500 `AI Error: failed to get valid analysis after retries. Please try again.`
and leaves the database, table `resume_reviews` included, unchanged. -/
theorem analysis_gives_up (parse : Str → Option JsVal) (db : Db) (userId : Nat)
    (file : Option Upload) (targetRole : JsVal) (now : Nat) (date : Str)
    (hf : Nat → ModelReply) (extractedText : Str)
    (hreach : ReachesModel file targetRole extractedText)
    (hobj : ∀ s v, parse s = some v → s.head? = some (Char.ofNat 123) → ∃ kvs, v = .obj kvs)
    (hbad : ∀ k, k < 3 → ∀ t, hf k = .text t →
      ∀ s, s <:+: t → ∀ kvs, parse s ≠ some (.obj kvs)) :
    analyzeResume parse db userId file targetRole now date hf =
      ⟨.status 500
        "AI Error: failed to get valid analysis after retries. Please try again.".toList,
        db, 3⟩ := by
  obtain ⟨f, _, _, heq⟩ :=
    analyzeResume_of_reaches parse db userId file targetRole now date hf extractedText hreach
  have hloop : analysisLoop parse hf 3 0 = (none, 3) := by
    have := analysisLoop_rejects parse hf 3 0 (by
      intro k _ hk t ht m hm
      obtain ⟨hpart, hhead⟩ := matchBraces_part t m hm
      cases hp : parse m with
      | none => rfl
      | some v =>
        obtain ⟨kvs, rfl⟩ := hobj m v hp hhead
        exact absurd hp (hbad k (by omega) t ht m hpart kvs))
    simpa using this
  rw [heq, hloop]

theorem sampleUpload_reaches :
    ReachesModel (some sampleUpload) (.str "Backend Engineer".toList) sampleResumeText :=
  ⟨sampleUpload, rfl, rfl, by decide, rfl, rfl, by decide, rfl⟩

theorem analysis_gives_up_witness :
    ReachesModel (some sampleUpload) (.str "Backend Engineer".toList) sampleResumeText ∧
    (∀ s v, jsonParse s = some v → s.head? = some (Char.ofNat 123) → ∃ kvs, v = .obj kvs) ∧
    (∀ k, k < 3 → ∀ t, proseModel k = .text t →
      ∀ s, s <:+: t → ∀ kvs, jsonParse s ≠ some (.obj kvs)) ∧
    analyzeResume jsonParse emptyDb 7 (some sampleUpload) (.str "Backend Engineer".toList)
      1700000000001 sampleDate proseModel =
      ⟨.status 500
        "AI Error: failed to get valid analysis after retries. Please try again.".toList,
        emptyDb, 3⟩ ∧
    analyzeResume jsonParse emptyDb 7 (some sampleUpload) (.str "Backend Engineer".toList)
      1700000000001 sampleDate truncatedModel =
      ⟨.status 500
        "AI Error: failed to get valid analysis after retries. Please try again.".toList,
        emptyDb, 3⟩ :=
  ⟨sampleUpload_reaches, jsonParse_brace_object,
    (fun _ _ t ht => by
      simp only [proseModel, ModelReply.text.injEq] at ht
      subst ht
      exact no_object_of_no_brace _ (by decide)),
    analysis_gives_up jsonParse emptyDb 7 (some sampleUpload) (.str "Backend Engineer".toList)
      1700000000001 sampleDate proseModel sampleResumeText sampleUpload_reaches
      jsonParse_brace_object
      (fun _ _ t ht => by
        simp only [proseModel, ModelReply.text.injEq] at ht
        subst ht
        exact no_object_of_no_brace _ (by decide)),
    rfl⟩

theorem insertReview_cases (db : Db) (row : ResumeReview) :
    insertReview db row = none ∨
    ((∀ r ∈ db.resume_reviews, r.id ≠ row.id) ∧
      insertReview db row = some { db with resume_reviews := db.resume_reviews ++ [row] }) := by
  unfold insertReview
  by_cases hany : (db.resume_reviews.any fun r => decide (r.id = row.id)) = true
  · left; simp [hany]
  · right
    simp only [hany]
    refine ⟨?_, rfl⟩
    intro r hr hid
    apply hany
    simp only [List.any_eq_true, decide_eq_true_eq]
    exact ⟨r, hr, hid⟩

/-- Every outcome of `storeReview`: either the database is untouched and the
response is a failure, or one row was appended to `resume_reviews`. -/
theorem storeReview_cases (parse : Str → Option JsVal) (db : Db) (userId : Nat)
    (targetRole : JsVal) (f : Upload) (resumeText rawContent : Str) (now : Nat) (date : Str)
    (calls : Nat) :
    ((storeReview parse db userId targetRole f resumeText rawContent now date calls).db = db ∧
      ∀ body, (storeReview parse db userId targetRole f resumeText rawContent now date
        calls).response ≠ .json body) ∨
    ∃ jsonMatch analysisResult keywordsMatched missingSkills formattingIssues atsScore,
      matchBraces rawContent = some jsonMatch ∧ parse jsonMatch = some analysisResult ∧
      getProp analysisResult "keywordsMatched".toList = some keywordsMatched ∧
      getProp analysisResult "missingSkills".toList = some missingSkills ∧
      getProp analysisResult "formattingIssues".toList = some formattingIssues ∧
      getProp analysisResult "atsScore".toList = some atsScore ∧
      (∀ r ∈ db.resume_reviews, r.id ≠ Nat.toDigits 10 now) ∧
      storeReview parse db userId targetRole f resumeText rawContent now date calls =
        ⟨.json ((toJson (.obj (setField "extractedText".toList (.str resumeText)
            (spread analysisResult)))).getD .null),
          { db with resume_reviews := db.resume_reviews ++
              [reviewRow userId targetRole f now date keywordsMatched missingSkills
                formattingIssues atsScore] }, calls⟩ := by
  unfold storeReview
  split
  · left; simp
  · rename_i m hm
    split
    · left; simp
    · rename_i v hv
      split
      · rename_i kw ms fi score hkw hms hfi hscore
        dsimp only
        rcases insertReview_cases db
          { id := Nat.toDigits 10 now, user_id := userId, role := targetRole,
            ats_score := score,
            data := (toJson (JsVal.obj [("keywordsMatched".toList, kw),
              ("missingSkills".toList, ms), ("formattingIssues".toList, fi)])).getD .null,
            date := date, file_path := f.filename } with hins | ⟨hfresh, hins⟩
        · left
          rw [hins]
          simp
        · right
          rw [hins]
          exact ⟨m, v, kw, ms, fi, score, hm, hv, hkw, hms, hfi, hscore, hfresh, rfl⟩
      · left; simp

/-- Every outcome of `POST /analyze-resume`: either the database is untouched and
the response is a failure, or a reply of the model was accepted and one row was
appended to `resume_reviews`. -/
theorem analyzeResume_cases (parse : Str → Option JsVal) (db : Db) (userId : Nat)
    (file : Option Upload) (targetRole : JsVal) (now : Nat) (date : Str)
    (hf : Nat → ModelReply) :
    ((analyzeResume parse db userId file targetRole now date hf).db = db ∧
      ∀ body, (analyzeResume parse db userId file targetRole now date hf).response
        ≠ .json body) ∨
    ∃ f extractedText k rawContent jsonMatch analysisResult keywordsMatched missingSkills
        formattingIssues atsScore calls,
      file = some f ∧ f.extracted = some extractedText ∧ k < 3 ∧ hf k = .text rawContent ∧
      matchBraces rawContent = some jsonMatch ∧ parse jsonMatch = some analysisResult ∧
      getProp analysisResult "keywordsMatched".toList = some keywordsMatched ∧
      getProp analysisResult "missingSkills".toList = some missingSkills ∧
      getProp analysisResult "formattingIssues".toList = some formattingIssues ∧
      getProp analysisResult "atsScore".toList = some atsScore ∧
      (∀ r ∈ db.resume_reviews, r.id ≠ Nat.toDigits 10 now) ∧
      analyzeResume parse db userId file targetRole now date hf =
        ⟨.json ((toJson (.obj (setField "extractedText".toList
            (.str ((normalizeText extractedText).take 4000)) (spread analysisResult)))).getD
            .null),
          { db with resume_reviews := db.resume_reviews ++
              [reviewRow userId targetRole f now date keywordsMatched missingSkills
                formattingIssues atsScore] }, calls⟩ := by
  unfold analyzeResume
  split
  · left; simp
  · rename_i f
    split
    · left; simp
    · split
      · left; simp
      · split
        · left; simp
        · split
          · left; split <;> simp
          · rename_i extractedText hex
            split
            · left; simp
            · split
              · left; simp
              · dsimp only
                split
                · left; simp
                · rename_i rawContent calls hloop
                  obtain ⟨k, _, hk, hfk, _⟩ :=
                    analysisLoop_accepts parse hf 3 0 rawContent calls hloop
                  rcases storeReview_cases parse db userId targetRole f
                    ((normalizeText extractedText).take 4000) rawContent now date calls with
                    h | ⟨m, v, kw, ms, fi, score, hm, hv, hkw, hms, hfi, hscore, hfresh, heq⟩
                  · left; exact h
                  · right
                    exact ⟨f, extractedText, k, rawContent, m, v, kw, ms, fi, score, calls, rfl,
                      hex, by omega, hfk, hm, hv, hkw, hms, hfi, hscore, hfresh, heq⟩

/-- C13, refuted as stated: the retry loop accepts a reply whose `atsScore` is
150, and the review is stored with that score. -/
theorem score_150_persisted :
    (analyzeResume jsonParse emptyDb 7 (some sampleUpload) (.str "Backend Engineer".toList)
      1700000000001 sampleDate overScoreModel).db.resume_reviews.map ResumeReview.ats_score
      = [.num (.finite 150)] ∧
    ¬ ((150 : ℚ) ≤ 100) :=
  ⟨rfl, by norm_num⟩

/-- C13, amended: a request to `POST /analyze-resume` either leaves the database
unchanged or appends one row to `resume_reviews` whose `ats_score` is the value
read from property `atsScore` of the value parsed from the accepted reply of
the model (`undefined` when an object has no such property), taken as it is: no
line checks that it is an integer or that it lies between 0 and 100. -/
theorem persisted_score (parse : Str → Option JsVal) (db : Db) (userId : Nat)
    (file : Option Upload) (targetRole : JsVal) (now : Nat) (date : Str)
    (hf : Nat → ModelReply) :
    (analyzeResume parse db userId file targetRole now date hf).db = db ∨
    ∃ k rawContent jsonMatch analysisResult atsScore row,
      k < 3 ∧ hf k = .text rawContent ∧ matchBraces rawContent = some jsonMatch ∧
      parse jsonMatch = some analysisResult ∧
      getProp analysisResult "atsScore".toList = some atsScore ∧
      (∀ kvs, analysisResult = .obj kvs →
        atsScore = (lookupField "atsScore".toList kvs).getD .undefined) ∧
      (analyzeResume parse db userId file targetRole now date hf).db.interviews
        = db.interviews ∧
      (analyzeResume parse db userId file targetRole now date hf).db.resume_reviews
        = db.resume_reviews ++ [row] ∧
      row.ats_score = atsScore := by
  rcases analyzeResume_cases parse db userId file targetRole now date hf with
    ⟨hdb, _⟩ | ⟨f, _, k, raw, m, v, kw, ms, fi, score, calls, _, _, hk, hfk, hm, hv, _, _, _,
      hscore, _, heq⟩
  · exact Or.inl hdb
  · right
    refine ⟨k, raw, m, v, score, _, hk, hfk, hm, hv, hscore, ?_, by rw [heq], by rw [heq], rfl⟩
    intro kvs hobj
    subst hobj
    simpa [getProp] using hscore.symm

/-! ## Exhausted retries of `POST /ideal-answers` -/

/-- When every attempt delivers an array of the wrong length, the retry loop of
`POST /ideal-answers` ends after `remaining` further calls with the empty
array. -/
theorem idealLoop_wrong_length (parse : Str → Option JsVal) (hf : Nat → ModelReply) (n : Nat)
    (remaining calls : Nat)
    (h : ∀ k, calls ≤ k → k < calls + remaining → ∃ content xs, hf k = .text content ∧
      parse (cleanReply content) = some (.arr xs) ∧ xs.length ≠ n) :
    idealLoop parse hf n remaining (.arr []) calls = (.ended (.arr []), calls + remaining) := by
  induction remaining generalizing calls with
  | zero => simp [idealLoop]
  | succ remaining ih =>
    obtain ⟨content, xs, hk, hp, hlen⟩ := h calls (by omega) (by omega)
    have hrec := ih (calls + 1) (fun k h1 h2 => h k (by omega) (by omega))
    unfold idealLoop
    simp only [lengthIsZero, List.isEmpty_nil, hk, hp, validAnswers, hlen, decide_False,
      Bool.false_eq_true, if_false, warnThrows]
    rw [hrec]
    congr 1
    omega

theorem fallbackAnswers_eq (db : Db) (interviewId : Str) (r : Interview)
    (h : getInterviewById db interviewId = some r) :
    fallbackAnswers db interviewId =
      r.questions.map (fun q => (⟨q, .str placeholderAnswer⟩ : IdealAnswer)) := by
  unfold fallbackAnswers
  simp only [h]
  induction r.questions with
  | nil => rfl
  | cons q qs ih =>
    simp only [fromJsonList, List.map_cons, toJson_fromJson, Option.getD_some, ih]

theorem anyToStringThrows_strings (l : List Str) :
    anyToStringThrows (fromJsonList (l.map Json.str)) = false := by
  induction l with
  | nil => simp [fromJsonList, anyToStringThrows]
  | cons x xs ih =>
    simp only [List.map_cons, fromJsonList, fromJson, anyToStringThrows, toStringThrows, ih,
      Bool.or_self]

/-- C11: for a session of the caller with at least one question, all of them
values whose conversion to a string does not throw (as every string is), when
the model delivers on each of the 3 attempts a JSON array whose length differs
from the number of questions, the handler of `POST /ideal-answers` calls the
model exactly 3 times and answers with a success that pairs every question, in
order, with the fixed placeholder. -/
theorem placeholders_after_retries (parse : Str → Option JsVal) (db : Db)
    (hf : Nat → ModelReply) (r : Interview) (hpk : UniqueIds db) (hr : r ∈ db.interviews)
    (hN : r.questions ≠ []) (hq : anyToStringThrows (fromJsonList r.questions) = false)
    (hbad : ∀ k, k < 3 → ∃ content xs, hf k = .text content ∧
      parse (cleanReply content) = some (.arr xs) ∧ xs.length ≠ r.questions.length) :
    idealAnswers parse db r.user_id r.id hf =
      ⟨.json (r.questions.map (fun q => (⟨q, .str placeholderAnswer⟩ : IdealAnswer))), db, 3⟩ := by
  have hown := getInterview_of_mem db r hpk hr
  have hby := getInterviewById_of_owned db r.id r.user_id r hpk hown
  have hlen : (fromJsonList r.questions).length ≠ 0 := by
    rw [fromJsonList_length]
    exact fun h0 => hN (List.length_eq_zero.1 h0)
  have hloop := idealLoop_wrong_length parse hf (fromJsonList r.questions).length 3 0
    (fun k _ hk => by
      obtain ⟨content, xs, h1, h2, h3⟩ := hbad k (by omega)
      exact ⟨content, xs, h1, h2, by rw [fromJsonList_length]; exact h3⟩)
  unfold idealAnswers
  simp only [hown, hlen, if_false, hq, Bool.false_eq_true, hloop]
  have hne : ([] : List JsVal).length ≠ (fromJsonList r.questions).length := by
    simpa using Ne.symm hlen
  simp only [Nat.zero_add, hne, ne_eq, not_false_eq_true, if_true,
    fallbackAnswers_eq db r.id r hby]

theorem placeholders_after_retries_witness :
    UniqueIds sampleDb ∧ sampleOpened ∈ sampleDb.interviews ∧ sampleOpened.questions ≠ [] ∧
    anyToStringThrows (fromJsonList sampleOpened.questions) = false ∧
    (∀ k, k < 3 → ∃ content xs, twoAnswersModel k = .text content ∧
      jsonParse (cleanReply content) = some (.arr xs) ∧
      xs.length ≠ sampleOpened.questions.length) ∧
    idealAnswers jsonParse sampleDb sampleOpened.user_id sampleOpened.id twoAnswersModel =
      ⟨.json (sampleOpened.questions.map
        (fun q => (⟨q, .str placeholderAnswer⟩ : IdealAnswer))), sampleDb, 3⟩ :=
  ⟨List.nodup_singleton _, List.mem_singleton.2 rfl, by simp [sampleOpened], rfl,
    (fun _ _ => ⟨_, [.str "REST is an architectural style.".toList,
      .str "A join combines rows.".toList], rfl, rfl, by decide⟩),
    placeholders_after_retries jsonParse sampleDb twoAnswersModel sampleOpened
      (List.nodup_singleton _) (List.mem_singleton.2 rfl) (by simp [sampleOpened]) rfl
      (fun _ _ => ⟨_, [.str "REST is an architectural style.".toList,
        .str "A join combines rows.".toList], rfl, rfl, by decide⟩)⟩

/-! ## Frame of `POST /answer` -/

/-- The `UPDATE` of `POST /answer` keeps the number and order of the rows and
every column it does not set; when the rows with the id all belong to the
caller, it keeps every row that is not a session of the caller with that id. -/
theorem updateInterview_frame (l : List Interview) (interviewId : Str) (userId : Nat)
    (answers scores feedbacks : List Json)
    (hown : ∀ r ∈ l, r.id = interviewId → r.user_id = userId) :
    List.Forall₂ (fun r r1 : Interview => r1.id = r.id ∧ r1.user_id = r.user_id ∧
        r1.role = r.role ∧ r1.questions = r.questions ∧ r1.date = r.date ∧ r1.type = r.type ∧
        (¬ (r.id = interviewId ∧ r.user_id = userId) → r1 = r))
      l (l.map (fun r => if r.id = interviewId then
        { r with answers := answers, scores := scores, feedbacks := feedbacks } else r)) := by
  induction l with
  | nil => exact List.Forall₂.nil
  | cons r rs ih =>
    refine List.Forall₂.cons ?_ (ih (fun r1 h1 => hown r1 (List.mem_cons_of_mem _ h1)))
    by_cases hid : r.id = interviewId
    · have hu := hown r (List.mem_cons_self _ _) hid
      simp only [hid, hu, if_true, and_self, not_true_eq_false, false_implies]
    · simp only [hid, if_false, false_and, not_false_eq_true, and_self, imp_self]

/-- C28: under the primary key of `interviews`, `POST /answer` leaves table
`resume_reviews` as it is, keeps the rows of `interviews` in number and order,
changes in no row the id, the owner, the role, the questions, the date or the
type, changes no column at all of a row other than the session with the given
id owned by the caller, and leaves the whole database as it is whenever its
response is not a success (404, 400 or a failed model call). -/
theorem answer_frame (db : Db) (userId : Nat) (body : AnswerRequest) (hf : Nat → ModelReply)
    (hpk : UniqueIds db) :
    (answer db userId body hf).db.resume_reviews = db.resume_reviews ∧
    List.Forall₂ (fun r r1 : Interview => r1.id = r.id ∧ r1.user_id = r.user_id ∧
        r1.role = r.role ∧ r1.questions = r.questions ∧ r1.date = r.date ∧ r1.type = r.type ∧
        (¬ (r.id = body.interviewId ∧ r.user_id = userId) → r1 = r))
      db.interviews (answer db userId body hf).db.interviews ∧
    ((answer db userId body hf).response.isJson = false →
      (answer db userId body hf).db = db) := by
  rcases answer_cases db userId body hf with ⟨hdb, _⟩ | ⟨old, a, t, hold, _, _, _, _, heq⟩
  · rw [hdb]
    refine ⟨rfl, ?_, fun _ => rfl⟩
    exact List.forall₂_same.2 (fun r _ => ⟨rfl, rfl, rfl, rfl, rfl, rfl, fun _ => rfl⟩)
  · rw [heq]
    refine ⟨rfl, ?_, fun h => by simp [Response.isJson] at h⟩
    obtain ⟨hmem, hid, hu⟩ := getInterview_mem hold
    simp only [answeredDb, updateInterview]
    refine updateInterview_frame db.interviews body.interviewId userId _ _ _ ?_
    intro r hr hrid
    have := List.inj_on_of_nodup_map hpk hr hmem (hrid.trans hid.symm)
    rw [this]
    exact hu

theorem answer_frame_witness :
    UniqueIds sampleDb ∧
    (answer sampleDb 7 sampleAnswerBody (fun _ => .text sampleFeedback)).db.resume_reviews =
      sampleDb.resume_reviews ∧
    List.Forall₂ (fun r r1 : Interview => r1.id = r.id ∧ r1.user_id = r.user_id ∧
        r1.role = r.role ∧ r1.questions = r.questions ∧ r1.date = r.date ∧ r1.type = r.type ∧
        (¬ (r.id = sampleAnswerBody.interviewId ∧ r.user_id = 7) → r1 = r))
      sampleDb.interviews
      (answer sampleDb 7 sampleAnswerBody (fun _ => .text sampleFeedback)).db.interviews ∧
    ((answer sampleDb 7 sampleAnswerBody (fun _ => .text sampleFeedback)).response.isJson = false →
      (answer sampleDb 7 sampleAnswerBody (fun _ => .text sampleFeedback)).db = sampleDb) :=
  ⟨List.nodup_singleton _,
    answer_frame sampleDb 7 sampleAnswerBody (fun _ => .text sampleFeedback)
      (List.nodup_singleton _)⟩

/-! ## Pairing of questions and answers -/

theorem structureAnswers_length (qs xs : List JsVal) :
    (structureAnswers qs xs).length = qs.length := by
  induction qs generalizing xs with
  | nil => simp [structureAnswers]
  | cons q qs ih => cases xs <;> simp [structureAnswers, ih]

/-- Entry `i` of the pairing of lines 800-803. -/
theorem structureAnswers_get (qs xs : List JsVal) (i : Nat) (q a : JsVal)
    (hq : qs[i]? = some q) (ha : xs[i]? = some a) :
    (structureAnswers qs xs)[i]? =
      some ⟨(toJson q).getD .null, (toJson (orDefault a (.str placeholderAnswer))).getD .null⟩ := by
  induction qs generalizing xs i with
  | nil => simp at hq
  | cons q0 qs ih =>
    cases xs with
    | nil => simp at ha
    | cons a0 xs =>
      cases i with
      | zero =>
        simp only [List.getElem?_cons_zero, Option.some.injEq] at hq ha
        simp [structureAnswers, hq, ha]
      | succ i =>
        simp only [List.getElem?_cons_succ] at hq ha
        simpa [structureAnswers] using ih xs i hq ha

theorem fromJsonList_get (l : List Json) (i : Nat) :
    (fromJsonList l)[i]? = l[i]?.map fromJson := by
  induction l generalizing i with
  | nil => simp [fromJsonList]
  | cons x xs ih => cases i <;> simp [fromJsonList, ih]

theorem warnThrows_obj (kvs : List (Str × JsVal)) :
    warnThrows (.obj kvs) =
      match lookupField "length".toList kvs with
      | some x => toStringThrows x
      | none => false :=
  rfl

theorem lengthIsZero_obj (kvs : List (Str × JsVal)) :
    lengthIsZero (.obj kvs) =
      match lookupField "length".toList kvs with
      | some (.num (.finite q)) => some (decide (q = 0))
      | _ => some false :=
  rfl

theorem not_zero_of_warnThrows (v : JsVal) (h : warnThrows v = true) :
    lengthIsZero v ≠ some true ∧ ∀ xs, v ≠ .arr xs := by
  cases v with
  | obj kvs =>
    refine ⟨?_, fun xs hx => by cases hx⟩
    rw [warnThrows_obj] at h
    rw [lengthIsZero_obj]
    generalize lookupField "length".toList kvs = o at h ⊢
    cases o with
    | none => simp at h
    | some x =>
      cases x with
      | num y => simp [toStringThrows] at h
      | _ => simp
  | undefined => exact ⟨by simp [lengthIsZero], fun xs hx => by cases hx⟩
  | null => exact ⟨by simp [lengthIsZero], fun xs hx => by cases hx⟩
  | _ => simp [warnThrows] at h

/-- The retry loop is left with an array of the right length only when an
attempt delivered it. -/
theorem idealLoop_valid_from_attempt (parse : Str → Option JsVal) (hf : Nat → ModelReply)
    (n : Nat) (hn : n ≠ 0) (remaining : Nat) (cur : JsVal) (calls : Nat) (xs : List JsVal)
    (total : Nat) (hcur : cur = .arr [] ∨ warnThrows cur = true)
    (h : idealLoop parse hf n remaining cur calls = (.ended (.arr xs), total))
    (hlen : xs.length = n) :
    ∃ k content, hf k = .text content ∧ parse (cleanReply content) = some (.arr xs) := by
  induction remaining generalizing cur calls with
  | zero =>
    simp only [idealLoop, Prod.mk.injEq, LoopExit.ended.injEq] at h
    rcases hcur with rfl | hw
    · simp only [JsVal.arr.injEq] at h
      rw [← h.1] at hlen
      exact absurd hlen.symm hn
    · exact absurd h.1 ((not_zero_of_warnThrows cur hw).2 xs)
  | succ remaining ih =>
    rcases hcur with rfl | hw
    · simp only [idealLoop, lengthIsZero, List.isEmpty_nil] at h
      cases hk : hf calls with
      | failure =>
        simp only [hk] at h
        exact ih _ (calls + 1) (Or.inl rfl) h
      | text content =>
        simp only [hk] at h
        cases hp : parse (cleanReply content) with
        | none =>
          simp only [hp] at h
          exact ih _ (calls + 1) (Or.inl rfl) h
        | some v =>
          simp only [hp] at h
          by_cases hv : validAnswers n v = true
          · simp only [hv, if_true, Prod.mk.injEq, LoopExit.ended.injEq] at h
            exact ⟨calls, content, hk, by rw [hp, h.1]⟩
          · simp only [hv, Bool.false_eq_true, if_false] at h
            by_cases hw : warnThrows v = true
            · simp only [hw, if_true] at h
              exact ih _ (calls + 1) (Or.inr hw) h
            · simp only [hw, Bool.false_eq_true, if_false] at h
              exact ih _ (calls + 1) (Or.inl rfl) h
    · have hz := not_zero_of_warnThrows cur hw
      simp only [idealLoop] at h
      cases hl : lengthIsZero cur with
      | none => simp [hl] at h
      | some b =>
        cases b with
        | true => exact absurd hl hz.1
        | false =>
          simp only [hl, Prod.mk.injEq, LoopExit.ended.injEq] at h
          exact absurd h.1 (hz.2 xs)

/-- C22: when the retry loop of `POST /ideal-answers` on a session of the caller
with string questions is left with an array `xs` that has one element per
question, the response is a success with one entry per question; entry `i`
carries question `i` and, when `xs[i]` is a non-empty string, that string, and
when `xs[i]` is the empty string, the fixed placeholder. -/
theorem valid_array_paired (parse : Str → Option JsVal) (db : Db) (userId : Nat)
    (interviewId : Str) (hf : Nat → ModelReply) (interview : Interview) (xs : List JsVal)
    (calls : Nat) (hown : getInterview db interviewId userId = some interview)
    (hstr : anyToStringThrows (fromJsonList interview.questions) = false)
    (hloop : idealLoop parse hf interview.questions.length 3 (.arr []) 0 =
      (.ended (.arr xs), calls))
    (hlen : xs.length = interview.questions.length) :
    ∃ pairs, (idealAnswers parse db userId interviewId hf).response = .json pairs ∧
      pairs.length = interview.questions.length ∧
      ∀ (i : Nat) (q : Json) (a : JsVal), interview.questions[i]? = some q → xs[i]? = some a →
        ∃ e : IdealAnswer, pairs[i]? = some e ∧ e.question = q ∧
          (∀ s, a = .str s → s ≠ [] → e.idealAnswer = .str s) ∧
          (a = .str [] → e.idealAnswer = .str placeholderAnswer) := by
  unfold idealAnswers
  simp only [hown]
  split
  · rename_i h0
    rw [fromJsonList_length] at h0
    refine ⟨[], rfl, by simp [h0], ?_⟩
    intro i q a hq
    rw [List.length_eq_zero.1 h0] at hq
    simp at hq
  · simp only [hstr, Bool.false_eq_true, if_false, fromJsonList_length, hloop, hlen, ne_eq,
      not_true_eq_false]
    refine ⟨_, rfl, by rw [structureAnswers_length, fromJsonList_length], ?_⟩
    intro i q a hq ha
    have hq1 : (fromJsonList interview.questions)[i]? = some (fromJson q) := by
      rw [fromJsonList_get, hq]; rfl
    refine ⟨_, structureAnswers_get _ _ i _ a hq1 ha, ?_, ?_, ?_⟩
    · simp [toJson_fromJson]
    · intro s hs hne
      subst hs
      have : (JsVal.str s).truthy = true := by
        cases s with
        | nil => exact absurd rfl hne
        | cons c cs => rfl
      simp [orDefault, this, toJson_str]
    · intro hs
      subst hs
      simp [orDefault, JsVal.truthy, toJson_str]

theorem valid_array_paired_witness :
    getInterview sampleDb sampleOpened.id 7 = some sampleOpened ∧
    anyToStringThrows (fromJsonList sampleOpened.questions) = false ∧
    idealLoop jsonParse threeAnswersModel sampleOpened.questions.length 3 (.arr []) 0 =
      (.ended (.arr [.str "REST is an architectural style.".toList, .str [],
        .str "Two writers, one result.".toList]), 1) ∧
    ∃ pairs, (idealAnswers jsonParse sampleDb 7 sampleOpened.id threeAnswersModel).response =
        .json pairs ∧
      pairs.length = sampleOpened.questions.length ∧
      ∀ (i : Nat) (q : Json) (a : JsVal), sampleOpened.questions[i]? = some q →
        [JsVal.str "REST is an architectural style.".toList, .str [],
          .str "Two writers, one result.".toList][i]? = some a →
        ∃ e : IdealAnswer, pairs[i]? = some e ∧ e.question = q ∧
          (∀ s, a = .str s → s ≠ [] → e.idealAnswer = .str s) ∧
          (a = .str [] → e.idealAnswer = .str placeholderAnswer) :=
  ⟨rfl, rfl, rfl,
    valid_array_paired jsonParse sampleDb 7 sampleOpened.id threeAnswersModel sampleOpened
      [.str "REST is an architectural style.".toList, .str [],
        .str "Two writers, one result.".toList] 1 rfl rfl rfl rfl⟩

/-! ## Success of `POST /analyze-resume` -/

theorem lookupField_setField_self (k : Str) (v : JsVal) (kvs : List (Str × JsVal)) :
    lookupField k (setField k v kvs) = some v := by
  induction kvs with
  | nil => simp [setField, lookupField]
  | cons kv kvs ih =>
    obtain ⟨k1, v1⟩ := kv
    by_cases h1 : k1 = k
    · simp [setField, lookupField, h1]
    · simp [setField, lookupField, h1, ih]

/-- C23: whenever `POST /analyze-resume` answers with a success, the field
`extractedText` of the response is the cleaned text cut to 4000 characters,
whatever the parsed value holds (a field `extractedText` of the model is
overwritten); when the parsed value is an object, every other field of the
response is present exactly when the object has it and holds what the object
holds; table `interviews` is untouched and exactly one row is appended to
`resume_reviews`, carrying the caller's id, the target role, the parsed
`atsScore`, the object of the three parsed lists and the name of the stored
file. -/
theorem analysis_success (parse : Str → Option JsVal) (db : Db) (userId : Nat)
    (file : Option Upload) (targetRole : JsVal) (now : Nat) (date : Str)
    (hf : Nat → ModelReply) (body : Json)
    (h : (analyzeResume parse db userId file targetRole now date hf).response = .json body) :
    ∃ f extractedText k rawContent jsonMatch analysisResult keywordsMatched missingSkills
        formattingIssues atsScore row,
      file = some f ∧ f.extracted = some extractedText ∧ k < 3 ∧ hf k = .text rawContent ∧
      matchBraces rawContent = some jsonMatch ∧ parse jsonMatch = some analysisResult ∧
      body.getField "extractedText".toList =
        some (.str ((normalizeText extractedText).take 4000)) ∧
      (∀ kvs, analysisResult = .obj kvs → ∀ key, key ≠ "extractedText".toList →
        (∀ v j, lookupField key kvs = some v → toJson v = some j →
          body.getField key = some j) ∧
        (lookupField key kvs = none → body.getField key = none)) ∧
      (analyzeResume parse db userId file targetRole now date hf).db.interviews
        = db.interviews ∧
      (analyzeResume parse db userId file targetRole now date hf).db.resume_reviews
        = db.resume_reviews ++ [row] ∧
      getProp analysisResult "keywordsMatched".toList = some keywordsMatched ∧
      getProp analysisResult "missingSkills".toList = some missingSkills ∧
      getProp analysisResult "formattingIssues".toList = some formattingIssues ∧
      getProp analysisResult "atsScore".toList = some atsScore ∧
      row.user_id = userId ∧ row.role = targetRole ∧ row.ats_score = atsScore ∧
      row.data = (toJson (JsVal.obj [("keywordsMatched".toList, keywordsMatched),
        ("missingSkills".toList, missingSkills),
        ("formattingIssues".toList, formattingIssues)])).getD .null ∧
      row.file_path = f.filename := by
  rcases analyzeResume_cases parse db userId file targetRole now date hf with
    ⟨_, hno⟩ | ⟨f, text, k, raw, m, v, kw, ms, fi, score, calls, hfile, hex, hk, hfk, hm, hv,
      hkw, hms, hfi, hscore, _, heq⟩
  · exact absurd h (hno body)
  · rw [heq] at h ⊢
    simp only [Response.json.injEq, toJson, Option.getD_some] at h
    subst h
    refine ⟨f, text, k, raw, m, v, kw, ms, fi, score, _, hfile, hex, hk, hfk, hm, hv, ?_, ?_,
      rfl, rfl, hkw, hms, hfi, hscore, rfl, rfl, rfl, rfl, rfl⟩
    · exact lookupJson_toJsonFields_some _ _ _ _ (lookupField_setField_self _ _ _)
        (toJson_str _)
    · intro kvs hobj key hkey
      subst hobj
      simp only [spread]
      constructor
      · intro v1 j hv1 hj
        exact lookupJson_toJsonFields_some key _ v1 j
          (by rw [lookupField_setField_ne key _ _ _ hkey]; exact hv1) hj
      · intro hnone
        exact lookupJson_toJsonFields_none key _
          (by rw [lookupField_setField_ne key _ _ _ hkey]; exact hnone)

theorem analysis_success_witness :
    (analyzeResume jsonParse emptyDb 7 (some sampleUpload) (.str "Backend Engineer".toList)
      1700000000001 sampleDate echoModel).response = .json echoAssessment ∧
    echoAssessment.getField "extractedText".toList = some (.str sampleCleanText) ∧
    ∃ f extractedText k rawContent jsonMatch analysisResult keywordsMatched missingSkills
        formattingIssues atsScore row,
      some sampleUpload = some f ∧ f.extracted = some extractedText ∧ k < 3 ∧
      echoModel k = .text rawContent ∧
      matchBraces rawContent = some jsonMatch ∧ jsonParse jsonMatch = some analysisResult ∧
      echoAssessment.getField "extractedText".toList =
        some (.str ((normalizeText extractedText).take 4000)) ∧
      (∀ kvs, analysisResult = .obj kvs → ∀ key, key ≠ "extractedText".toList →
        (∀ v j, lookupField key kvs = some v → toJson v = some j →
          echoAssessment.getField key = some j) ∧
        (lookupField key kvs = none → echoAssessment.getField key = none)) ∧
      (analyzeResume jsonParse emptyDb 7 (some sampleUpload) (.str "Backend Engineer".toList)
        1700000000001 sampleDate echoModel).db.interviews = emptyDb.interviews ∧
      (analyzeResume jsonParse emptyDb 7 (some sampleUpload) (.str "Backend Engineer".toList)
        1700000000001 sampleDate echoModel).db.resume_reviews
        = emptyDb.resume_reviews ++ [row] ∧
      getProp analysisResult "keywordsMatched".toList = some keywordsMatched ∧
      getProp analysisResult "missingSkills".toList = some missingSkills ∧
      getProp analysisResult "formattingIssues".toList = some formattingIssues ∧
      getProp analysisResult "atsScore".toList = some atsScore ∧
      row.user_id = 7 ∧ row.role = .str "Backend Engineer".toList ∧ row.ats_score = atsScore ∧
      row.data = (toJson (JsVal.obj [("keywordsMatched".toList, keywordsMatched),
        ("missingSkills".toList, missingSkills),
        ("formattingIssues".toList, formattingIssues)])).getD .null ∧
      row.file_path = f.filename :=
  ⟨rfl, rfl, analysis_success jsonParse emptyDb 7 (some sampleUpload)
    (.str "Backend Engineer".toList) 1700000000001 sampleDate echoModel echoAssessment rfl⟩

/-! ## The part of the reply between braces -/

theorem dropWhile_append_of_all (p : Char → Bool) (xs ys : Str)
    (h : ∀ c ∈ xs, p c = true) : (xs ++ ys).dropWhile p = ys.dropWhile p := by
  induction xs with
  | nil => rfl
  | cons x xs ih =>
    have hx := h x (List.mem_cons_self _ _)
    simp only [List.cons_append, List.dropWhile_cons, hx, if_true]
    exact ih (fun c hc => h c (List.mem_cons_of_mem _ hc))

/-- The pattern of line 944 finds an object that runs from the first opening
brace of the reply to its last closing brace. -/
theorem matchBraces_of_object (before objectText after : Str)
    (hbefore : Char.ofNat 123 ∉ before) (hafter : Char.ofNat 125 ∉ after)
    (hhead : objectText.head? = some (Char.ofNat 123))
    (hlast : objectText.getLast? = some (Char.ofNat 125)) :
    matchBraces (before ++ objectText ++ after) = some objectText := by
  cases objectText with
  | nil => cases hhead
  | cons c rest =>
    simp only [List.head?_cons, Option.some.injEq] at hhead
    subst hhead
    have hrest : rest.getLast? = some (Char.ofNat 125) := by
      cases rest with
      | nil => simp at hlast
      | cons d ds => simpa [List.getLast?_cons_cons] using hlast
    obtain ⟨body, rfl⟩ : ∃ body, rest = body ++ [Char.ofNat 125] := by
      rcases List.eq_nil_or_concat rest with h | ⟨body, b, h⟩
      · subst h; simp at hrest
      · subst h
        simp only [List.concat_eq_append, List.getLast?_append, List.getLast?_singleton,
          Option.or, Option.some.injEq] at hrest
        subst hrest
        exact ⟨body, by simp⟩
    unfold matchBraces
    have h1 : (before ++ (Char.ofNat 123 :: (body ++ [Char.ofNat 125])) ++ after).dropWhile
        (fun c => !(c = Char.ofNat 123)) =
        Char.ofNat 123 :: (body ++ [Char.ofNat 125] ++ after) := by
      rw [List.append_assoc, dropWhile_append_of_all _ _ _ (fun c hc => by
        have : c ≠ Char.ofNat 123 := fun h => hbefore (h ▸ hc)
        simp [this])]
      simp
    have h2 : (body ++ [Char.ofNat 125] ++ after).reverse.dropWhile
        (fun c => !(c = Char.ofNat 125)) = Char.ofNat 125 :: body.reverse := by
      rw [List.reverse_append, dropWhile_append_of_all _ _ _ (fun c hc => by
        have : c ≠ Char.ofNat 125 := fun h => hafter (h ▸ List.mem_reverse.1 hc)
        simp [this])]
      simp
    simp only [h1, h2]
    simp

theorem insertReview_fresh (db : Db) (row : ResumeReview)
    (h : ∀ r ∈ db.resume_reviews, r.id ≠ row.id) :
    insertReview db row = some { db with resume_reviews := db.resume_reviews ++ [row] } := by
  unfold insertReview
  have hany : (db.resume_reviews.any fun r => decide (r.id = row.id)) = false := by
    rw [Bool.eq_false_iff]
    intro hany
    simp only [List.any_eq_true, decide_eq_true_eq] at hany
    obtain ⟨r, hr, hid⟩ := hany
    exact h r hr hid
  simp [hany]

/-- C26, refuted as stated: a reply that begins with a well-formed object and goes
on with a remark that contains braces is rejected on every attempt, because the
pattern runs to the last closing brace of the reply. -/
theorem trailing_braces_rejected :
    jsonParse assessmentText = some (.obj [("atsScore".toList, .num (.finite 72)),
      ("keywordsMatched".toList, .arr [.str "Go".toList]),
      ("missingSkills".toList, .arr []),
      ("formattingIssues".toList, .arr [])]) ∧
    remarkModel 0 = .text (assessmentText ++ " (scale \x7b0..100\x7d)".toList) ∧
    matchBraces (assessmentText ++ " (scale \x7b0..100\x7d)".toList) =
      some (assessmentText ++ " (scale \x7b0..100\x7d".toList) ∧
    jsonParse (assessmentText ++ " (scale \x7b0..100\x7d".toList) = none ∧
    analyzeResume jsonParse emptyDb 7 (some sampleUpload) (.str "Backend Engineer".toList)
      1700000000001 sampleDate remarkModel =
      ⟨.status 500
        "AI Error: failed to get valid analysis after retries. Please try again.".toList,
        emptyDb, 3⟩ :=
  ⟨rfl, rfl, rfl, rfl, rfl⟩

/-- C26, amended: when a reply of the model consists of a text without opening
brace, a text `objectText` that begins with an opening brace, ends with a
closing brace and parses as an object, and a text without closing brace, the
pattern of `POST /analyze-resume` yields `objectText`, the retry loop accepts
the reply on the attempt that receives it, and a request that receives it on
its first attempt (with an unused review id) answers with the fields of that
object and stores them. -/
theorem object_accepted (parse : Str → Option JsVal) (db : Db) (userId : Nat)
    (file : Option Upload) (targetRole : JsVal) (now : Nat) (date : Str)
    (hf : Nat → ModelReply) (extractedText before objectText after : Str)
    (kvs : List (Str × JsVal))
    (hreach : ReachesModel file targetRole extractedText)
    (hfresh : ∀ r ∈ db.resume_reviews, r.id ≠ Nat.toDigits 10 now)
    (hreply : hf 0 = .text (before ++ objectText ++ after))
    (hbefore : Char.ofNat 123 ∉ before) (hafter : Char.ofNat 125 ∉ after)
    (hhead : objectText.head? = some (Char.ofNat 123))
    (hlast : objectText.getLast? = some (Char.ofNat 125))
    (hparse : parse objectText = some (.obj kvs)) :
    matchBraces (before ++ objectText ++ after) = some objectText ∧
    (∀ (model : Nat → ModelReply) (remaining calls : Nat),
      model calls = .text (before ++ objectText ++ after) →
      analysisLoop parse model (remaining + 1) calls =
        (some (before ++ objectText ++ after), calls + 1)) ∧
    ∃ f, file = some f ∧
      analyzeResume parse db userId file targetRole now date hf =
        ⟨.json ((toJson (.obj (setField "extractedText".toList
            (.str ((normalizeText extractedText).take 4000)) kvs))).getD .null),
          { db with resume_reviews := db.resume_reviews ++
              [reviewRow userId targetRole f now date
                ((lookupField "keywordsMatched".toList kvs).getD .undefined)
                ((lookupField "missingSkills".toList kvs).getD .undefined)
                ((lookupField "formattingIssues".toList kvs).getD .undefined)
                ((lookupField "atsScore".toList kvs).getD .undefined)] }, 1⟩ := by
  have hm := matchBraces_of_object before objectText after hbefore hafter hhead hlast
  have hloop : ∀ (model : Nat → ModelReply) (remaining calls : Nat),
      model calls = .text (before ++ objectText ++ after) →
      analysisLoop parse model (remaining + 1) calls =
        (some (before ++ objectText ++ after), calls + 1) := by
    intro model remaining calls hmodel
    simp only [analysisLoop, hmodel, hm, hparse]
  refine ⟨hm, hloop, ?_⟩
  obtain ⟨f, hfile, _, heq⟩ :=
    analyzeResume_of_reaches parse db userId file targetRole now date hf extractedText hreach
  refine ⟨f, hfile, ?_⟩
  rw [heq, hloop hf 2 0 hreply]
  simp only [storeReview, hm, hparse, getProp, Nat.zero_add]
  rw [insertReview_fresh db _ hfresh]
  rfl

theorem object_accepted_witness :
    ReachesModel (some sampleUpload) (.str "Backend Engineer".toList) sampleResumeText ∧
    (∀ r ∈ emptyDb.resume_reviews, r.id ≠ Nat.toDigits 10 1700000000001) ∧
    plainRemarkModel 0 = .text ("Here you go: ".toList ++ assessmentText ++ " Good luck!".toList) ∧
    Char.ofNat 123 ∉ "Here you go: ".toList ∧ Char.ofNat 125 ∉ " Good luck!".toList ∧
    assessmentText.head? = some (Char.ofNat 123) ∧
    assessmentText.getLast? = some (Char.ofNat 125) ∧
    jsonParse assessmentText = some (.obj [("atsScore".toList, .num (.finite 72)),
      ("keywordsMatched".toList, .arr [.str "Go".toList]),
      ("missingSkills".toList, .arr []),
      ("formattingIssues".toList, .arr [])]) ∧
    (analyzeResume jsonParse emptyDb 7 (some sampleUpload) (.str "Backend Engineer".toList)
      1700000000001 sampleDate plainRemarkModel).response =
      .json (.obj [("atsScore".toList, .num 72),
        ("keywordsMatched".toList, .arr [.str "Go".toList]), ("missingSkills".toList, .arr []),
        ("formattingIssues".toList, .arr []), ("extractedText".toList, .str sampleCleanText)]) ∧
    matchBraces ("Here you go: ".toList ++ assessmentText ++ " Good luck!".toList) =
      some assessmentText ∧
    (∀ (model : Nat → ModelReply) (remaining calls : Nat),
      model calls = .text ("Here you go: ".toList ++ assessmentText ++ " Good luck!".toList) →
      analysisLoop jsonParse model (remaining + 1) calls =
        (some ("Here you go: ".toList ++ assessmentText ++ " Good luck!".toList), calls + 1)) ∧
    ∃ f, some sampleUpload = some f ∧
      analyzeResume jsonParse emptyDb 7 (some sampleUpload) (.str "Backend Engineer".toList)
        1700000000001 sampleDate plainRemarkModel =
        ⟨.json ((toJson (.obj (setField "extractedText".toList
            (.str ((normalizeText sampleResumeText).take 4000))
            [("atsScore".toList, .num (.finite 72)),
              ("keywordsMatched".toList, .arr [.str "Go".toList]),
              ("missingSkills".toList, .arr []),
              ("formattingIssues".toList, .arr [])]))).getD .null),
          { emptyDb with resume_reviews := emptyDb.resume_reviews ++
              [reviewRow 7 (.str "Backend Engineer".toList) f 1700000000001 sampleDate
                (.arr [.str "Go".toList]) (.arr []) (.arr []) (.num (.finite 72))] }, 1⟩ :=
  ⟨sampleUpload_reaches, (fun _ h => by simp [emptyDb] at h), rfl, by decide, by decide, rfl,
    rfl, rfl, rfl,
    object_accepted jsonParse emptyDb 7 (some sampleUpload) (.str "Backend Engineer".toList)
      1700000000001 sampleDate plainRemarkModel sampleResumeText "Here you go: ".toList
      assessmentText " Good luck!".toList _ sampleUpload_reaches
      (fun _ h => by simp [emptyDb] at h) rfl (by decide) (by decide) rfl rfl rfl⟩

/-! ## Normal form of the cleaned text -/

theorem head_dropWhile_space (s : Str) (c : Char)
    (h : (s.dropWhile isWhiteSpace).head? = some c) : isWhiteSpace c = false := by
  have hne : s.dropWhile isWhiteSpace ≠ [] := by
    intro hnil
    rw [hnil] at h
    cases h
  have hhead := List.head_dropWhile_not isWhiteSpace s hne
  rw [List.head?_eq_head hne] at h
  simp only [Option.some.injEq] at h
  rw [h] at hhead
  simpa using hhead

/-- The trimmed text neither begins nor ends with white space. -/
theorem trim_ends (s : Str) :
    (∀ c, (trim s).head? = some c → isWhiteSpace c = false) ∧
    (∀ c, (trim s).getLast? = some c → isWhiteSpace c = false) := by
  constructor
  · intro c hc
    unfold trim at hc
    cases ht : s.dropWhile isWhiteSpace with
    | nil => simp [ht] at hc
    | cons d ds =>
      have hd : isWhiteSpace d = false := head_dropWhile_space s d (by rw [ht]; rfl)
      rw [ht] at hc
      have hsuf := List.dropWhile_suffix isWhiteSpace (l := (d :: ds).reverse)
      have hne : (d :: ds).reverse.dropWhile isWhiteSpace ≠ [] := by
        intro hnil
        have := List.dropWhile_eq_nil_iff.1 hnil d (by simp)
        simp [hd] at this
      have hlast : ((d :: ds).reverse.dropWhile isWhiteSpace).getLast? = some d := by
        obtain ⟨front, hfront⟩ := hsuf
        have h1 : ((d :: ds).reverse).getLast? = some d := by simp
        rw [← hfront, List.getLast?_append_of_ne_nil _ hne] at h1
        exact h1
      rw [List.head?_reverse, hlast] at hc
      simp only [Option.some.injEq] at hc
      rw [← hc]
      exact hd
  · intro c hc
    unfold trim at hc
    rw [List.getLast?_reverse] at hc
    exact head_dropWhile_space _ c hc

theorem trim_part (s : Str) : trim s <:+: s := by
  unfold trim
  have h1 : s.dropWhile isWhiteSpace <:+ s := List.dropWhile_suffix _
  have h2 : ((s.dropWhile isWhiteSpace).reverse.dropWhile isWhiteSpace).reverse <+:
      s.dropWhile isWhiteSpace := by
    have := List.dropWhile_suffix isWhiteSpace (l := (s.dropWhile isWhiteSpace).reverse)
    simpa using List.reverse_prefix.2 this
  exact h2.isInfix.trans h1.isInfix

theorem singleSpaced_part (s t : Str) (h : SingleSpaced s) (ht : t <:+: s) : SingleSpaced t :=
  ⟨fun c hc => h.1 c (ht.subset hc), List.Chain'.infix h.2 ht⟩

/-- Replacing every run of white space by one space leaves single spaces only;
after a white-space character the output does not begin with white space. -/
theorem replaceRuns_singleSpaced (inRun : Bool) (s : Str) :
    SingleSpaced (replaceRuns isWhiteSpace [' '] inRun s) ∧
    (inRun = true → ∀ c, (replaceRuns isWhiteSpace [' '] inRun s).head? = some c →
      isWhiteSpace c = false) := by
  induction s generalizing inRun with
  | nil => exact ⟨⟨fun c hc => by simp [replaceRuns] at hc, by simp [replaceRuns]⟩,
      fun _ c hc => by simp [replaceRuns] at hc⟩
  | cons c cs ih =>
    unfold replaceRuns
    by_cases hw : isWhiteSpace c = true
    · simp only [hw, if_true]
      cases inRun with
      | true =>
        simp only [if_true]
        exact ⟨(ih true).1, fun _ => (ih true).2 rfl⟩
      | false =>
        simp only [Bool.false_eq_true, if_false, List.singleton_append]
        refine ⟨⟨?_, ?_⟩, fun h => by cases h⟩
        · intro d hd hdw
          rcases List.mem_cons.1 hd with rfl | hd
          · rfl
          · exact (ih true).1.1 d hd hdw
        · rw [List.chain'_cons']
          refine ⟨?_, (ih true).1.2⟩
          intro d hd
          have := (ih true).2 rfl d (by simpa using hd)
          simp [this]
    · simp only [hw, Bool.false_eq_true, if_false]
      have hwf : isWhiteSpace c = false := by simpa using hw
      refine ⟨⟨?_, ?_⟩, fun _ d hd => ?_⟩
      · intro d hd hdw
        rcases List.mem_cons.1 hd with rfl | hd
        · rw [hwf] at hdw; cases hdw
        · exact (ih false).1.1 d hd hdw
      · rw [List.chain'_cons']
        exact ⟨fun d _ => by simp [hwf], (ih false).1.2⟩
      · simp only [List.head?_cons, Option.some.injEq] at hd
        rw [← hd]
        exact hwf

/-- On a text with single spaces only, replacing the runs of a class of
white-space characters by one space changes nothing. -/
theorem replaceRuns_of_singleSpaced (isC : Char → Bool)
    (hC : ∀ c, isC c = true → isWhiteSpace c = true) (s : Str) (h : SingleSpaced s) :
    replaceRuns isC [' '] false s = s ∧
    ((∀ c, s.head? = some c → isWhiteSpace c = false) → replaceRuns isC [' '] true s = s) := by
  induction s with
  | nil => simp [replaceRuns]
  | cons c cs ih =>
    have htail : SingleSpaced cs := singleSpaced_part _ _ h ⟨[c], [], by simp⟩
    have hchain := h.2
    rw [List.chain'_cons'] at hchain
    by_cases hc : isC c = true
    · have hw := hC c hc
      have hsp : c = ' ' := h.1 c (List.mem_cons_self _ _) hw
      have hnext : ∀ d, cs.head? = some d → isWhiteSpace d = false := by
        intro d hd
        have := hchain.1 d (by simpa using hd)
        simpa [hw] using this
      constructor
      · unfold replaceRuns
        simp only [hc, if_true, Bool.false_eq_true, if_false, List.singleton_append]
        rw [(ih htail).2 hnext, hsp]
      · intro hhead
        have := hhead c rfl
        rw [hw] at this
        cases this
    · have hcf : isC c = false := by simpa using hc
      have hboth : ∀ inRun, replaceRuns isC [' '] inRun (c :: cs) = c :: cs := by
        intro inRun
        unfold replaceRuns
        simp only [hcf, Bool.false_eq_true, if_false]
        rw [(ih htail).1]
      exact ⟨hboth false, fun _ => hboth true⟩

theorem capNewlines_of_no_newline (s : Str) (h : '\n' ∉ s) : capNewlines 0 s = s := by
  induction s with
  | nil => rfl
  | cons c cs ih =>
    have hc : ¬ c = '\n' := fun hc => h (by simp [hc])
    unfold capNewlines
    simp only [hc, if_false]
    rw [ih (fun hmem => h (List.mem_cons_of_mem _ hmem))]
    rfl

theorem singleSpaced_no_control (s : Str) (h : SingleSpaced s) : '\t' ∉ s ∧ '\n' ∉ s :=
  ⟨fun hm => absurd (h.1 _ hm (by decide)) (by decide),
    fun hm => absurd (h.1 _ hm (by decide)) (by decide)⟩

theorem normalizeText_singleSpaced (s : Str) : SingleSpaced (normalizeText s) := by
  unfold normalizeText
  have h1 := (replaceRuns_singleSpaced false s).1
  have h2 := capNewlines_of_no_newline _ (singleSpaced_no_control _ h1).2
  rw [h2]
  have h3 := (replaceRuns_of_singleSpaced isInlineSpace (fun c hc => by
    simp only [isInlineSpace, Bool.and_eq_true] at hc
    exact hc.1.1) _ h1).1
  rw [h3]
  exact singleSpaced_part _ _ h1 (trim_part _)

/-- The cleaning leaves a text with single spaces only, trimmed, unchanged. -/
theorem normalizeText_of_normal (s : Str) (h : SingleSpaced s)
    (hhead : ∀ c, s.head? = some c → isWhiteSpace c = false)
    (hlast : ∀ c, s.getLast? = some c → isWhiteSpace c = false) : normalizeText s = s := by
  unfold normalizeText
  rw [(replaceRuns_of_singleSpaced isWhiteSpace (fun _ hc => hc) s h).1,
    capNewlines_of_no_newline s (singleSpaced_no_control s h).2,
    (replaceRuns_of_singleSpaced isInlineSpace (fun c hc => by
      simp only [isInlineSpace, Bool.and_eq_true] at hc
      exact hc.1.1) s h).1]
  exact trim_eq_self s hhead hlast

/-- C29: for every text, the cleaned text (before the cut to 4000 characters)
contains neither a tab nor a line feed, has no two adjacent white-space
characters, neither begins nor ends with white space, and is left unchanged by
a second cleaning. -/
theorem normalizeText_normal_form (resumeText : Str) :
    '\t' ∉ normalizeText resumeText ∧ '\n' ∉ normalizeText resumeText ∧
    (∀ before a b after, normalizeText resumeText = before ++ a :: b :: after →
      ¬ (isWhiteSpace a = true ∧ isWhiteSpace b = true)) ∧
    (∀ c, (normalizeText resumeText).head? = some c → isWhiteSpace c = false) ∧
    (∀ c, (normalizeText resumeText).getLast? = some c → isWhiteSpace c = false) ∧
    normalizeText (normalizeText resumeText) = normalizeText resumeText := by
  have hs := normalizeText_singleSpaced resumeText
  have hends : (∀ c, (normalizeText resumeText).head? = some c → isWhiteSpace c = false) ∧
      (∀ c, (normalizeText resumeText).getLast? = some c → isWhiteSpace c = false) := by
    unfold normalizeText
    exact trim_ends _
  refine ⟨(singleSpaced_no_control _ hs).1, (singleSpaced_no_control _ hs).2, ?_, hends.1,
    hends.2, normalizeText_of_normal _ hs hends.1 hends.2⟩
  intro before a b after heq
  have hpair : List.Chain' (fun a b => ¬ (isWhiteSpace a = true ∧ isWhiteSpace b = true))
      [a, b] := List.Chain'.infix hs.2 ⟨before, after, by rw [heq]; simp⟩
  simpa using hpair

/-! ## Markdown fences around the reply -/

theorem removeAll_keep (pats : List Str) (c : Char) (cs : Str)
    (h : pats.find? (fun p => p.isPrefixOf (c :: cs)) = none) :
    removeAll pats 0 (c :: cs) = c :: removeAll pats 0 cs := by
  rw [removeAll, h]

theorem find_fence_none (pats : List Str) (hpats : pats = [fenceJson, fence] ∨ pats = [fence, fence])
    (s : Str) (h : ¬ fence <+: s) : pats.find? (fun p => p.isPrefixOf s) = none := by
  have h1 : fence.isPrefixOf s = false := by
    rw [Bool.eq_false_iff]
    intro hp
    exact h ( List.isPrefixOf_iff_prefix.1 hp)
  have h2 : fenceJson.isPrefixOf s = false := by
    rw [Bool.eq_false_iff]
    intro hp
    have := List.isPrefixOf_iff_prefix.1 hp
    exact h ((List.prefix_append fence "json".toList).trans this)
  rcases hpats with rfl | rfl <;> simp [List.find?, h1, h2]

/-- The replacement removes the closing fence after a text without fence and
returns the text. -/
theorem removeAll_closing (pats : List Str)
    (hpats : pats = [fenceJson, fence] ∨ pats = [fence, fence]) (t : Str)
    (ht : ¬ fence <:+: t) : removeAll pats 0 (t ++ fence) = t := by
  induction t with
  | nil => rcases hpats with rfl | rfl <;> rfl
  | cons c cs ih =>
    have hcs : ¬ fence <:+: cs := fun h => ht (h.trans (List.suffix_cons c cs).isInfix)
    by_cases hstraddle : fence <+: c :: (cs ++ fence)
    · have hc : c = Char.ofNat 96 := by
        simp only [fence, List.cons_prefix_cons] at hstraddle
        exact hstraddle.1.symm
      subst hc
      cases cs with
      | nil => rcases hpats with rfl | rfl <;> rfl
      | cons d ds =>
        have hd : d = Char.ofNat 96 := by
          simp only [fence, List.cons_append, List.cons_prefix_cons] at hstraddle
          exact hstraddle.2.1.symm
        subst hd
        cases ds with
        | nil => rcases hpats with rfl | rfl <;> rfl
        | cons e es =>
          have he : e = Char.ofNat 96 := by
            simp only [fence, List.cons_append, List.cons_prefix_cons] at hstraddle
            exact hstraddle.2.2.1.symm
          subst he
          exact absurd (List.IsPrefix.isInfix ⟨es, rfl⟩) ht
    · rw [List.cons_append, removeAll_keep pats c _ (find_fence_none pats hpats _ hstraddle),
        ih hcs]

theorem removeAll_opening_json (rest : Str) :
    removeAll [fenceJson, fence] 0 (fenceJson ++ rest) = removeAll [fenceJson, fence] 0 rest := by
  have hfind : [fenceJson, fence].find? (fun p => p.isPrefixOf (fenceJson ++ rest)) =
      some fenceJson := by
    have : fenceJson.isPrefixOf (fenceJson ++ rest) = true :=
      List.isPrefixOf_iff_prefix.2 (List.prefix_append _ _)
    simp [List.find?, this]
  have hcons : fenceJson ++ rest = Char.ofNat 96 :: (Char.ofNat 96 :: Char.ofNat 96 ::
      'j' :: 's' :: 'o' :: 'n' :: rest) := rfl
  rw [hcons] at hfind ⊢
  rw [removeAll, hfind]
  rfl

theorem removeAll_opening_bare (rest : Str) :
    removeAll [fence, fence] 0 (fence ++ rest) = removeAll [fence, fence] 0 rest := by
  have hfind : [fence, fence].find? (fun p => p.isPrefixOf (fence ++ rest)) = some fence := by
    have : fence.isPrefixOf (fence ++ rest) = true :=
      List.isPrefixOf_iff_prefix.2 (List.prefix_append _ _)
    simp [List.find?, this]
  have hcons : fence ++ rest = Char.ofNat 96 :: (Char.ofNat 96 :: Char.ofNat 96 :: rest) := rfl
  rw [hcons] at hfind ⊢
  rw [removeAll, hfind]
  rfl

theorem trim_fenced (opening t : Str) (ho : opening.head? = some (Char.ofNat 96)) :
    trim (opening ++ t ++ fence) = opening ++ t ++ fence := by
  apply trim_eq_self
  · intro c hc
    cases opening with
    | nil => cases ho
    | cons o os =>
      simp only [List.head?_cons, Option.some.injEq, List.cons_append] at ho hc
      rw [← hc, ho]
      decide
  · intro c hc
    rw [List.getLast?_append_of_ne_nil _ (by simp [fence])] at hc
    simp only [fence, List.getLast?_cons_cons, List.getLast?_singleton, Option.some.injEq] at hc
    rw [← hc]
    decide

theorem json_prefix_of_append_fence (t : Str) (h : "json".toList <+: t ++ fence) :
    "json".toList <+: t := by
  rcases t with _ | ⟨a, _ | ⟨b, _ | ⟨c, _ | ⟨d, rest⟩⟩⟩⟩
  · simp only [String.toList, fence, List.nil_append, List.cons_prefix_cons] at h
    exact absurd h.1 (by decide)
  · simp only [String.toList, fence, List.cons_append, List.nil_append,
      List.cons_prefix_cons] at h
    exact absurd h.2.1 (by decide)
  · simp only [String.toList, fence, List.cons_append, List.nil_append,
      List.cons_prefix_cons] at h
    exact absurd h.2.2.1 (by decide)
  · simp only [String.toList, fence, List.cons_append, List.nil_append,
      List.cons_prefix_cons] at h
    exact absurd h.2.2.2.1 (by decide)
  · simp only [String.toList, List.cons_append, List.cons_prefix_cons] at h ⊢
    exact ⟨h.1, h.2.1, h.2.2.1, h.2.2.2.1, List.nil_prefix⟩

/-- A reply made of a fence followed by `json`, a text without fence and a fence
is reduced to the trimmed text. -/
theorem cleanReply_fenced_json (t : Str) (ht : ¬ fence <:+: t) :
    cleanReply (fenceJson ++ t ++ fence) = trim t := by
  unfold cleanReply
  simp only [trim_fenced fenceJson t rfl]
  have hp : fenceJson.isPrefixOf (fenceJson ++ t ++ fence) = true := by
    rw [List.append_assoc]
    exact List.isPrefixOf_iff_prefix.2 (List.prefix_append _ _)
  simp only [hp, if_true]
  rw [List.append_assoc, removeAll_opening_json, removeAll_closing _ (Or.inl rfl) t ht]

/-- A reply made of a fence, a text without fence that does not begin with
`json`, and a fence is reduced to the trimmed text. -/
theorem cleanReply_fenced_bare (t : Str) (ht : ¬ fence <:+: t) (hj : ¬ "json".toList <+: t) :
    cleanReply (fence ++ t ++ fence) = trim t := by
  unfold cleanReply
  simp only [trim_fenced fence t rfl]
  have hj1 : ¬ "json".toList <+: t ++ fence := fun h => hj (json_prefix_of_append_fence t h)
  have hp : fenceJson.isPrefixOf (fence ++ t ++ fence) = false := by
    rw [Bool.eq_false_iff]
    intro hp
    have := List.isPrefixOf_iff_prefix.1 hp
    rw [List.append_assoc] at this
    exact hj1 ((List.prefix_append_right_inj fence).1 this)
  have hp1 : fence.isPrefixOf (fence ++ t ++ fence) = true := by
    rw [List.append_assoc]
    exact List.isPrefixOf_iff_prefix.2 (List.prefix_append _ _)
  simp only [hp, hp1, Bool.false_eq_true, if_false, if_true]
  rw [List.append_assoc, removeAll_opening_bare, removeAll_closing _ (Or.inr rfl) t ht]

/-- A reply that, once trimmed, does not begin with a fence is only trimmed. -/
theorem cleanReply_plain (content : Str) (h : ¬ fence <+: trim content) :
    cleanReply content = trim content := by
  unfold cleanReply
  have h1 : fence.isPrefixOf (trim content) = false := by
    rw [Bool.eq_false_iff]
    intro hp
    exact h ( List.isPrefixOf_iff_prefix.1 hp)
  have h2 : fenceJson.isPrefixOf (trim content) = false := by
    rw [Bool.eq_false_iff]
    intro hp
    exact h ((List.prefix_append fence "json".toList).trans ( List.isPrefixOf_iff_prefix.1 hp))
  simp only [h1, h2, Bool.false_eq_true, if_false]

theorem trim_trim (s : Str) : trim (trim s) = trim s :=
  trim_eq_self _ (trim_ends s).1 (trim_ends s).2

/-- The retry loop depends on the replies only through their cleaned texts. -/
theorem idealLoop_congr (parse : Str → Option JsVal) (hf hf1 : Nat → ModelReply) (n : Nat)
    (h : ∀ k, SameCleaned (hf k) (hf1 k)) (remaining : Nat) (cur : JsVal) (calls : Nat) :
    idealLoop parse hf n remaining cur calls = idealLoop parse hf1 n remaining cur calls := by
  induction remaining generalizing cur calls with
  | zero => rfl
  | succ remaining ih =>
    have hk := h calls
    unfold idealLoop
    cases h0 : hf calls with
    | failure =>
      cases h1 : hf1 calls with
      | failure => simp only [ih]
      | text b => rw [h0, h1] at hk; exact absurd hk (by simp [SameCleaned])
    | text a =>
      cases h1 : hf1 calls with
      | failure => rw [h0, h1] at hk; exact absurd hk (by simp [SameCleaned])
      | text b =>
        rw [h0, h1] at hk
        simp only [SameCleaned] at hk
        simp only [hk, ih]

theorem idealAnswers_congr (parse : Str → Option JsVal) (db : Db) (userId : Nat)
    (interviewId : Str) (hf hf1 : Nat → ModelReply) (h : ∀ k, SameCleaned (hf k) (hf1 k)) :
    idealAnswers parse db userId interviewId hf = idealAnswers parse db userId interviewId hf1 := by
  unfold idealAnswers
  simp only [idealLoop_congr parse hf hf1 _ h]

/-- C27, refuted as stated: a text that begins with `json`, put between bare
fences, loses its first four characters; and a reply that begins with a blank
followed by a fence does not start with a fence, yet loses its fences. -/
theorem fence_cleaning_exceptions :
    ¬ fence <:+: "json[1]".toList ∧
    cleanReply (fence ++ "json[1]".toList ++ fence) = "[1]".toList ∧
    trim "json[1]".toList = "json[1]".toList ∧
    ¬ fence <+: ' ' :: (fence ++ "[1]".toList ++ fence) ∧
    cleanReply (' ' :: (fence ++ "[1]".toList ++ fence)) = "[1]".toList ∧
    trim (' ' :: (fence ++ "[1]".toList ++ fence)) = fence ++ "[1]".toList ++ fence :=
  ⟨by decide, rfl, rfl, by decide, rfl, rfl⟩

/-- C27, amended: let `t` be a text without three consecutive backticks and
`fenced` the text `t` between a fence followed by `json` and a fence, or, when
`t` does not begin with `json`, between two bare fences.  Then `fenced` is
reduced to the trimmed `t` before parsing; a reply `fenced` whose trimmed `t`
parses as an array of the right length ends the retry loop with that array;
when the trimmed `t` does not begin with a fence, `POST /ideal-answers` gives
the same outcome whether the model replies `fenced` or `t`; and a reply that,
once trimmed, does not begin with a fence reaches the parser trimmed and
otherwise unchanged. -/
theorem fence_cleaning (parse : Str → Option JsVal) (t fenced : Str) (ht : ¬ fence <:+: t)
    (hfenced : fenced = fenceJson ++ t ++ fence ∨
      (¬ "json".toList <+: t ∧ fenced = fence ++ t ++ fence)) :
    cleanReply fenced = trim t ∧
    (∀ (hf : Nat → ModelReply) (n remaining calls : Nat) (v : JsVal),
      hf calls = .text fenced → parse (trim t) = some v → validAnswers n v = true →
      idealLoop parse hf n (remaining + 1) (.arr []) calls = (.ended v, calls + 1)) ∧
    (¬ fence <+: trim t → ∀ (db : Db) (userId : Nat) (interviewId : Str)
      (hf hf1 : Nat → ModelReply),
      (∀ k, hf k = hf1 k ∨ (hf k = .text fenced ∧ hf1 k = .text t)) →
      idealAnswers parse db userId interviewId hf = idealAnswers parse db userId interviewId hf1) ∧
    (∀ content, ¬ fence <+: trim content → cleanReply content = trim content) := by
  have hclean : cleanReply fenced = trim t := by
    rcases hfenced with rfl | ⟨hj, rfl⟩
    · exact cleanReply_fenced_json t ht
    · exact cleanReply_fenced_bare t ht hj
  refine ⟨hclean, ?_, ?_, cleanReply_plain⟩
  · intro hf n remaining calls v hreply hparse hvalid
    simp only [idealLoop, lengthIsZero, List.isEmpty_nil, hreply, hclean, hparse, hvalid, if_true]
  · intro hplain db userId interviewId hf hf1 hsame
    apply idealAnswers_congr
    intro k
    rcases hsame k with heq | ⟨h1, h2⟩
    · rw [heq]
      cases hf1 k with
      | failure => trivial
      | text a => rfl
    · rw [h1, h2]
      show cleanReply fenced = cleanReply t
      rw [hclean, cleanReply_plain t hplain]

theorem fence_cleaning_witness :
    ¬ fence <:+: sampleArrayText ∧
    (fenceJson ++ sampleArrayText ++ fence =
        fenceJson ++ sampleArrayText ++ fence ∨
      (¬ "json".toList <+: sampleArrayText ∧
        fenceJson ++ sampleArrayText ++ fence =
          fence ++ sampleArrayText ++ fence)) ∧
    trim sampleArrayText = "[\"a\", \"b\", \"c\"]".toList ∧
    cleanReply (fenceJson ++ sampleArrayText ++ fence) =
      trim sampleArrayText ∧
    (∀ (hf : Nat → ModelReply) (n remaining calls : Nat) (v : JsVal),
      hf calls = .text (fenceJson ++ sampleArrayText ++ fence) →
      jsonParse (trim sampleArrayText) = some v →
      validAnswers n v = true →
      idealLoop jsonParse hf n (remaining + 1) (.arr []) calls = (.ended v, calls + 1)) ∧
    (¬ fence <+: trim sampleArrayText →
      ∀ (db : Db) (userId : Nat) (interviewId : Str) (hf hf1 : Nat → ModelReply),
      (∀ k, hf k = hf1 k ∨
        (hf k = .text (fenceJson ++ sampleArrayText ++ fence) ∧
          hf1 k = .text sampleArrayText)) →
      idealAnswers jsonParse db userId interviewId hf =
        idealAnswers jsonParse db userId interviewId hf1) ∧
    (∀ content, ¬ fence <+: trim content → cleanReply content = trim content) :=
  ⟨by decide, Or.inl rfl, rfl,
    fence_cleaning jsonParse sampleArrayText
      (fenceJson ++ sampleArrayText ++ fence) (by decide) (Or.inl rfl)⟩

/-! ## Deleting a review -/

/-- C24: for a caller with the role `admin`, every database and every content
of the directory `uploads`: when a review with the id exists, the request
answers with a success, no row with that id is left, every row with another id
is kept as it is and in its place, table `interviews` is untouched, the file
named by the file reference of the review is no longer in the directory and
every other file still is; when no review has the id, the request answers with
status 404 `Review not found` and leaves the database and the directory as
they are. -/
theorem delete_review (db : Db) (uploads : List Str) (id : Str) :
    (∀ review, getReviewById db id = some review →
      (deleteReview db uploads "admin".toList id).response =
        .json "Resume review deleted successfully".toList ∧
      (∀ r ∈ (deleteReview db uploads "admin".toList id).db.resume_reviews, r.id ≠ id) ∧
      (deleteReview db uploads "admin".toList id).db.resume_reviews =
        db.resume_reviews.filter (fun r => decide (r.id ≠ id)) ∧
      (deleteReview db uploads "admin".toList id).db.interviews = db.interviews ∧
      (review.file_path ≠ [] →
        review.file_path ∉ (deleteReview db uploads "admin".toList id).uploads) ∧
      (∀ name, name ≠ review.file_path →
        (name ∈ (deleteReview db uploads "admin".toList id).uploads ↔ name ∈ uploads))) ∧
    ((∀ r ∈ db.resume_reviews, r.id ≠ id) →
      deleteReview db uploads "admin".toList id =
        ⟨.status 404 "Review not found".toList, db, uploads⟩) := by
  constructor
  · intro review hreview
    have hout : deleteReview db uploads "admin".toList id =
        ⟨.json "Resume review deleted successfully".toList, deleteReviewRow db id,
          unlinkUpload uploads review.file_path⟩ := by
      simp only [deleteReview, hreview, ne_eq, not_true_eq_false, if_false]
    rw [hout]
    refine ⟨rfl, ?_, ?_, rfl, ?_, ?_⟩
    · intro r hr
      simp only [deleteReviewRow, List.mem_filter, Bool.not_eq_true', decide_eq_false_iff_not] at hr
      exact hr.2
    · simp only [deleteReviewRow]
      congr 1
      funext r
      simp
    · intro hne hmem
      have hemp : review.file_path.isEmpty = false := by
        cases hp : review.file_path with
        | nil => exact absurd hp hne
        | cons c cs => rfl
      simp only [unlinkUpload, hemp, Bool.false_eq_true, if_false, List.mem_filter,
        decide_True, Bool.not_true] at hmem
      exact absurd hmem.2 (by simp)
    · intro name hname
      simp only [unlinkUpload]
      split
      · exact Iff.rfl
      · simp [List.mem_filter, hname]
  · intro hnone
    have hget : getReviewById db id = none := by
      unfold getReviewById
      rw [List.find?_eq_none]
      intro r hr
      simpa using hnone r hr
    simp only [deleteReview, hget, ne_eq, not_true_eq_false, if_false]

theorem sampleReviewDb_eq : sampleReviewDb = ⟨[], [sampleReview]⟩ :=
  rfl

theorem delete_review_witness :
    getReviewById sampleReviewDb "1700000000001".toList = some sampleReview ∧
    sampleReview.file_path = "1700000000001-cv.pdf".toList ∧
    ((deleteReview sampleReviewDb sampleUploads "admin".toList "1700000000001".toList).response =
        .json "Resume review deleted successfully".toList ∧
      (∀ r ∈ (deleteReview sampleReviewDb sampleUploads "admin".toList
          "1700000000001".toList).db.resume_reviews, r.id ≠ "1700000000001".toList) ∧
      (deleteReview sampleReviewDb sampleUploads "admin".toList
          "1700000000001".toList).db.resume_reviews =
        sampleReviewDb.resume_reviews.filter (fun r => decide (r.id ≠ "1700000000001".toList)) ∧
      (deleteReview sampleReviewDb sampleUploads "admin".toList
          "1700000000001".toList).db.interviews = sampleReviewDb.interviews ∧
      (sampleReview.file_path ≠ [] →
        sampleReview.file_path ∉ (deleteReview sampleReviewDb sampleUploads "admin".toList
          "1700000000001".toList).uploads) ∧
      (∀ name, name ≠ sampleReview.file_path →
        (name ∈ (deleteReview sampleReviewDb sampleUploads "admin".toList
          "1700000000001".toList).uploads ↔ name ∈ sampleUploads))) ∧
    (deleteReview sampleReviewDb sampleUploads "admin".toList "1700000000001".toList).uploads =
      ["1700000000002-other.png".toList] ∧
    (∀ r ∈ sampleReviewDb.resume_reviews, r.id ≠ "1700000000009".toList) ∧
    deleteReview sampleReviewDb sampleUploads "admin".toList "1700000000009".toList =
      ⟨.status 404 "Review not found".toList, sampleReviewDb, sampleUploads⟩ :=
  ⟨rfl, rfl,
    (delete_review sampleReviewDb sampleUploads "1700000000001".toList).1 sampleReview rfl,
    rfl,
    (fun r hr => by
      rw [sampleReviewDb_eq, List.mem_singleton] at hr
      rw [hr]
      decide),
    rfl⟩

/-! ## Two `POST /answer` requests in flight -/

/-- Handled alone, the two parts of `POST /answer` make up the handler. -/
theorem answer_eq_read_write (db : Db) (userId : Nat) (body : AnswerRequest)
    (hf : Nat → ModelReply) :
    answer db userId body hf =
      match answerRead db userId body hf with
      | .ok p => answerWrite db p
      | .error (response, calls) => ⟨response, db, calls⟩ := by
  obtain ⟨interviewId, question, ans⟩ := body
  unfold answer answerRead
  simp only
  cases getInterview db interviewId userId with
  | none => rfl
  | some interview =>
    simp only
    by_cases h1 : (!ans.truthy) = true
    · simp only [h1, if_true]
    · simp only [h1, if_false]
      cases ans with
      | str a =>
        simp only
        by_cases h2 : trim a = []
        · simp [h2]
        · simp only [h2, if_false]
          cases toStringThrows question with
          | true => simp
          | false =>
            simp only [Bool.false_eq_true, if_false]
            cases hf 0 with
            | failure => rfl
            | text t => rfl
      | _ => rfl

/-- What the first part of an accepted `POST /answer` hands to the second. -/
theorem answerRead_of_text (db : Db) (userId : Nat) (body : AnswerRequest)
    (hf : Nat → ModelReply) (old : Interview) (a t : Str)
    (hown : getInterview db body.interviewId userId = some old) (ha : body.answer = .str a)
    (hblank : trim a ≠ []) (hq : toStringThrows body.question = false) (ht : hf 0 = .text t) :
    answerRead db userId body hf =
      .ok ⟨body.interviewId, old.answers ++ [.str a],
        old.scores ++ [jsonOfNumber (extractScore t)], old.feedbacks ++ [.str t],
        ⟨t, jsonOfNumber (extractScore t)⟩⟩ := by
  have htruthy : body.answer.truthy = true := by
    rw [ha]
    cases a with
    | nil => exact absurd rfl hblank
    | cons c cs => rfl
  unfold answerRead
  simp only [hown, htruthy, Bool.not_true, Bool.false_eq_true, if_false]
  rw [ha]
  simp only [hblank, if_false, hq, Bool.false_eq_true, ht, toJsonList_push, toJson_num, toJson_str,
    Option.getD_some]

theorem updateInterview_twice (db : Db) (interviewId : Str)
    (answers1 scores1 feedbacks1 answers2 scores2 feedbacks2 : List Json) :
    updateInterview (updateInterview db interviewId answers1 scores1 feedbacks1) interviewId
      answers2 scores2 feedbacks2 = updateInterview db interviewId answers2 scores2 feedbacks2 := by
  unfold updateInterview
  simp only [List.map_map, Db.mk.injEq, and_true]
  apply List.map_congr_left
  intro r _
  simp only [Function.comp]
  by_cases hid : r.id = interviewId
  · simp [hid]
  · simp [hid]

/-- C25: two `POST /answer` requests of the owner for the same session, each
with a non-blank answer and a reply of the model, handled so that both read the
session before either writes: both answer with a success, and the database is
the one the second writer would have produced alone, so the session holds its
old answers, scores and feedbacks followed by the single entry of the second
writer, and the entry of the first writer is lost. -/
theorem lost_update (db : Db) (userId : Nat) (body1 body2 : AnswerRequest)
    (hf1 hf2 : Nat → ModelReply) (old : Interview) (a1 t1 a2 t2 : Str)
    (hsame : body2.interviewId = body1.interviewId)
    (hown : getInterview db body1.interviewId userId = some old)
    (ha1 : body1.answer = .str a1) (hblank1 : trim a1 ≠ [])
    (hq1 : toStringThrows body1.question = false) (ht1 : hf1 0 = .text t1)
    (ha2 : body2.answer = .str a2) (hblank2 : trim a2 ≠ [])
    (hq2 : toStringThrows body2.question = false) (ht2 : hf2 0 = .text t2) :
    answerBothReadFirst db userId body1 hf1 userId body2 hf2 =
      (.json ⟨t1, jsonOfNumber (extractScore t1)⟩, .json ⟨t2, jsonOfNumber (extractScore t2)⟩,
        answeredDb db body1.interviewId old a2 t2) ∧
    getInterview (answerBothReadFirst db userId body1 hf1 userId body2 hf2).2.2
        body1.interviewId userId =
      some { old with answers := old.answers ++ [.str a2],
                      scores := old.scores ++ [jsonOfNumber (extractScore t2)],
                      feedbacks := old.feedbacks ++ [.str t2] } := by
  have hown2 : getInterview db body2.interviewId userId = some old := by rw [hsame]; exact hown
  have heq : answerBothReadFirst db userId body1 hf1 userId body2 hf2 =
      (.json ⟨t1, jsonOfNumber (extractScore t1)⟩, .json ⟨t2, jsonOfNumber (extractScore t2)⟩,
        answeredDb db body1.interviewId old a2 t2) := by
    unfold answerBothReadFirst
    simp only [answerRead_of_text db userId body1 hf1 old a1 t1 hown ha1 hblank1 hq1 ht1,
      answerRead_of_text db userId body2 hf2 old a2 t2 hown2 ha2 hblank2 hq2 ht2, answerWrite,
      hsame, updateInterview_twice, answeredDb]
  refine ⟨heq, ?_⟩
  rw [heq]
  simp only [answeredDb, getInterview_updateInterview, hown, Option.map_some']

theorem lost_update_witness :
    secondAnswerBody.interviewId = sampleAnswerBody.interviewId ∧
    getInterview sampleDb sampleAnswerBody.interviewId 7 = some sampleOpened ∧
    sampleAnswerBody.answer = .str "An architectural style.".toList ∧
    trim "An architectural style.".toList ≠ [] ∧
    toStringThrows sampleAnswerBody.question = false ∧
    secondAnswerBody.answer = .str "They combine rows.".toList ∧
    trim "They combine rows.".toList ≠ [] ∧
    toStringThrows secondAnswerBody.question = false ∧
    (answerBothReadFirst sampleDb 7 sampleAnswerBody (fun _ => .text sampleFeedback) 7
        secondAnswerBody (fun _ => .text secondFeedback) =
      (.json ⟨sampleFeedback, jsonOfNumber (extractScore sampleFeedback)⟩,
        .json ⟨secondFeedback, jsonOfNumber (extractScore secondFeedback)⟩,
        answeredDb sampleDb sampleAnswerBody.interviewId sampleOpened "They combine rows.".toList
          secondFeedback) ∧
      getInterview (answerBothReadFirst sampleDb 7 sampleAnswerBody
          (fun _ => .text sampleFeedback) 7 secondAnswerBody
          (fun _ => .text secondFeedback)).2.2 sampleAnswerBody.interviewId 7 =
        some { sampleOpened with
          answers := sampleOpened.answers ++ [.str "They combine rows.".toList],
          scores := sampleOpened.scores ++ [jsonOfNumber (extractScore secondFeedback)],
          feedbacks := sampleOpened.feedbacks ++ [.str secondFeedback] }) ∧
    ((run sampleDb [.answer 7 sampleAnswerBody (fun _ => .text sampleFeedback),
        .answer 7 secondAnswerBody (fun _ => .text secondFeedback)]).interviews.map
        Interview.scores = [[.num 8, .num 6]]) ∧
    (answerBothReadFirst sampleDb 7 sampleAnswerBody (fun _ => .text sampleFeedback) 7
        secondAnswerBody (fun _ => .text secondFeedback)).2.2.interviews.map Interview.scores =
      [[.num 6]] :=
  ⟨rfl, rfl, rfl, by decide, rfl, rfl, by decide, rfl,
    lost_update sampleDb 7 sampleAnswerBody secondAnswerBody (fun _ => .text sampleFeedback)
      (fun _ => .text secondFeedback) sampleOpened "An architectural style.".toList
      sampleFeedback "They combine rows.".toList secondFeedback rfl rfl rfl (by decide) rfl rfl
      rfl (by decide) rfl rfl,
    rfl, rfl⟩

/-! ## Ownership in `POST /ideal-answers` -/

/-- When every read succeeds, the handler with read outcomes is `idealAnswers`. -/
theorem idealAnswersReads_all_ok (parse : Str → Option JsVal) (db : Db) (userId : Nat)
    (interviewId : Str) (hf : Nat → ModelReply) :
    idealAnswersReads parse db userId interviewId (fun _ => true) hf =
      idealAnswers parse db userId interviewId hf := by
  unfold idealAnswersReads idealAnswers
  simp only [fallbackResponse, Bool.not_true, Bool.false_eq_true, if_false, if_true]

/-- When the first read succeeds, a success carries questions of a session of
the caller only (under the primary key of `interviews`). -/
theorem idealAnswersReads_owned (parse : Str → Option JsVal) (db : Db) (userId : Nat)
    (interviewId : Str) (readOk : Nat → Bool) (hf : Nat → ModelReply)
    (pairs : List IdealAnswer) (hpk : UniqueIds db) (hfirst : readOk 0 = true)
    (h : (idealAnswersReads parse db userId interviewId readOk hf).response = .json pairs) :
    ∃ r ∈ db.interviews, r.id = interviewId ∧ r.user_id = userId ∧
      pairs.map IdealAnswer.question = r.questions := by
  unfold idealAnswersReads at h
  simp only [hfirst, Bool.not_true, Bool.false_eq_true, if_false] at h
  cases hown : getInterview db interviewId userId with
  | none => simp [hown] at h
  | some r =>
    obtain ⟨hmem, hid, hu⟩ := getInterview_mem hown
    have hby := getInterviewById_of_owned db interviewId userId r hpk hown
    have hfb : ∀ ok, fallbackResponse db interviewId ok = .json pairs →
        pairs.map IdealAnswer.question = r.questions := by
      intro ok hok
      unfold fallbackResponse at hok
      split at hok
      · simp only [Response.json.injEq] at hok
        rw [← hok]
        exact fallbackAnswers_questions db interviewId r hby
      · cases hok
    refine ⟨r, hmem, hid, hu, ?_⟩
    simp only [hown] at h
    split at h
    · rename_i h0
      simp only [Response.json.injEq] at h
      rw [fromJsonList_length] at h0
      rw [← h, List.length_eq_zero.1 h0]
      rfl
    · split at h
      · exact hfb _ h
      · split at h
        · exact hfb _ h
        · split at h
          · exact hfb _ h
          · simp only [Response.json.injEq] at h
            rw [← h]
            exact structureAnswers_questions r.questions _
        · exact hfb _ h

/-- C30, failing input: user 8 asks for the ideal answers of the session of
user 7.  When the first read of the store throws and the read of the outer
`catch` succeeds, the response is a success that carries the three questions
of that session, although user 8 owns no session with that id. -/
theorem fallback_discloses :
    sampleDb.interviews = [sampleOpened] ∧ sampleOpened.user_id = 7 ∧
    getInterview sampleDb "1700000000000".toList 8 = none ∧
    (idealAnswers jsonParse sampleDb 8 "1700000000000".toList (fun _ => .failure)).response =
      .status 404 "Interview not found".toList ∧
    (idealAnswersReads jsonParse sampleDb 8 "1700000000000".toList (fun k => decide (k ≠ 0))
        (fun _ => .failure)).response =
      .json [⟨.str "What is REST?".toList, .str placeholderAnswer⟩,
        ⟨.str "Explain SQL joins.".toList, .str placeholderAnswer⟩,
        ⟨.str "What is a race condition?".toList, .str placeholderAnswer⟩] :=
  ⟨rfl, rfl, rfl, rfl, rfl⟩

/-! ## Rounding of a quotient to a double -/

theorem floorLog2Fuel_lt (fuel n : Nat) (h : n < 2 ^ fuel) :
    n < 2 ^ (floorLog2Fuel fuel n + 1) := by
  induction fuel generalizing n with
  | zero =>
    simp only [pow_zero, Nat.lt_one_iff] at h
    subst h
    simp [floorLog2Fuel]
  | succ fuel ih =>
    unfold floorLog2Fuel
    split
    · rename_i h2
      simpa using h2
    · have hhalf : n / 2 < 2 ^ fuel := by
        rw [Nat.div_lt_iff_lt_mul (by decide)]
        rw [Nat.pow_succ] at h
        exact h
      have := ih (n / 2) hhalf
      rw [Nat.pow_succ]
      omega

theorem floorLog2_lt (n : Nat) : n < 2 ^ (floorLog2 n + 1) :=
  floorLog2Fuel_lt n n (Nat.lt_two_pow n)

theorem floorLog2_le (n : Nat) (hn : 0 < n) : 2 ^ floorLog2 n ≤ n :=
  floorLog2Fuel_le n n hn

/-- The rounded quotient is within one half of the quotient. -/
theorem divRoundEven_near (a b : Nat) (hb : 0 < b) :
    2 * (divRoundEven a b * b) ≤ 2 * a + b ∧ 2 * a ≤ 2 * (divRoundEven a b * b) + b := by
  have hdiv := Nat.div_add_mod a b
  have hmod := Nat.mod_lt a hb
  have hmul : b * (a / b) = a / b * b := Nat.mul_comm _ _
  unfold divRoundEven
  simp only
  split
  · rename_i h
    rw [Nat.add_mul, Nat.one_mul]
    rcases h with h | ⟨h, _⟩ <;> constructor <;> omega
  · rename_i h
    have h1 : ¬ 2 * (a % b) > b := fun h1 => h (Or.inl h1)
    constructor <;> omega

theorem zpow_two_toNat (e : Int) (he : 0 ≤ e) : (2 : ℚ) ^ e = ((2 ^ e.toNat : Nat) : ℚ) := by
  obtain ⟨m, rfl⟩ := Int.eq_ofNat_of_zero_le he
  simp

/-- The test `fits` of `numberOfRatio` compares the quotient with `2 ^ e0`. -/
theorem fits_iff (n d : Nat) (hd : 0 < d) (e0 : Int) :
    (if e0 ≥ 0 then decide (d * 2 ^ e0.toNat ≤ n) else decide (d ≤ n * 2 ^ (-e0).toNat)) = true ↔
      (2 : ℚ) ^ e0 ≤ (n : ℚ) / d := by
  have hdq : (0 : ℚ) < d := by exact_mod_cast hd
  by_cases h0 : e0 ≥ 0
  · simp only [h0, if_true, decide_eq_true_eq]
    rw [le_div_iff₀ hdq, zpow_two_toNat e0 h0]
    constructor
    · intro h
      have : ((d * 2 ^ e0.toNat : Nat) : ℚ) ≤ n := by exact_mod_cast h
      rw [mul_comm]
      exact_mod_cast this
    · intro h
      rw [mul_comm] at h
      exact_mod_cast h
  · simp only [h0, if_false, decide_eq_true_eq]
    have hneg : 0 ≤ -e0 := by omega
    have hpow : (2 : ℚ) ^ e0 = 1 / ((2 ^ (-e0).toNat : Nat) : ℚ) := by
      rw [← zpow_two_toNat (-e0) hneg, zpow_neg]
      simp
    have hpos : (0 : ℚ) < ((2 ^ (-e0).toNat : Nat) : ℚ) := by positivity
    rw [hpow, div_le_div_iff₀ hpos hdq, one_mul]
    constructor
    · intro h
      exact_mod_cast h
    · intro h
      exact_mod_cast h

/-- The binary exponent that `numberOfRatio` computes is the one of the quotient. -/
theorem exponent_eq (n d : Nat) (hn : 0 < n) (hd : 0 < d) (e : Int)
    (hlo : (2 : ℚ) ^ e ≤ (n : ℚ) / d) (hhi : (n : ℚ) / d < 2 ^ (e + 1)) :
    (if (if (floorLog2 n : Int) - (floorLog2 d : Int) ≥ 0 then
          decide (d * 2 ^ ((floorLog2 n : Int) - (floorLog2 d : Int)).toNat ≤ n)
        else decide (d ≤ n * 2 ^ (-((floorLog2 n : Int) - (floorLog2 d : Int))).toNat)) = true
      then (floorLog2 n : Int) - (floorLog2 d : Int)
      else (floorLog2 n : Int) - (floorLog2 d : Int) - 1) = e := by
  have hdq : (0 : ℚ) < d := by exact_mod_cast hd
  have hnq : (0 : ℚ) < n := by exact_mod_cast hn
  have hn1 : ((2 : ℚ) ^ (floorLog2 n : Int)) ≤ n := by
    rw [zpow_natCast]; exact_mod_cast floorLog2_le n hn
  have hn2 : (n : ℚ) < (2 : ℚ) ^ ((floorLog2 n : Int) + 1) := by
    have := floorLog2_lt n
    rw [show ((floorLog2 n : Int) + 1) = ((floorLog2 n + 1 : Nat) : Int) by push_cast; ring,
      zpow_natCast]
    exact_mod_cast this
  have hd1 : ((2 : ℚ) ^ (floorLog2 d : Int)) ≤ d := by
    rw [zpow_natCast]; exact_mod_cast floorLog2_le d hd
  have hd2 : (d : ℚ) < (2 : ℚ) ^ ((floorLog2 d : Int) + 1) := by
    have := floorLog2_lt d
    rw [show ((floorLog2 d : Int) + 1) = ((floorLog2 d + 1 : Nat) : Int) by push_cast; ring,
      zpow_natCast]
    exact_mod_cast this
  generalize (floorLog2 n : Int) = a at hn1 hn2 ⊢
  generalize (floorLog2 d : Int) = b at hd1 hd2 ⊢
  have h2 : (0 : ℚ) < 2 := by norm_num
  have hup : (n : ℚ) / d < (2 : ℚ) ^ (a - b + 1) := by
    rw [div_lt_iff₀ hdq]
    calc (n : ℚ) < 2 ^ (a + 1) := hn2
      _ = 2 ^ (a - b + 1) * 2 ^ b := by rw [← zpow_add₀ h2.ne']; congr 1; ring
      _ ≤ 2 ^ (a - b + 1) * d := by
        apply mul_le_mul_of_nonneg_left hd1 (by positivity)
  have hdown : (2 : ℚ) ^ (a - b - 1) < (n : ℚ) / d := by
    rw [lt_div_iff₀ hdq]
    calc (2 : ℚ) ^ (a - b - 1) * d < 2 ^ (a - b - 1) * 2 ^ (b + 1) := by
          apply mul_lt_mul_of_pos_left hd2 (by positivity)
      _ = 2 ^ a := by rw [← zpow_add₀ h2.ne']; congr 1; ring
      _ ≤ n := hn1
  have hlt1 : e < a - b + 1 := by
    have := lt_of_le_of_lt hlo hup
    exact (zpow_lt_zpow_iff_right₀ (by norm_num : (1 : ℚ) < 2)).1 this
  have hlt2 : a - b - 1 < e + 1 := by
    have := lt_trans hdown hhi
    exact (zpow_lt_zpow_iff_right₀ (by norm_num : (1 : ℚ) < 2)).1 this
  have hfits := fits_iff n d hd (a - b)
  by_cases hf : (if a - b ≥ 0 then decide (d * 2 ^ (a - b).toNat ≤ n)
      else decide (d ≤ n * 2 ^ (-(a - b)).toNat)) = true
  · rw [if_pos hf]
    have h1 := hfits.1 hf
    have : a - b < e + 1 :=
      (zpow_lt_zpow_iff_right₀ (by norm_num : (1 : ℚ) < 2)).1 (lt_of_le_of_lt h1 hhi)
    omega
  · rw [if_neg hf]
    have h1 : ¬ (2 : ℚ) ^ (a - b) ≤ (n : ℚ) / d := fun h => hf (hfits.2 h)
    have : a - b ≠ e := fun h => h1 (h ▸ hlo)
    omega

/-- For a quotient in the binade `[2^e, 2^(e+1))` with `-1022 ≤ e ≤ 52` the
double is the quotient scaled by `2^(52-e)`, rounded, and scaled back. -/
theorem numberOfRatio_eq (n d : Nat) (hn : 0 < n) (hd : 0 < d) (e : Int)
    (hlo : (2 : ℚ) ^ e ≤ (n : ℚ) / d) (hhi : (n : ℚ) / d < 2 ^ (e + 1))
    (he1 : -1022 ≤ e) (he2 : e ≤ 52) :
    numberOfRatio n d =
      .finite ((divRoundEven (n * 2 ^ (52 - e).toNat) d : ℚ) / 2 ^ (52 - e).toNat) := by
  have hexp := exponent_eq n d hn hd e hlo hhi
  unfold numberOfRatio
  simp only [hn.ne', if_false]
  rw [hexp]
  have hmax : max e (-1022) = e := max_eq_left he1
  have hneg : (-(52 - e)).toNat = 0 := by
    apply Int.toNat_eq_zero.2
    omega
  simp only [hmax, hneg, pow_zero, Nat.mul_one, Nat.add_zero, Nat.cast_one, mul_one]
  have hdq : (0 : ℚ) < d := by exact_mod_cast hd
  have hs : ((52 - e).toNat : Int) = 52 - e := Int.toNat_of_nonneg (by omega)
  have hscaled : n * 2 ^ (52 - e).toNat < d * 2 ^ 53 := by
    have h1 : (n : ℚ) < 2 ^ (e + 1) * d := (div_lt_iff₀ hdq).1 hhi
    have h2 : (2 : ℚ) ^ (e + 1) * 2 ^ (52 - e).toNat = 2 ^ 53 := by
      rw [← zpow_natCast, hs, ← zpow_add₀ (by norm_num : (2 : ℚ) ≠ 0)]
      rw [show e + 1 + (52 - e) = ((53 : Nat) : Int) by push_cast; ring, zpow_natCast]
    have h3 : (n : ℚ) * 2 ^ (52 - e).toNat < d * 2 ^ 53 := by
      calc (n : ℚ) * 2 ^ (52 - e).toNat < 2 ^ (e + 1) * d * 2 ^ (52 - e).toNat := by
            apply mul_lt_mul_of_pos_right h1 (by positivity)
        _ = d * 2 ^ 53 := by rw [mul_right_comm, h2, mul_comm]
    exact_mod_cast h3
  have hnear := (divRoundEven_near (n * 2 ^ (52 - e).toNat) d hd).1
  have hk : divRoundEven (n * 2 ^ (52 - e).toNat) d ≤ 2 ^ 53 := by
    by_contra hgt
    have hgt1 : 2 ^ 53 + 1 ≤ divRoundEven (n * 2 ^ (52 - e).toNat) d := by omega
    have := Nat.mul_le_mul_right d hgt1
    rw [Nat.add_mul, Nat.one_mul, Nat.mul_comm (2 ^ 53) d] at this
    omega
  have hlog : ¬ floorLog2 (divRoundEven (n * 2 ^ (52 - e).toNat) d) ≥ 1024 := by
    intro hge
    by_cases hk0 : divRoundEven (n * 2 ^ (52 - e).toNat) d = 0
    · rw [hk0] at hge
      exact absurd hge (by decide)
    · have h1 := floorLog2_le _ (Nat.pos_of_ne_zero hk0)
      have h2 : floorLog2 (divRoundEven (n * 2 ^ (52 - e).toNat) d) ≤ 53 :=
        (Nat.pow_le_pow_iff_right (by decide : 1 < 2)).1 (h1.trans hk)
      omega
  simp only [hlog, false_and, if_false]

theorem divRoundEven_one (a : Nat) : divRoundEven a 1 = a := by
  unfold divRoundEven
  simp [Nat.mod_one]

/-- The binade of a positive rational. -/
theorem exists_binade (q : ℚ) (hq : 0 < q) :
    ∃ e : Int, (2 : ℚ) ^ e ≤ q ∧ q < 2 ^ (e + 1) := by
  refine ⟨Int.log 2 q, ?_, ?_⟩
  · have := Int.zpow_log_le_self (b := 2) (by decide) hq
    simpa using this
  · have := Int.lt_zpow_succ_log_self (b := 2) (by decide) q
    simpa using this

theorem numberOfRat_of_pos (q : ℚ) (hq : 0 < q) :
    numberOfRat q = numberOfRatio q.num.toNat q.den ∧ 0 < q.num.toNat ∧
      ((q.num.toNat : ℚ) / q.den = q) := by
  have hnum : 0 < q.num := Rat.num_pos.2 hq
  have hcast : ((q.num.toNat : Int)) = q.num := Int.toNat_of_nonneg hnum.le
  refine ⟨by simp [numberOfRat, hq.le], by omega, ?_⟩
  have : ((q.num.toNat : ℚ)) = (q.num : ℚ) := by exact_mod_cast hcast
  rw [this]
  exact Rat.num_div_den q

/-- Relative error of the rounding to a double, for a quotient between
`2^(-1022)` and `2^53`. -/
theorem numberOfRat_near (q : ℚ) (hq : 0 < q) (hlo : (2 : ℚ) ^ (-1022 : Int) ≤ q)
    (hhi : q < 2 ^ 53) :
    ∃ x : ℚ, numberOfRat q = .finite x ∧ |x - q| * 2 ^ 53 ≤ q := by
  obtain ⟨heq, hnpos, hquot⟩ := numberOfRat_of_pos q hq
  obtain ⟨e, he1, he2⟩ := exists_binade q hq
  have hone : (1 : ℚ) < 2 := by norm_num
  have hge : -1022 ≤ e := by
    have := (zpow_lt_zpow_iff_right₀ hone).1 (lt_of_le_of_lt hlo he2)
    omega
  have hle : e ≤ 52 := by
    have h53 : (2 : ℚ) ^ (53 : Nat) = 2 ^ ((53 : Nat) : Int) := (zpow_natCast _ _).symm
    have := (zpow_lt_zpow_iff_right₀ hone).1 (lt_of_le_of_lt he1 (h53 ▸ hhi))
    omega
  have hdpos : 0 < q.den := q.den_pos
  have hdq : (0 : ℚ) < q.den := by exact_mod_cast hdpos
  rw [heq, numberOfRatio_eq q.num.toNat q.den hnpos hdpos e (hquot.symm ▸ he1)
    (hquot.symm ▸ he2) hge hle]
  refine ⟨_, rfl, ?_⟩
  obtain ⟨h1, h2⟩ := divRoundEven_near (q.num.toNat * 2 ^ (52 - e).toNat) q.den hdpos
  generalize divRoundEven (q.num.toNat * 2 ^ (52 - e).toNat) q.den = k at h1 h2 ⊢
  have hs : ((52 - e).toNat : Int) = 52 - e := Int.toNat_of_nonneg (by omega)
  generalize (52 - e).toNat = s at h1 h2 hs ⊢
  have hspos : (0 : ℚ) < 2 ^ s := by positivity
  have h1q : 2 * ((k : ℚ) * q.den) ≤ 2 * (q.num.toNat * 2 ^ s) + q.den := by exact_mod_cast h1
  have h2q : 2 * ((q.num.toNat : ℚ) * 2 ^ s) ≤ 2 * (k * q.den) + q.den := by exact_mod_cast h2
  have hn : (q.num.toNat : ℚ) = q * q.den := by
    rw [eq_comm, ← eq_div_iff hdq.ne']
    exact hquot.symm
  rw [hn] at h1q h2q
  have hk1 : (k : ℚ) - q * 2 ^ s ≤ 1 / 2 := by
    have : 2 * ((k : ℚ) - q * 2 ^ s) * q.den ≤ 1 * q.den := by nlinarith
    have := le_of_mul_le_mul_right this hdq
    linarith
  have hk2 : q * 2 ^ s - (k : ℚ) ≤ 1 / 2 := by
    have : 2 * (q * 2 ^ s - (k : ℚ)) * q.den ≤ 1 * q.den := by nlinarith
    have := le_of_mul_le_mul_right this hdq
    linarith
  have habs : |(k : ℚ) / 2 ^ s - q| * 2 ^ s ≤ 1 / 2 := by
    have : (k : ℚ) / 2 ^ s - q = (k - q * 2 ^ s) / 2 ^ s := by
      field_simp
      ring
    rw [this, abs_div, abs_of_pos hspos, div_mul_cancel₀ _ hspos.ne', abs_le]
    constructor <;> linarith
  have hpow : (2 : ℚ) ^ (53 : Nat) = 2 ^ e * 2 ^ s * 2 := by
    rw [← zpow_natCast (2 : ℚ) s, hs, ← zpow_add₀ (by norm_num : (2 : ℚ) ≠ 0)]
    rw [show e + (52 - e) = ((52 : Nat) : Int) by push_cast; ring, zpow_natCast]
    norm_num
  calc |(k : ℚ) / 2 ^ s - q| * 2 ^ 53 = |(k : ℚ) / 2 ^ s - q| * 2 ^ s * (2 ^ e * 2) := by
        rw [hpow]; ring
    _ ≤ 1 / 2 * (2 ^ e * 2) := by
        apply mul_le_mul_of_nonneg_right habs (by positivity)
    _ = 2 ^ e := by ring
    _ ≤ q := he1

/-- A natural number below `2^53` is a double. -/
theorem numberOfRat_natCast (n : Nat) (h : n < 2 ^ 53) : numberOfRat (n : ℚ) = .finite n := by
  rcases Nat.eq_zero_or_pos n with rfl | hpos
  · simp [numberOfRat, numberOfRatio]
  · have hq : (0 : ℚ) < n := by exact_mod_cast hpos
    obtain ⟨e, he1, he2⟩ := exists_binade (n : ℚ) hq
    have hone : (1 : ℚ) < 2 := by norm_num
    have hge : -1022 ≤ e := by
      have h1 : (2 : ℚ) ^ (0 : Int) ≤ n := by simpa using (by exact_mod_cast hpos : (1 : ℚ) ≤ n)
      have := (zpow_lt_zpow_iff_right₀ hone).1 (lt_of_le_of_lt h1 he2)
      omega
    have hle : e ≤ 52 := by
      have h53 : (n : ℚ) < 2 ^ ((53 : Nat) : Int) := by
        rw [zpow_natCast]; exact_mod_cast h
      have := (zpow_lt_zpow_iff_right₀ hone).1 (lt_of_le_of_lt he1 h53)
      omega
    have heq : numberOfRat (n : ℚ) = numberOfRatio n 1 := by
      simp [numberOfRat]
    rw [heq, numberOfRatio_eq n 1 hpos (by decide) e (by simpa using he1) (by simpa using he2)
      hge hle, divRoundEven_one]
    congr 1
    push_cast
    field_simp

/-! ## The verdict of `POST /interview-summary` -/

/-- The sum of whole scores is exact as long as it stays below `2^53`. -/
theorem sumScores_whole (ns : List Nat) (a : Nat) (h : a + ns.sum < 2 ^ 53) :
    sumScores (.finite a) (ns.map (fun n : Nat => Json.num (n : ℚ))) = some (.finite ((a + ns.sum : Nat) : ℚ)) := by
  induction ns generalizing a with
  | nil => simp [sumScores]
  | cons n ns ih =>
    simp only [List.sum_cons] at h
    simp only [List.map_cons, sumScores, scoreOperand, addNumber, List.sum_cons]
    have hcast : ((a : ℚ) + (n : ℚ)) = ((a + n : Nat) : ℚ) := by push_cast; rfl
    rw [hcast, numberOfRat_natCast (a + n) (by omega), ih (a + n) (by omega)]
    congr 3
    omega

/-- The digit count of `toFixed(1)`: `tenths` reaches `m` exactly when the number
reaches `m / 10 - 1 / 20`. -/
theorem tenths_ge_iff (x : ℚ) (hx : 0 ≤ x) (m : Nat) :
    m ≤ (20 * x.num.natAbs + x.den) / (2 * x.den) ↔ ((2 * m : ℚ) - 1) / 20 ≤ x := by
  have hdpos : 0 < x.den := x.den_pos
  have hdq : (0 : ℚ) < x.den := by exact_mod_cast hdpos
  have hnum : 0 ≤ x.num := Rat.num_nonneg.2 hx
  have habs : ((x.num.natAbs : Int)) = x.num := Int.natAbs_of_nonneg hnum
  have hxq : (x.num.natAbs : ℚ) = x * x.den := by
    have h1 : (x.num.natAbs : ℚ) = (x.num : ℚ) := by rw [← Int.cast_natCast, habs]
    rw [h1, eq_comm, ← eq_div_iff hdq.ne']
    exact (Rat.num_div_den x).symm
  rw [Nat.le_div_iff_mul_le (by omega)]
  constructor
  · intro h
    have hq : ((m * (2 * x.den) : Nat) : ℚ) ≤ ((20 * x.num.natAbs + x.den : Nat) : ℚ) := by
      exact_mod_cast h
    push_cast at hq
    rw [hxq] at hq
    rw [div_le_iff₀ (by norm_num : (0 : ℚ) < 20)]
    have : (2 * (m : ℚ) - 1) * x.den ≤ x * 20 * x.den := by nlinarith
    exact le_of_mul_le_mul_right this hdq
  · intro h
    rw [div_le_iff₀ (by norm_num : (0 : ℚ) < 20)] at h
    have hq : ((m : ℚ) * (2 * x.den)) ≤ (20 * (x.num.natAbs : ℚ) + x.den) := by
      rw [hxq]
      nlinarith
    exact_mod_cast hq

theorem numberOfRat_zero : numberOfRat 0 = .finite 0 := by
  simp [numberOfRat, numberOfRatio]

/-- Comparison of the number read back from the text of `toFixed(1)` with a
whole number `c`: it holds exactly when the tenths reach `10 * c`. -/
theorem tenths_atLeast (n c : Nat) (hc : 0 < c) (hcb : 10 * c + 1 ≤ 2 ^ 53)
    (hn : n < 10 * 2 ^ 53) :
    (numberOfRat ((n : ℚ) / 10)).atLeast c = decide (10 * c ≤ n) := by
  have hcq : (0 : ℚ) < c := by exact_mod_cast hc
  rcases Nat.eq_zero_or_pos n with rfl | hpos
  · have h0 : ((0 : Nat) : ℚ) / 10 = 0 := by norm_num
    rw [h0, numberOfRat_zero]
    simp only [JsNumber.atLeast]
    have : ¬ 10 * c ≤ 0 := by omega
    simp [this, not_le.2 hcq]
  · by_cases heq : n = 10 * c
    · subst heq
      have h1 : ((10 * c : Nat) : ℚ) / 10 = (c : ℚ) := by push_cast; field_simp
      rw [h1, numberOfRat_natCast c (by omega)]
      simp [JsNumber.atLeast]
    · have hnq : (0 : ℚ) < (n : ℚ) / 10 := by positivity
      have hlo : (2 : ℚ) ^ (-1022 : Int) ≤ (n : ℚ) / 10 := by
        have h1 : (2 : ℚ) ^ (-1022 : Int) ≤ 2 ^ (-4 : Int) :=
          zpow_le_zpow_right₀ (by norm_num) (by norm_num)
        have h2 : (2 : ℚ) ^ (-4 : Int) ≤ (n : ℚ) / 10 := by
          have : (1 : ℚ) ≤ n := by exact_mod_cast hpos
          rw [le_div_iff₀ (by norm_num : (0 : ℚ) < 10)]
          norm_num
          linarith
        exact h1.trans h2
      have hhi : (n : ℚ) / 10 < 2 ^ 53 := by
        rw [div_lt_iff₀ (by norm_num : (0 : ℚ) < 10)]
        have : (n : ℚ) < ((10 * 2 ^ 53 : Nat) : ℚ) := by exact_mod_cast hn
        push_cast at this
        linarith
      obtain ⟨x, hx, herr⟩ := numberOfRat_near ((n : ℚ) / 10) hnq hlo hhi
      rw [hx]
      simp only [JsNumber.atLeast]
      have hcb1 : (10 * (c : ℚ) + 1) ≤ 2 ^ 53 := by exact_mod_cast hcb
      have habs := abs_le.1 (show |x - (n : ℚ) / 10| ≤ (n : ℚ) / 10 / 2 ^ 53 by
        rw [le_div_iff₀ (by positivity)]
        exact herr)
      by_cases hge : 10 * c ≤ n
      · have hgt : 10 * c + 1 ≤ n := by omega
        have hgq : (10 * (c : ℚ) + 1) ≤ n := by exact_mod_cast hgt
        have : (c : ℚ) ≤ x := by
          have h1 : (n : ℚ) / 10 - (n : ℚ) / 10 / 2 ^ 53 ≤ x := by linarith [habs.1]
          have h2 : (c : ℚ) ≤ (n : ℚ) / 10 - (n : ℚ) / 10 / 2 ^ 53 := by
            rw [show (n : ℚ) / 10 - (n : ℚ) / 10 / 2 ^ 53 =
              (n : ℚ) * (2 ^ 53 - 1) / (10 * 2 ^ 53) by field_simp; ring]
            rw [le_div_iff₀ (by positivity)]
            nlinarith
          exact h2.trans h1
        simp [this, hge]
      · have hlt : n + 1 ≤ 10 * c := by omega
        have hlq : (n : ℚ) + 1 ≤ 10 * c := by exact_mod_cast hlt
        have : ¬ (c : ℚ) ≤ x := by
          rw [not_le]
          have h1 : x ≤ (n : ℚ) / 10 + (n : ℚ) / 10 / 2 ^ 53 := by linarith [habs.2]
          have h2 : (n : ℚ) / 10 + (n : ℚ) / 10 / 2 ^ 53 < c := by
            rw [show (n : ℚ) / 10 + (n : ℚ) / 10 / 2 ^ 53 =
              (n : ℚ) * (2 ^ 53 + 1) / (10 * 2 ^ 53) by field_simp; ring]
            rw [div_lt_iff₀ (by positivity)]
            nlinarith
          exact lt_of_le_of_lt h1 h2
        simp [this, hge]

/-- The doubles nearest to 6.95 and to 4.95 are not below them. -/
theorem numberOfRat_ties :
    (∃ x : ℚ, numberOfRat (139 / 20) = .finite x ∧ 139 / 20 ≤ x) ∧
    (∃ x : ℚ, numberOfRat (99 / 20) = .finite x ∧ 99 / 20 ≤ x) := by
  constructor
  · obtain ⟨heq, _, _⟩ := numberOfRat_of_pos (139 / 20) (by norm_num)
    have hnum : ((139 : ℚ) / 20).num.toNat = 139 := by
      have : ((139 : ℚ) / 20).num = 139 := by norm_num
      rw [this]
      rfl
    have hden : ((139 : ℚ) / 20).den = 20 := by norm_num
    rw [hnum, hden] at heq
    rw [heq, numberOfRatio_eq 139 20 (by decide) (by decide) 2 (by norm_num) (by norm_num)
      (by decide) (by decide)]
    refine ⟨_, rfl, ?_⟩
    have hk : divRoundEven (139 * 2 ^ (52 - 2 : Int).toNat) 20 = 7825004352556237 := by decide
    have hs : (52 - 2 : Int).toNat = 50 := rfl
    rw [hk, hs]
    norm_num
  · obtain ⟨heq, _, _⟩ := numberOfRat_of_pos (99 / 20) (by norm_num)
    have hnum : ((99 : ℚ) / 20).num.toNat = 99 := by
      have : ((99 : ℚ) / 20).num = 99 := by norm_num
      rw [this]
      rfl
    have hden : ((99 : ℚ) / 20).den = 20 := by norm_num
    rw [hnum, hden] at heq
    rw [heq, numberOfRatio_eq 99 20 (by decide) (by decide) 2 (by norm_num) (by norm_num)
      (by decide) (by decide)]
    refine ⟨_, rfl, ?_⟩
    have hk : divRoundEven (99 * 2 ^ (52 - 2 : Int).toNat) 20 = 5573204538870989 := by decide
    have hs : (52 - 2 : Int).toNat = 50 := rfl
    rw [hk, hs]
    norm_num

/-- The quotient of a sum of whole scores by their count, as a double: it is
not negative, stays below `2^49`, and lies on the same side of `p / 20` as the
exact average, provided the double nearest to `p / 20` is not below it. -/
theorem average_side (total count p : Nat) (hcount : 0 < count) (hlen : count < 2 ^ 32)
    (hsum : total < 2 ^ 48) (hp : 0 < p)
    (htie : ∃ x : ℚ, numberOfRat ((p : ℚ) / 20) = .finite x ∧ (p : ℚ) / 20 ≤ x) :
    ∃ x : ℚ, divNumber (.finite total) count = .finite x ∧ 0 ≤ x ∧ x < 2 ^ 49 ∧
      ((p : ℚ) / 20 ≤ x ↔ (p : ℚ) / 20 ≤ (total : ℚ) / count) := by
  have hkq : (0 : ℚ) < count := by exact_mod_cast hcount
  have hpq : (0 : ℚ) < p := by exact_mod_cast hp
  have hTq : (total : ℚ) < 2 ^ 48 := by exact_mod_cast hsum
  have hkq2 : (count : ℚ) < 2 ^ 32 := by exact_mod_cast hlen
  simp only [divNumber]
  rcases Nat.eq_zero_or_pos total with rfl | hpos
  · refine ⟨0, by simp [numberOfRat_zero], le_refl _, by norm_num, ?_⟩
    simp only [Nat.cast_zero, zero_div]
  · have hT1 : (1 : ℚ) ≤ total := by exact_mod_cast hpos
    have hq : (0 : ℚ) < (total : ℚ) / count := by positivity
    have hqle : (total : ℚ) / count ≤ total := by
      rw [div_le_iff₀ hkq]
      have : (1 : ℚ) ≤ count := by exact_mod_cast hcount
      nlinarith
    have hlo : (2 : ℚ) ^ (-1022 : Int) ≤ (total : ℚ) / count := by
      have h1 : (2 : ℚ) ^ (-1022 : Int) ≤ 2 ^ (-32 : Int) :=
        zpow_le_zpow_right₀ (by norm_num) (by norm_num)
      have h2 : (2 : ℚ) ^ (-32 : Int) ≤ (total : ℚ) / count := by
        rw [le_div_iff₀ hkq]
        have : (2 : ℚ) ^ (-32 : Int) * 2 ^ 32 = 1 := by norm_num
        nlinarith
      exact h1.trans h2
    have hhi : (total : ℚ) / count < 2 ^ 53 := by
      have : (2 : ℚ) ^ 48 < 2 ^ 53 := by norm_num
      linarith
    obtain ⟨x, hx, herr⟩ := numberOfRat_near ((total : ℚ) / count) hq hlo hhi
    have habs := abs_le.1 (show |x - (total : ℚ) / count| ≤ (total : ℚ) / count / 2 ^ 53 by
      rw [le_div_iff₀ (by positivity)]
      exact herr)
    have hsmall : (total : ℚ) / count / 2 ^ 53 < 1 / (20 * count) := by
      rw [div_div, div_lt_div_iff₀ (by positivity) (by positivity)]
      have : (2 : ℚ) ^ 48 * 20 < 2 ^ 53 := by norm_num
      nlinarith
    refine ⟨x, hx, ?_, ?_, ?_⟩
    · have : (total : ℚ) / count / 2 ^ 53 ≤ (total : ℚ) / count := by
        apply div_le_self hq.le
        norm_num
      linarith [habs.1]
    · have : (total : ℚ) / count / 2 ^ 53 ≤ (total : ℚ) / count := by
        apply div_le_self hq.le
        norm_num
      have h49 : (2 : ℚ) ^ 49 = 2 * 2 ^ 48 := by norm_num
      linarith [habs.2]
    · by_cases heq : (total : ℚ) / count = (p : ℚ) / 20
      · obtain ⟨x0, hx0, hle⟩ := htie
        rw [heq] at hx
        rw [hx0] at hx
        simp only [JsNumber.finite.injEq] at hx
        rw [heq, ← hx]
        exact ⟨fun _ => le_refl _, fun _ => hle⟩
      · have hgap : 1 / (20 * (count : ℚ)) ≤ |(total : ℚ) / count - (p : ℚ) / 20| := by
          have hne : (20 * (total : Int) - p * count) ≠ 0 := by
            intro h0
            apply heq
            rw [div_eq_div_iff hkq.ne' (by norm_num)]
            have : (20 * (total : ℚ) - p * count) = 0 := by exact_mod_cast h0
            linarith
          have h1 : (1 : Int) ≤ |20 * (total : Int) - p * count| := Int.one_le_abs hne
          have h1q : (1 : ℚ) ≤ |20 * (total : ℚ) - p * count| := by exact_mod_cast h1
          have : (total : ℚ) / count - (p : ℚ) / 20 =
              (20 * (total : ℚ) - p * count) / (20 * count) := by
            field_simp
            ring
          rw [this, abs_div, abs_of_pos (by positivity : (0 : ℚ) < 20 * count)]
          exact div_le_div_of_nonneg_right h1q (by positivity)
        constructor
        · intro hx1
          by_contra hlt
          rw [not_le] at hlt
          have := abs_of_neg (sub_neg.2 hlt)
          rw [this] at hgap
          linarith [habs.2]
        · intro hq1
          have hpos1 : 0 < (total : ℚ) / count - (p : ℚ) / 20 :=
            sub_pos.2 (lt_of_le_of_ne hq1 (Ne.symm heq))
          rw [abs_of_pos hpos1] at hgap
          linarith [habs.1]

/-- The text of `toFixed(1)` for a double that is not negative and below `2^49`. -/
theorem toFixed1_small (x : ℚ) (h0 : 0 ≤ x) (h1 : x < 2 ^ 49) :
    toFixed1 (.finite x) = .fixed false ((20 * x.num.natAbs + x.den) / (2 * x.den)) ∧
    (20 * x.num.natAbs + x.den) / (2 * x.den) < 10 * 2 ^ 53 := by
  constructor
  · have habs : ¬ (10 : ℚ) ^ 21 ≤ |x| := by
      rw [abs_of_nonneg h0, not_le]
      exact lt_trans h1 (by norm_num)
    simp only [toFixed1, habs, if_false, not_lt.2 h0, decide_False]
  · by_contra hge
    rw [not_lt] at hge
    have := (tenths_ge_iff x h0 (10 * 2 ^ 53)).1 hge
    have hbig : ((2 : ℚ) ^ 49) ≤ (2 * ((10 * 2 ^ 53 : Nat) : ℚ) - 1) / 20 := by
      push_cast
      norm_num
    linarith

/-- The verdict computed from the double `x` of the average. -/
theorem verdictOf_small (x : ℚ) (h0 : 0 ≤ x) (h1 : x < 2 ^ 49) :
    verdictOf (toFixed1 (.finite x)) =
      if (139 : ℚ) / 20 ≤ x then "Strong performance".toList
      else if (99 : ℚ) / 20 ≤ x then "Average performance".toList
      else "Needs improvement".toList := by
  obtain ⟨hfix, hn⟩ := toFixed1_small x h0 h1
  rw [hfix]
  have h7 := tenths_atLeast ((20 * x.num.natAbs + x.den) / (2 * x.den)) 7 (by decide)
    (by decide) hn
  have h5 := tenths_atLeast ((20 * x.num.natAbs + x.den) / (2 * x.den)) 5 (by decide)
    (by decide) hn
  have i7 := tenths_ge_iff x h0 70
  have i5 := tenths_ge_iff x h0 50
  simp only [Nat.cast_ofNat] at h7 h5 i7 i5
  have e7 : (2 * (70 : ℚ) - 1) / 20 = 139 / 20 := by norm_num
  have e5 : (2 * (50 : ℚ) - 1) / 20 = 99 / 20 := by norm_num
  rw [e7] at i7
  rw [e5] at i5
  simp only [verdictOf, Average.toNumber, Bool.false_eq_true, if_false, h7, h5,
    decide_eq_true_eq]
  by_cases c7 : (139 : ℚ) / 20 ≤ x
  · rw [if_pos (i7.2 c7), if_pos c7]
  · rw [if_neg (fun h => c7 (i7.1 h)), if_neg c7]
    by_cases c5 : (99 : ℚ) / 20 ≤ x
    · rw [if_pos (i5.2 c5), if_pos c5]
    · rw [if_neg (fun h => c5 (i5.1 h)), if_neg c5]

/-- The verdict for whole scores with the sum `total`, `count` of them. -/
theorem verdict_whole (total count : Nat) (hcount : 0 < count) (hlen : count < 2 ^ 32)
    (hsum : total < 2 ^ 48) :
    verdictOf (toFixed1 (divNumber (.finite total) count)) =
      if (139 : ℚ) / 20 ≤ (total : ℚ) / count then "Strong performance".toList
      else if (99 : ℚ) / 20 ≤ (total : ℚ) / count then "Average performance".toList
      else "Needs improvement".toList := by
  obtain ⟨x, hx, h0, h1, hside7⟩ := average_side total count 139 hcount hlen hsum (by decide)
    (by simpa using numberOfRat_ties.1)
  obtain ⟨y, hy, _, _, hside5⟩ := average_side total count 99 hcount hlen hsum (by decide)
    (by simpa using numberOfRat_ties.2)
  rw [hx] at hy
  simp only [JsNumber.finite.injEq] at hy
  subst hy
  simp only [Nat.cast_ofNat] at hside7 hside5
  rw [hx, verdictOf_small x h0 h1]
  by_cases c7 : (139 : ℚ) / 20 ≤ x
  · rw [if_pos c7, if_pos (hside7.1 c7)]
  · rw [if_neg c7, if_neg (fun h => c7 (hside7.2 h))]
    by_cases c5 : (99 : ℚ) / 20 ≤ x
    · rw [if_pos c5, if_pos (hside5.1 c5)]
    · rw [if_neg c5, if_neg (fun h => c5 (hside5.2 h))]

/-- The response of `POST /interview-summary` for a session of the caller with
whole scores. -/
theorem interviewSummary_whole (db : Db) (userId : Nat) (interviewId : Str) (r : Interview)
    (ns : List Nat) (hown : getInterview db interviewId userId = some r)
    (hscores : r.scores = ns.map (fun n : Nat => Json.num (n : ℚ))) (hsum : ns.sum < 2 ^ 48) :
    interviewSummary db userId interviewId =
      some (.json ⟨r.role, r.questions.length,
        if ns.length ≠ 0 then toFixed1 (divNumber (.finite ns.sum) ns.length) else .zero,
        r.scores,
        verdictOf (if ns.length ≠ 0 then toFixed1 (divNumber (.finite ns.sum) ns.length)
          else .zero)⟩) := by
  have hs := sumScores_whole ns 0 (by
    have : (2 : Nat) ^ 48 < 2 ^ 53 := by decide
    omega)
  simp only [Nat.zero_add, Nat.cast_zero] at hs
  unfold interviewSummary
  simp only [hown, hscores, hs, List.length_map]

theorem verdictOf_zero : verdictOf .zero = "Needs improvement".toList := by
  simp [verdictOf, Average.toNumber, JsNumber.atLeast]
  norm_num

theorem streakSession_scores :
    streakSession.scores = (List.replicate 20 7 ++ [6]).map (fun n : Nat => Json.num (n : ℚ)) := by
  simp [streakSession]

/-- The text of `toFixed(1)` for the average 146/21 is `7.0`. -/
theorem streak_average :
    toFixed1 (divNumber (.finite ((146 : Nat) : ℚ)) 21) = .fixed false 70 := by
  obtain ⟨x, hx, h0, h1, hside⟩ := average_side 146 21 139 (by decide) (by decide) (by decide)
    (by decide) (by simpa using numberOfRat_ties.1)
  have hq : (0 : ℚ) < ((146 : Nat) : ℚ) / ((21 : Nat) : ℚ) := by norm_num
  obtain ⟨y, hy, herr⟩ := numberOfRat_near (((146 : Nat) : ℚ) / ((21 : Nat) : ℚ)) hq
    (by norm_num) (by norm_num)
  simp only [divNumber] at hx
  rw [hx] at hy
  simp only [JsNumber.finite.injEq] at hy
  subst hy
  have hlow : (139 : ℚ) / 20 ≤ x := hside.2 (by norm_num)
  have hhigh : x < 141 / 20 := by
    have habs := abs_le.1 (show |x - ((146 : Nat) : ℚ) / ((21 : Nat) : ℚ)| ≤
        ((146 : Nat) : ℚ) / ((21 : Nat) : ℚ) / 2 ^ 53 by
      rw [le_div_iff₀ (by positivity)]
      exact herr)
    have : ((146 : Nat) : ℚ) / ((21 : Nat) : ℚ) + ((146 : Nat) : ℚ) / ((21 : Nat) : ℚ) / 2 ^ 53
        < 141 / 20 := by norm_num
    linarith [habs.2]
  have i70 := (tenths_ge_iff x h0 70).2 (by norm_num; linarith)
  have i71 : ¬ 71 ≤ (20 * x.num.natAbs + x.den) / (2 * x.den) := by
    intro h
    have := (tenths_ge_iff x h0 71).1 h
    norm_num at this
    linarith
  simp only [divNumber]
  rw [hx, (toFixed1_small x h0 h1).1]
  congr 1
  omega

/-- C21, refuted as stated: twenty scores of 7 and one score of 6 have the
average 146/21, which is below 7 (about 6.952); the response carries the
average score `7.0` and the verdict `Strong performance`. -/
theorem rounded_average_strong :
    getInterview streakDb "1700000000000".toList 7 = some streakSession ∧
    streakSession.scores = (List.replicate 20 7 ++ [6]).map (fun n : Nat => Json.num (n : ℚ)) ∧
    (List.replicate 20 7 ++ [6]).sum = 146 ∧ (List.replicate 20 7 ++ [6]).length = 21 ∧
    (5 : ℚ) ≤ 146 / 21 ∧ (146 : ℚ) / 21 < 7 ∧
    interviewSummary streakDb 7 "1700000000000".toList =
      some (.json ⟨"Backend Engineer".toList, 21, .fixed false 70, streakSession.scores,
        "Strong performance".toList⟩) := by
  refine ⟨rfl, streakSession_scores, by decide, by decide, by norm_num, by norm_num, ?_⟩
  have h := interviewSummary_whole streakDb 7 "1700000000000".toList streakSession
    (List.replicate 20 7 ++ [6]) rfl streakSession_scores (by decide)
  have hv := verdict_whole 146 21 (by decide) (by decide) (by decide)
  have hsum : (List.replicate 20 7 ++ [6]).sum = 146 := by decide
  have hlen : (List.replicate 20 7 ++ [6]).length = 21 := by decide
  rw [hsum, hlen] at h
  simp only [ne_eq, OfNat.ofNat_ne_zero, not_false_eq_true, if_true] at h
  rw [hv] at h
  have hstrong : (139 : ℚ) / 20 ≤ ((146 : Nat) : ℚ) / ((21 : Nat) : ℚ) := by norm_num
  rw [if_pos hstrong, streak_average] at h
  exact h

/-- C21, amended: for every session of the caller whose scores are whole
numbers, fewer than `2^32` of them with a sum below `2^48`,
`POST /interview-summary` answers with a success that carries the role, the
number of questions, the scores and the verdict `Strong performance` when the
average of the scores is at least 6.95, `Average performance` when it is at
least 4.95 and below 6.95, and `Needs improvement` otherwise, also when there
are no scores. -/
theorem summary_verdict (db : Db) (userId : Nat) (interviewId : Str) (r : Interview)
    (ns : List Nat) (hown : getInterview db interviewId userId = some r)
    (hscores : r.scores = ns.map (fun n : Nat => Json.num (n : ℚ)))
    (hlen : ns.length < 2 ^ 32) (hsum : ns.sum < 2 ^ 48) :
    ∃ body, interviewSummary db userId interviewId = some (.json body) ∧
      body.role = r.role ∧ body.totalQuestions = r.questions.length ∧
      body.scores = r.scores ∧
      body.verdict =
        if ns = [] then "Needs improvement".toList
        else if (139 : ℚ) / 20 ≤ (ns.sum : ℚ) / ns.length then "Strong performance".toList
        else if (99 : ℚ) / 20 ≤ (ns.sum : ℚ) / ns.length then "Average performance".toList
        else "Needs improvement".toList := by
  refine ⟨_, interviewSummary_whole db userId interviewId r ns hown hscores hsum, rfl, rfl, rfl,
    ?_⟩
  by_cases hnil : ns = []
  · subst hnil
    simp only [List.length_nil, ne_eq, not_true_eq_false, if_false, if_true, verdictOf_zero]
  · have hpos : 0 < ns.length := List.length_pos.2 hnil
    simp only [ne_eq, hpos.ne', not_false_eq_true, if_true, hnil, if_false]
    exact verdict_whole ns.sum ns.length hpos hlen hsum

theorem summary_verdict_witness :
    getInterview (run emptyDb [sampleStart, sampleAnswer]) "1700000000000".toList 7 =
      some sampleAnswered ∧
    sampleAnswered.scores = [8].map (fun n : Nat => Json.num (n : ℚ)) ∧
    [8].length < 2 ^ 32 ∧ [8].sum < 2 ^ 48 ∧
    ∃ body, interviewSummary (run emptyDb [sampleStart, sampleAnswer]) 7
        "1700000000000".toList = some (.json body) ∧
      body.role = sampleAnswered.role ∧ body.totalQuestions = sampleAnswered.questions.length ∧
      body.scores = sampleAnswered.scores ∧
      body.verdict =
        if [8] = [] then "Needs improvement".toList
        else if (139 : ℚ) / 20 ≤ (([8] : List Nat).sum : ℚ) / ([8] : List Nat).length then
          "Strong performance".toList
        else if (99 : ℚ) / 20 ≤ (([8] : List Nat).sum : ℚ) / ([8] : List Nat).length then
          "Average performance".toList
        else "Needs improvement".toList :=
  ⟨rfl, rfl, by decide, by decide,
    summary_verdict (run emptyDb [sampleStart, sampleAnswer]) 7 "1700000000000".toList
      sampleAnswered [8] rfl rfl (by decide) (by decide)⟩

end Interviewer
